import Mathlib

/-!
Verification of the `jumbo` JUMBF (ISO/IEC 19566-5) parser and builder.

This file gives a shallow embedding of the crate's core data model and
operations:

* the parser side (`src/parser/data_box.rs`, `src/parser/description_box.rs`,
  `src/parser/super_box.rs`, `src/parser/source.rs`): `DataBox.fromSlice`,
  `DescriptionBox.fromBox`, `SuperBox.fromDataBoxWithDepthLimit`,
  `SuperBox.findByLabel`, `DataBox.offsetWithinSuperbox`;
* the builder side (`src/builder/to_box.rs`, `src/builder/data_box_builder.rs`,
  `src/builder/placeholder_data_box.rs`, `src/builder/super_box_builder.rs`):
  `writeJumbf`, `payloadSize`, `writePayload`, `PlaceholderDataBox.replacePayload`.

Bytes are modelled as `Nat` values (real byte buffers carry values `< 256`;
arithmetic written by the builder reduces modulo 256 exactly where the Rust
code casts to `u8`).  A Rust `&[u8]` slice is modelled as a `ByteSlice`: the
absolute address of its first byte together with its contents, so that the
pointer-arithmetic containment queries of `source.rs` / `data_box.rs` can be
stated faithfully.  Streams (`std::io::Cursor`) are modelled as a byte list
plus a cursor position; the counting sink of `to_box.rs` is a sink whose
seek / position queries fail.
-/

deriving instance DecidableEq for Except

namespace Jumbf

/-- Big-endian interpretation of a byte list (used by `be_u32` / `be_u64` and
the `Source::read_be32` / `read_be64` default implementations). -/
def beNat (l : List Nat) : Nat :=
  l.foldl (fun acc b => acc * 256 + b) 0

/-- The four big-endian bytes of a `u32`-sized value, as written by
`write_jumbf` and `write_be_u32` (each byte is the Rust `as u8` cast, i.e.
reduction mod 256). -/
def encode4 (n : Nat) : List Nat :=
  [(n >>> 24) % 256, (n >>> 16) % 256, (n >>> 8) % 256, n % 256]

/-- A Rust `&[u8]` slice: absolute address of the first byte plus contents.
Sub-slicing keeps the address arithmetic of the original pointer. -/
structure ByteSlice where
  addr : Nat
  bytes : List Nat
deriving DecidableEq, Repr

namespace ByteSlice

/-- Length of the slice (`<[u8]>::len`). -/
def len (s : ByteSlice) : Nat := s.bytes.length

/-- First `n` bytes of the slice (same start address). -/
def take (s : ByteSlice) (n : Nat) : ByteSlice := ⟨s.addr, s.bytes.take n⟩

/-- Slice with the first `n` bytes removed (address advances by `n`). -/
def drop (s : ByteSlice) (n : Nat) : ByteSlice := ⟨s.addr + n, s.bytes.drop n⟩

/-- Model of `Source::offset_of_subsource` for `&[u8]`
(`src/parser/source.rs` lines 137-151): pointer-range containment check
on start addresses and lengths, not content comparison. -/
def offset_of_subsource (s sub : ByteSlice) : Option Nat :=
  if sub.addr < s.addr then
    none
  else if s.len < (sub.addr - s.addr) + sub.len then none
  else some (sub.addr - s.addr)

end ByteSlice

/-- Box type tag: the four raw bytes of `BoxType` (`src/box_type.rs`). -/
abbrev BoxTag : Type := List Nat

/-- `SUPER_BOX_TYPE`: the `b"jumb"` tag. -/
def SUPER_BOX_TYPE : BoxTag := [0x6a, 0x75, 0x6d, 0x62]

/-- `DESCRIPTION_BOX_TYPE`: the `b"jumd"` tag. -/
def DESCRIPTION_BOX_TYPE : BoxTag := [0x6a, 0x75, 0x6d, 0x64]

/-- Failure kinds wrapped as `Error::NomError(kind)` by the nom combinators
used in the parser (`complete::be_u32` / `be_u64` report `Eof`;
`take_until` reports `TakeUntil`). -/
inductive NomKind where
  | eof
  | takeUntil
deriving DecidableEq, Repr

/-- The parser error taxonomy of `src/parser/error.rs`. -/
inductive Error where
  | invalidBoxLength (len : Nat)
  | invalidSuperBoxType (tbox : BoxTag)
  | invalidDescriptionBoxType (tbox : BoxTag)
  | utf8Error
  | incomplete (needed : Nat)
  | nomError (kind : NomKind)
deriving DecidableEq, Repr

/-- A decoded JUMBF box (`DataBox` in `src/parser/data_box.rs`): type tag,
payload slice, and the original slice spanning header plus payload. -/
structure DataBox where
  tbox : BoxTag
  data : ByteSlice
  original : ByteSlice
deriving DecidableEq, Repr

namespace DataBox

/-- Model of `DataBox::from_slice` (`src/parser/data_box.rs` lines 72-111):
read the 32-bit length field, the 4-byte type tag, resolve the payload
length (0 = to end of input, 1 = 64-bit extended length, 2..=7 reserved,
otherwise length minus 8), then consume exactly the payload. -/
def fromSlice (original : ByteSlice) : Except Error (DataBox × ByteSlice) :=
  if original.len < 4 then .error (.nomError .eof)
  else
    let len := beNat (original.bytes.take 4)
    let i := original.drop 4
    if i.len < 4 then .error (.incomplete 4)
    else
      let tbox : BoxTag := i.bytes.take 4
      let i := i.drop 4
      if len == 0 then
        -- payload runs to the end of the input; `original` is the whole input
        finish original i i.len original.len tbox
      else if len == 1 then
        if i.len < 8 then .error (.nomError .eof)
        else
          let xlen := beNat (i.bytes.take 8)
          let i := i.drop 8
          if xlen ≥ 16 then
            finish original i (xlen - 16) xlen tbox
          else
            .error (.invalidBoxLength (xlen % 4294967296))
      else if len ≤ 7 then
        .error (.invalidBoxLength len)
      else
        finish original i (len - 8) len tbox
where
  /-- Shared tail of `from_slice`: consume `payloadLen` bytes as the payload
  and narrow `original` to `originalLen` bytes. -/
  finish (original i : ByteSlice) (payloadLen originalLen : Nat) (tbox : BoxTag) :
      Except Error (DataBox × ByteSlice) :=
    if i.len < payloadLen then .error (.incomplete payloadLen)
    else
      .ok (⟨tbox, i.take payloadLen, original.take originalLen⟩, i.drop payloadLen)

end DataBox

/-- Whether `b` is a UTF-8 continuation byte (`0x80..=0xBF`). -/
def isContByte (b : Nat) : Bool := 0x80 ≤ b && b ≤ 0xBF

/-- Acceptance predicate of Rust's `str::from_utf8`: well-formed UTF-8 per
RFC 3629 (no overlong forms, no surrogates, max `U+10FFFF`). -/
def validUtf8 (l : List Nat) : Bool :=
  match l with
  | [] => true
  | b :: rest =>
    if b ≤ 0x7F then validUtf8 rest
    else if b < 0xC2 then false
    else if b ≤ 0xDF then
      match rest with
      | c :: rest2 => isContByte c && validUtf8 rest2
      | [] => false
    else if b ≤ 0xEF then
      match rest with
      | c1 :: c2 :: rest2 =>
        let lo := if b == 0xE0 then 0xA0 else 0x80
        let hi := if b == 0xED then 0x9F else 0xBF
        (lo ≤ c1 && c1 ≤ hi) && isContByte c2 && validUtf8 rest2
      | _ => false
    else if b ≤ 0xF4 then
      match rest with
      | c1 :: c2 :: c3 :: rest2 =>
        let lo := if b == 0xF0 then 0x90 else 0x80
        let hi := if b == 0xF4 then 0x8F else 0xBF
        (lo ≤ c1 && c1 ≤ hi) && isContByte c2 && isContByte c3 && validUtf8 rest2
      | _ => false
    else false

/-- A decoded JUMBF description box (`DescriptionBox` in
`src/parser/description_box.rs`).  The `label` is kept as its UTF-8 byte
sequence (Rust strings compare equal iff their UTF-8 bytes do); `priv` models
the `private` field. -/
structure DescriptionBox where
  uuid : List Nat
  label : Option (List Nat)
  requestable : Bool
  id : Option Nat
  hash : Option (List Nat)
  priv : Option DataBox
  original : ByteSlice
deriving DecidableEq, Repr

namespace DescriptionBox

/-- The label field of `from_box` (`src/parser/description_box.rs` lines
109-116): when toggle bit 1 (0x02) is set, take the bytes up to the first
null (failing if there is none), validate them as UTF-8, and consume the
terminating null. -/
def readLabel (toggles : Nat) (i : ByteSlice) :
    Except Error (Option (List Nat) × ByteSlice) :=
  if toggles &&& 0x02 ≠ 0 then
    match i.bytes.findIdx? (· == 0) with
    | none => .error (.nomError .takeUntil)
    | some k =>
      if validUtf8 (i.bytes.take k) then .ok (some (i.bytes.take k), i.drop (k + 1))
      else .error .utf8Error
  else .ok (none, i)

/-- The id field of `from_box` (lines 118-125): when toggle bit 2 (0x04) is
set, read a big-endian `u32`. -/
def readId (toggles : Nat) (i : ByteSlice) : Except Error (Option Nat × ByteSlice) :=
  if toggles &&& 0x04 ≠ 0 then
    if i.len < 4 then .error (.nomError .eof)
    else .ok (some (beNat (i.bytes.take 4)), i.drop 4)
  else .ok (none, i)

/-- The hash field of `from_box` (lines 127-143): when toggle bit 3 (0x08)
is set, read exactly 32 bytes. -/
def readHash (toggles : Nat) (i : ByteSlice) :
    Except Error (Option (List Nat) × ByteSlice) :=
  if toggles &&& 0x08 ≠ 0 then
    if i.len < 32 then .error (.incomplete 32)
    else .ok (some (i.bytes.take 32), i.drop 32)
  else .ok (none, i)

/-- The private-box field of `from_box` (lines 145-152): when toggle bit 4
(0x10) is set, recursively decode one nested box. -/
def readPrivate (toggles : Nat) (i : ByteSlice) :
    Except Error (Option DataBox × ByteSlice) :=
  if toggles &&& 0x10 ≠ 0 then
    match DataBox.fromSlice i with
    | .error e => .error e
    | .ok (pbox, rem) => .ok (some pbox, rem)
  else .ok (none, i)

/-- Model of `DescriptionBox::from_box` (`src/parser/description_box.rs`
lines 86-166): check the `jumd` tag, read the 16-byte UUID and the toggles
byte, then read each optional field whose toggle bit is set.  Returns the
description box together with the unconsumed remainder of the box payload. -/
def fromBox (boxx : DataBox) : Except Error (DescriptionBox × ByteSlice) :=
  if boxx.tbox ≠ DESCRIPTION_BOX_TYPE then
    .error (.invalidDescriptionBoxType boxx.tbox)
  else if boxx.data.len < 16 then .error (.incomplete 16)
  else
    match (boxx.data.drop 16).bytes with
    | [] => .error (.nomError .eof)
    | toggles :: _ => do
      let (label, i) ← readLabel toggles ((boxx.data.drop 16).drop 1)
      let (id, i) ← readId toggles i
      let (hash, i) ← readHash toggles i
      let (priv, i) ← readPrivate toggles i
      .ok (⟨boxx.data.bytes.take 16, label, toggles &&& 0x01 ≠ 0, id, hash, priv,
        boxx.original⟩, i)

/-- Model of `DescriptionBox::from_slice`: parse one box and reinterpret it
as a description box, returning the remainder after the box (the remainder
internal to `from_box` is discarded). -/
def fromSource (i : ByteSlice) : Except Error (DescriptionBox × ByteSlice) := do
  let (boxx, rem) ← DataBox.fromSlice i
  let (desc, _) ← fromBox boxx
  .ok (desc, rem)

end DescriptionBox

/-- Successful box decoding consumes at least the 8-byte header: the
remainder is at least 8 bytes shorter than the input. -/
theorem DataBox.fromSlice_rem_length {s : ByteSlice} {b : DataBox} {rem : ByteSlice}
    (h : DataBox.fromSlice s = .ok (b, rem)) : rem.bytes.length + 8 ≤ s.bytes.length := by
  simp only [DataBox.fromSlice, DataBox.fromSlice.finish] at h
  split_ifs at h
  all_goals simp only [Except.ok.injEq, Prod.mk.injEq, reduceCtorEq] at h
  all_goals
    obtain ⟨-, rfl⟩ := h
    simp only [ByteSlice.drop, ByteSlice.len, List.length_drop, List.length_take] at *
    omega

/-- Fuelled form of the `boxes_from_source` loop.  Each successfully parsed
box consumes at least 8 bytes, so running with `fuel = i.len` never reaches
the out-of-fuel arm; `boxesFromSource_eq` below proves the loop's
recurrence. -/
def boxesFromSourceAux : Nat → ByteSlice → Except Error (List DataBox × ByteSlice)
  | fuel, i =>
    if i.len = 0 then .ok ([], i)
    else
      match DataBox.fromSlice i with
      | .error e => .error e
      | .ok (dbox, rem) =>
        match fuel with
        | 0 => .error (.incomplete 0)
        | fuel' + 1 =>
          match boxesFromSourceAux fuel' rem with
          | .error e => .error e
          | .ok (boxes, r) => .ok (dbox :: boxes, r)

/-- Model of the private `boxes_from_source` loop (`src/parser/super_box.rs`
lines 207-219): parse consecutive boxes until the source is exhausted. -/
def boxesFromSource (i : ByteSlice) : Except Error (List DataBox × ByteSlice) :=
  boxesFromSourceAux i.len i

/-- Fuel irrelevance: any fuel at least the input length runs the loop to
completion. -/
theorem boxesFromSourceAux_fuel {fuel g : Nat} (i : ByteSlice)
    (h : i.len ≤ fuel) (h2 : i.len ≤ g) :
    boxesFromSourceAux fuel i = boxesFromSourceAux g i := by
  induction fuel using Nat.strong_induction_on generalizing i g with
  | _ fuel ih =>
    rw [boxesFromSourceAux, boxesFromSourceAux]
    by_cases hz : i.len = 0
    · simp [hz]
    · simp only [hz, if_false]
      cases hb : DataBox.fromSlice i with
      | error e => rfl
      | ok br =>
        obtain ⟨dbox, rem⟩ := br
        have hrem := DataBox.fromSlice_rem_length hb
        obtain ⟨f, hf⟩ : ∃ f, fuel = f + 1 :=
          ⟨fuel - 1, by simp only [ByteSlice.len] at *; omega⟩
        obtain ⟨f2, hf2⟩ : ∃ f2, g = f2 + 1 :=
          ⟨g - 1, by simp only [ByteSlice.len] at *; omega⟩
        subst hf hf2
        dsimp only
        have he := ih f (by omega) (g := f2) rem
          (by simp only [ByteSlice.len] at *; omega)
          (by simp only [ByteSlice.len] at *; omega)
        rw [he]

/-- The recurrence satisfied by `boxes_from_source`: this is exactly the
Rust loop (parse one box, recurse on the remainder until empty). -/
theorem boxesFromSource_eq (i : ByteSlice) :
    boxesFromSource i =
      if i.len = 0 then .ok ([], i)
      else
        match DataBox.fromSlice i with
        | .error e => .error e
        | .ok (dbox, rem) =>
          match boxesFromSource rem with
          | .error e => .error e
          | .ok (boxes, r) => .ok (dbox :: boxes, r) := by
  rw [boxesFromSource, boxesFromSourceAux]
  by_cases hz : i.len = 0
  · simp [hz]
  · simp only [hz, if_false]
    cases hb : DataBox.fromSlice i with
    | error e => rfl
    | ok br =>
      obtain ⟨dbox, rem⟩ := br
      have hrem := DataBox.fromSlice_rem_length hb
      obtain ⟨f, hf⟩ : ∃ f, i.len = f + 1 :=
        ⟨i.len - 1, by simp only [ByteSlice.len] at *; omega⟩
      rw [hf]
      dsimp only
      rw [show boxesFromSource rem = boxesFromSourceAux rem.len rem from rfl]
      rw [boxesFromSourceAux_fuel rem
        (by simp only [ByteSlice.len] at *; omega) (Nat.le_refl rem.len)]

mutual

/-- A decoded JUMBF super box (`SuperBox` in `src/parser/super_box.rs`):
description box, ordered child boxes, original byte range. -/
inductive SuperBox where
  | mk (desc : DescriptionBox) (childBoxes : List ChildBox) (original : ByteSlice)

/-- A child of a super box: either a recursively decoded super box or an
opaque data box (`ChildBox` in `src/parser/super_box.rs`). -/
inductive ChildBox where
  | superBox (sbox : SuperBox)
  | dataBox (dbox : DataBox)

end

/-- Description box of a super box. -/
def SuperBox.desc : SuperBox → DescriptionBox
  | .mk d _ _ => d

/-- Child boxes of a super box, in encounter order. -/
def SuperBox.childBoxes : SuperBox → List ChildBox
  | .mk _ c _ => c

/-- Original byte range of a super box. -/
def SuperBox.original : SuperBox → ByteSlice
  | .mk _ _ o => o

/-- `usize::MAX` on a 64-bit target: the depth limit used by the default
parsing entry points. -/
def USIZE_MAX : Nat := 2 ^ 64 - 1

/-- Map the per-child dispatch `step` over the raw child boxes, stopping at
the first failure (the `collect::<Result<Vec<_>,_>>` in
`from_data_box_with_depth_limit`). -/
def mapChildren (step : DataBox → Except Error ChildBox) :
    List DataBox → Except Error (List ChildBox)
  | [] => .ok []
  | d :: rest =>
    match step d with
    | .error e => .error e
    | .ok c =>
      match mapChildren step rest with
      | .error e => .error e
      | .ok cs => .ok (c :: cs)

/-- The non-recursive shell of `SuperBox::from_data_box_with_depth_limit`
(`src/parser/super_box.rs` lines 98-128): require the `jumb` tag, parse the
mandatory description box, split the remaining payload into consecutive
boxes, and convert each with the given dispatch. -/
def superBoxShell (dataBox : DataBox) (step : DataBox → Except Error ChildBox) :
    Except Error SuperBox :=
  if dataBox.tbox ≠ SUPER_BOX_TYPE then
    .error (.invalidSuperBoxType dataBox.tbox)
  else
    match DescriptionBox.fromSource dataBox.data with
    | .error e => .error e
    | .ok (desc, i) =>
      match boxesFromSource i with
      | .error e => .error e
      | .ok (rawBoxes, _) =>
        match mapChildren step rawBoxes with
        | .error e => .error e
        | .ok childBoxes => .ok (.mk desc childBoxes dataBox.original)

/-- Depth-first form of `from_data_box_with_depth_limit`, structural in the
depth so that it evaluates: at depth 0 every child stays an opaque
`ChildBox::DataBox`; at depth `dl + 1` a `jumb`-tagged child is recursively
decoded with depth `dl` (this is the source's `d.tbox == SUPER_BOX_TYPE &&
depth_limit > 0` dispatch, case-split on `depth_limit`). -/
def SuperBox.fromDataBoxWithDepthLimitAux : Nat → DataBox → Except Error SuperBox
  | 0, dataBox => superBoxShell dataBox (fun d => .ok (.dataBox d))
  | dl + 1, dataBox =>
    superBoxShell dataBox (fun d =>
      if d.tbox = SUPER_BOX_TYPE then
        (SuperBox.fromDataBoxWithDepthLimitAux dl d).map .superBox
      else
        .ok (.dataBox d))

/-- Model of `SuperBox::from_data_box_with_depth_limit`
(`src/parser/super_box.rs` lines 98-128); `fromDataBoxWithDepthLimit_eq`
below restates it as the source's own recursion. -/
def SuperBox.fromDataBoxWithDepthLimit (dataBox : DataBox) (depthLimit : Nat) :
    Except Error SuperBox :=
  SuperBox.fromDataBoxWithDepthLimitAux depthLimit dataBox

/-- `mapChildren` only depends on the pointwise behaviour of the dispatch. -/
theorem mapChildren_congr {step step2 : DataBox → Except Error ChildBox}
    (h : ∀ d, step d = step2 d) (rawBoxes : List DataBox) :
    mapChildren step rawBoxes = mapChildren step2 rawBoxes := by
  induction rawBoxes with
  | nil => rfl
  | cons d rest ih => rw [mapChildren, mapChildren, h d, ih]

/-- `superBoxShell` only depends on the pointwise behaviour of the dispatch. -/
theorem superBoxShell_congr {step step2 : DataBox → Except Error ChildBox}
    (dataBox : DataBox) (h : ∀ d, step d = step2 d) :
    superBoxShell dataBox step = superBoxShell dataBox step2 := by
  rw [superBoxShell, superBoxShell]
  simp only [mapChildren_congr h]

/-- The defining recursion of `from_data_box_with_depth_limit`, exactly as
in the source: each child box whose tag is the super-box tag is recursively
decoded with `depth_limit - 1` when `depth_limit > 0` and kept as an opaque
data box otherwise. -/
theorem SuperBox.fromDataBoxWithDepthLimit_eq (dataBox : DataBox) (depthLimit : Nat) :
    SuperBox.fromDataBoxWithDepthLimit dataBox depthLimit =
      superBoxShell dataBox (fun d =>
        if d.tbox = SUPER_BOX_TYPE ∧ 0 < depthLimit then
          (SuperBox.fromDataBoxWithDepthLimit d (depthLimit - 1)).map .superBox
        else
          .ok (.dataBox d)) := by
  cases depthLimit with
  | zero =>
    rw [SuperBox.fromDataBoxWithDepthLimit, SuperBox.fromDataBoxWithDepthLimitAux]
    refine superBoxShell_congr dataBox fun d => ?_
    simp
  | succ dl =>
    rw [SuperBox.fromDataBoxWithDepthLimit, SuperBox.fromDataBoxWithDepthLimitAux]
    refine superBoxShell_congr dataBox fun d => ?_
    by_cases hd : d.tbox = SUPER_BOX_TYPE
    · simp [hd, SuperBox.fromDataBoxWithDepthLimit]
    · simp [hd]

/-- Model of `SuperBox::from_data_box`: unlimited-depth re-parse. -/
def SuperBox.fromDataBox (dataBox : DataBox) : Except Error SuperBox :=
  SuperBox.fromDataBoxWithDepthLimit dataBox USIZE_MAX

/-- Model of `SuperBox::from_source_with_depth_limit`: parse one box and
re-parse it as a super box, returning the remainder of the input. -/
def SuperBox.fromSourceWithDepthLimit (original : ByteSlice) (depthLimit : Nat) :
    Except Error (SuperBox × ByteSlice) := do
  let (dataBox, rem) ← DataBox.fromSlice original
  let sbox ← SuperBox.fromDataBoxWithDepthLimit dataBox depthLimit
  .ok (sbox, rem)

/-- Model of `SuperBox::from_source` (lines 49-51): parse with an effectively
unbounded depth limit of `usize::MAX`. -/
def SuperBox.fromSource (original : ByteSlice) : Except Error (SuperBox × ByteSlice) :=
  SuperBox.fromSourceWithDepthLimit original USIZE_MAX

/-- Model of `str::split_once('/')` as used by `find_by_label`: split a path
(as UTF-8 bytes; `'/'` is byte 47) at its first slash. -/
def splitOncePath (label : List Nat) : List Nat × Option (List Nat) :=
  match label.findIdx? (· == 47) with
  | some k => (label.take k, some (label.drop (k + 1)))
  | none => (label, none)

/-- The suffix produced by `splitOncePath` is strictly shorter than the
input path (the slash is consumed), which makes `findByLabel` terminate. -/
theorem splitOncePath_suffix_lt {label suf : List Nat}
    (h : (splitOncePath label).2 = some suf) : suf.length < label.length := by
  unfold splitOncePath at h
  cases hf : label.findIdx? (· == 47) with
  | none => rw [hf] at h; simp at h
  | some k =>
    rw [hf] at h
    simp only [Option.some.injEq] at h
    subst h
    cases label with
    | nil => simp [List.findIdx?] at hf
    | cons a l => simp only [List.length_drop, List.length_cons]; omega

/-- The requestable children of `sb` whose description-box label equals
`seg`: the `filter_map` inside `SuperBox::find_by_label`
(`src/parser/super_box.rs` lines 145-162). -/
def SuperBox.matchingChildren (sb : SuperBox) (seg : List Nat) : List SuperBox :=
  sb.childBoxes.filterMap fun cb =>
    match cb with
    | .superBox sbox =>
      match sbox.desc.label with
      | some l => if l = seg ∧ sbox.desc.requestable then some sbox else none
      | none => none
    | .dataBox _ => none

/-- Fuelled form of `find_by_label`; the recursion consumes one path
segment (at least one byte of the path) per step, so `fuel =
label.length` never reaches the out-of-fuel arm (`findByLabel_eq` below
proves the source's recursion). -/
def SuperBox.findByLabelAux : Nat → SuperBox → List Nat → Option SuperBox
  | fuel, sb, label =>
    match sb.matchingChildren (splitOncePath label).1 with
    | [m] =>
      match (splitOncePath label).2 with
      | some suffix =>
        match fuel with
        | 0 => none
        | f + 1 => SuperBox.findByLabelAux f m suffix
      | none => some m
    | _ => none

/-- Model of `SuperBox::find_by_label` (`src/parser/super_box.rs` lines
139-177): treat `label` as a `/`-separated path; at each level keep only the
requestable super-box children whose label equals the current segment, and
proceed only when exactly one matches. -/
def SuperBox.findByLabel (sb : SuperBox) (label : List Nat) : Option SuperBox :=
  SuperBox.findByLabelAux label.length sb label

/-- Fuel irrelevance for `findByLabelAux`. -/
theorem SuperBox.findByLabelAux_fuel {fuel g : Nat} (sb : SuperBox)
    (label : List Nat) (h : label.length ≤ fuel) (h2 : label.length ≤ g) :
    SuperBox.findByLabelAux fuel sb label = SuperBox.findByLabelAux g sb label := by
  induction fuel using Nat.strong_induction_on generalizing sb label g with
  | _ fuel ih =>
    rw [SuperBox.findByLabelAux, SuperBox.findByLabelAux]
    cases hm : sb.matchingChildren (splitOncePath label).1 with
    | nil => rfl
    | cons m tl =>
      cases tl with
      | cons m2 tl2 => rfl
      | nil =>
        cases hsuf : (splitOncePath label).2 with
        | none => rfl
        | some suffix =>
          have hlt := splitOncePath_suffix_lt hsuf
          obtain ⟨f, rfl⟩ : ∃ f, fuel = f + 1 := ⟨fuel - 1, by omega⟩
          obtain ⟨f2, rfl⟩ : ∃ f2, g = f2 + 1 := ⟨g - 1, by omega⟩
          exact ih f (by omega) m suffix (g := f2) (by omega) (by omega)

/-- The defining recursion of `find_by_label`, exactly as in the source. -/
theorem SuperBox.findByLabel_eq (sb : SuperBox) (label : List Nat) :
    sb.findByLabel label =
      (match sb.matchingChildren (splitOncePath label).1 with
       | [m] =>
         (match (splitOncePath label).2 with
          | some suffix => m.findByLabel suffix
          | none => some m)
       | _ => none) := by
  rw [SuperBox.findByLabel, SuperBox.findByLabelAux]
  cases hm : sb.matchingChildren (splitOncePath label).1 with
  | nil => rfl
  | cons m tl =>
    cases tl with
    | cons m2 tl2 => rfl
    | nil =>
      cases hsuf : (splitOncePath label).2 with
      | none => rfl
      | some suffix =>
        have hlt := splitOncePath_suffix_lt hsuf
        obtain ⟨k, hk⟩ : ∃ k, label.length = k + 1 := ⟨label.length - 1, by omega⟩
        rw [hk]
        exact SuperBox.findByLabelAux_fuel m suffix (by omega) (Nat.le_refl _)

/-- Model of `SuperBox::data_box` (lines 184-191): the first child box, only
if it is a plain data box. -/
def SuperBox.dataBox (sb : SuperBox) : Option DataBox :=
  match sb.childBoxes.head? with
  | some (.dataBox db) => some db
  | _ => none

/-- Model of `DataBox::offset_within_superbox` (`src/parser/data_box.rs`
lines 144-158): pointer comparison of the box's `data` region against the
super box's `original` region. -/
def DataBox.offsetWithinSuperbox (db : DataBox) (superBox : SuperBox) : Option Nat :=
  if db.data.addr < superBox.original.addr then none
  else if superBox.original.len < (db.data.addr - superBox.original.addr) + db.data.len then
    none
  else some (db.data.addr - superBox.original.addr)

/-! ## Builder side -/

/-- Builder-side failures, each a distinct `std::io::Error` raised by the
crate (`src/builder/*.rs`); `unsupportedLargePayload` stands for the
`unimplemented!()` reached for payloads beyond the 32-bit header form, and
`countingSeek` for the seek error of the counting sink. -/
inductive IoError where
  | replacePayloadTooLarge (len reserve : Nat)
  | replacePayloadNoOffset
  | placeholderEmptyStream
  | countingSeek
  | unsupportedLargePayload
deriving DecidableEq, Repr

/-- A writable and seekable sink (`Cursor<Vec<u8>>`-like): contents plus
cursor position.  `counting := true` models the `CountingSink` of
`to_box.rs`, whose writes only count and whose seeks fail. -/
structure Sink where
  data : List Nat
  pos : Nat
  counting : Bool
deriving DecidableEq, Repr

namespace Sink

/-- Model of `Write::write_all` on a cursor: overwrite at the current
position, zero-padding any gap past the end, and advance the cursor. -/
def writeAll (s : Sink) (buf : List Nat) : Sink :=
  { s with
    data := s.data.take s.pos ++ List.replicate (s.pos - s.data.length) 0
      ++ buf ++ s.data.drop (s.pos + buf.length),
    pos := s.pos + buf.length }

/-- Model of `Seek::stream_position` (a seek by 0): fails on the counting
sink, otherwise reports the cursor. -/
def streamPosition (s : Sink) : Except IoError Nat :=
  if s.counting then .error .countingSeek else .ok s.pos

/-- Model of `seek(SeekFrom::Start(n))`. -/
def seekStart (s : Sink) (n : Nat) : Except IoError Sink :=
  if s.counting then .error .countingSeek else .ok { s with pos := n }

/-- The throwaway counting sink used by the default `payload_size`. -/
def countingSink : Sink := ⟨[], 0, true⟩

/-- A fresh empty in-memory cursor. -/
def emptySink : Sink := ⟨[], 0, false⟩

end Sink

/-- Model of `PlaceholderDataBox` (`src/builder/placeholder_data_box.rs`):
type tag, reserved size, and the interior-mutable recorded offset. -/
structure PlaceholderDataBox where
  tbox : BoxTag
  size : Nat
  offset : Option Nat
deriving DecidableEq, Repr

namespace PlaceholderDataBox

/-- Model of `PlaceholderDataBox::replace_payload` (lines 72-94): reject
oversized payloads; otherwise require a recorded offset, seek there and
overwrite in place. -/
def replacePayload (p : PlaceholderDataBox) (s : Sink) (payload : List Nat) :
    Except IoError Sink :=
  if p.size < payload.length then
    .error (.replacePayloadTooLarge payload.length p.size)
  else
    match p.offset with
    | some off => do
      let s ← s.seekStart off
      .ok (s.writeAll payload)
    | none => .error .replacePayloadNoOffset

/-- Model of `PlaceholderDataBox::write_payload` (lines 106-124): fail when
the sink reports position 0; otherwise record the position as the offset
and write `size` zero bytes.  Returns the result together with the
(possibly updated) box state and sink. -/
def writePayload (p : PlaceholderDataBox) (s : Sink) :
    Except IoError Unit × PlaceholderDataBox × Sink :=
  match s.streamPosition with
  | .error e => (.error e, p, s)
  | .ok 0 => (.error .placeholderEmptyStream, p, s)
  | .ok off => (.ok (), { p with offset := some off },
      s.writeAll (List.replicate p.size 0))

end PlaceholderDataBox

/-- `MAX_32BIT_PAYLOAD_SIZE` from `src/builder/to_box.rs`. -/
def MAX_32BIT_PAYLOAD_SIZE : Nat := 0xfffffff7

/-- Model of `jumbf_size_from_payload_size` (`src/builder/to_box.rs` lines
112-120); the `unimplemented!()` for larger payloads becomes a loud error. -/
def jumbfSizeFromPayloadSize (payloadSize : Nat) : Except IoError Nat :=
  if payloadSize ≤ MAX_32BIT_PAYLOAD_SIZE then .ok (payloadSize + 8)
  else .error .unsupportedLargePayload

mutual

/-- The closed set of `ToBox` implementations of the crate: data-box,
placeholder and super-box builders (`src/builder/*.rs`). -/
inductive Builder where
  | dataBox (tbox : BoxTag) (data : List Nat)
  | placeholder (p : PlaceholderDataBox)
  | superBox (desc : DescriptionBoxBuilder) (children : List Builder)

/-- The internal `DescriptionBoxBuilder` of `src/builder/super_box_builder.rs`
(lines 202-234); `priv` models the `private` field. -/
inductive DescriptionBoxBuilder where
  | mk (uuid : List Nat) (label : Option (List Nat)) (requestable : Bool)
      (id : Option Nat) (hash : Option (List Nat)) (priv : Option Builder)

end

/-- The box type reported by `ToBox::box_type` for each builder. -/
def Builder.boxType : Builder → BoxTag
  | .dataBox tbox _ => tbox
  | .placeholder p => p.tbox
  | .superBox _ _ => SUPER_BOX_TYPE

mutual

/-- Model of the free function `write_jumbf` (`src/builder/to_box.rs` lines
84-110): compute the payload size, derive the on-wire length (failing loudly
past the 32-bit form before anything is written), then write the 4-byte
big-endian length, the 4-byte tag, and the payload.  Returns the result,
the builder (whose placeholder offsets may have been recorded), and the
sink. -/
def writeJumbf (b : Builder) (s : Sink) : Except IoError Unit × Builder × Sink :=
  match payloadSize b with
  | .error e => (.error e, b, s)
  | .ok psize =>
    match jumbfSizeFromPayloadSize psize with
    | .error e => (.error e, b, s)
    | .ok jsize =>
      let s := s.writeAll (encode4 jsize)
      let s := s.writeAll b.boxType
      writePayload b s
termination_by (sizeOf b, 3)

/-- Model of `ToBox::payload_size` for each builder: `DataBoxBuilder` and
`PlaceholderDataBox` override it with the known size; `SuperBoxBuilder`
(lines 173-181) sums the on-wire sizes of its description box and
children. -/
def payloadSize (b : Builder) : Except IoError Nat :=
  match b with
  | .dataBox _ data => .ok data.length
  | .placeholder p => .ok p.size
  | .superBox desc children =>
    match descPayloadSize desc with
    | .error e => .error e
    | .ok dsize =>
      match jumbfSizeFromPayloadSize dsize with
      | .error e => .error e
      | .ok djsize =>
        match payloadSizeChildren children with
        | .error e => .error e
        | .ok csize => .ok (djsize + csize)
termination_by (sizeOf b, 1)

/-- Sum of `jumbf_size(child)` over the children, in order (the loop in
`SuperBoxBuilder::payload_size`). -/
def payloadSizeChildren (children : List Builder) : Except IoError Nat :=
  match children with
  | [] => .ok 0
  | c :: rest =>
    match jumbfSizeOf c with
    | .error e => .error e
    | .ok csize =>
      match payloadSizeChildren rest with
      | .error e => .error e
      | .ok rsize => .ok (csize + rsize)
termination_by (sizeOf children, 1)

/-- Model of the free function `jumbf_size` (`src/builder/to_box.rs` lines
80-82): payload size plus header size. -/
def jumbfSizeOf (b : Builder) : Except IoError Nat :=
  match payloadSize b with
  | .error e => .error e
  | .ok psize => jumbfSizeFromPayloadSize psize
termination_by (sizeOf b, 2)

/-- Model of `ToBox::write_payload` for each builder: a data box copies its
buffer; a placeholder records its offset and writes zeros; a super box
writes its description box then its children, each via `write_jumbf`
(`SuperBoxBuilder::write_payload`, lines 183-191). -/
def writePayload (b : Builder) (s : Sink) : Except IoError Unit × Builder × Sink :=
  match b with
  | .dataBox tbox data => (.ok (), .dataBox tbox data, s.writeAll data)
  | .placeholder p =>
    match PlaceholderDataBox.writePayload p s with
    | (r, p2, s2) => (r, .placeholder p2, s2)
  | .superBox desc children =>
    match descWriteJumbf desc s with
    | (.error e, desc2, s2) => (.error e, .superBox desc2 children, s2)
    | (.ok _, desc2, s2) =>
      match writeJumbfChildren children s2 with
      | (r, children2, s3) => (r, .superBox desc2 children2, s3)
termination_by (sizeOf b, 2)

/-- The loop of `SuperBoxBuilder::write_payload`: `write_jumbf` each child
in insertion order, stopping at the first failure. -/
def writeJumbfChildren (children : List Builder) (s : Sink) :
    Except IoError Unit × List Builder × Sink :=
  match children with
  | [] => (.ok (), [], s)
  | c :: rest =>
    match writeJumbf c s with
    | (.error e, c2, s2) => (.error e, c2 :: rest, s2)
    | (.ok _, c2, s2) =>
      match writeJumbfChildren rest s2 with
      | (r, rest2, s3) => (r, c2 :: rest2, s3)
termination_by (sizeOf children, 3)

/-- `write_jumbf` applied to the internal description-box builder. -/
def descWriteJumbf (desc : DescriptionBoxBuilder) (s : Sink) :
    Except IoError Unit × DescriptionBoxBuilder × Sink :=
  match descPayloadSize desc with
  | .error e => (.error e, desc, s)
  | .ok psize =>
    match jumbfSizeFromPayloadSize psize with
    | .error e => (.error e, desc, s)
    | .ok jsize =>
      let s := s.writeAll (encode4 jsize)
      let s := s.writeAll DESCRIPTION_BOX_TYPE
      descWritePayload desc s
termination_by (sizeOf desc, 3)

/-- `DescriptionBoxBuilder` does not override `ToBox::payload_size`, so its
size is computed by the default implementation (`to_box.rs` lines 64-69):
run `write_payload` into the counting sink and report the count. -/
def descPayloadSize (desc : DescriptionBoxBuilder) : Except IoError Nat :=
  match descWritePayload desc Sink.countingSink with
  | (.error e, _, _) => .error e
  | (.ok _, _, s) => .ok s.pos
termination_by (sizeOf desc, 2)

/-- Model of `DescriptionBoxBuilder::write_payload`
(`src/builder/super_box_builder.rs` lines 241-299): write the UUID, the
toggles byte derived from which optional fields are set, then the optional
label (null-terminated), id, hash, and private box (the private box via
`write_jumbf`). -/
def descWritePayload (desc : DescriptionBoxBuilder) (s : Sink) :
    Except IoError Unit × DescriptionBoxBuilder × Sink :=
  match desc with
  | .mk uuid label requestable id hash priv =>
    let s := s.writeAll uuid
    let toggles :=
      (if requestable then 0x01 else 0) |||
      (if label.isSome then 0x02 else 0) |||
      (if id.isSome then 0x04 else 0) |||
      (if hash.isSome then 0x08 else 0) |||
      (if priv.isSome then 0x10 else 0)
    let s := s.writeAll [toggles]
    let s := match label with
      | some l => (s.writeAll l).writeAll [0]
      | none => s
    let s := match id with
      | some v => s.writeAll (encode4 v)
      | none => s
    let s := match hash with
      | some h => s.writeAll h
      | none => s
    match priv with
    | some pb =>
      match writeJumbf pb s with
      | (r, pb2, s2) => (r, .mk uuid label requestable id hash (some pb2), s2)
    | none => (.ok (), .mk uuid label requestable id hash none, s)
termination_by (sizeOf desc, 1)

end

/-- The 119-byte JUMBF stream used by the parser test suite's
`abuse_read_to_eof` scenario: an outer super box with length field 0
(read to end of input) containing a `c2pa.signature`-labelled description
box and one `uuid` child whose length field is also 0, so that re-parsing a
truncated prefix of the same buffer also succeeds. -/
def signatureExampleJumbf : List Nat :=
  [0, 0, 0, 0, 0x6a, 0x75, 0x6d, 0x62,
   0, 0, 0, 0x28, 0x6a, 0x75, 0x6d, 0x64,
   0x63, 0x32, 0x63, 0x73, 0x00, 0x11, 0x00, 0x10,
   0x80, 0x00, 0x00, 0xaa, 0x00, 0x38, 0x9b, 0x71,
   0x03,
   0x63, 0x32, 0x70, 0x61, 0x2e, 0x73, 0x69, 0x67,
   0x6e, 0x61, 0x74, 0x75, 0x72, 0x65, 0x00,
   0, 0, 0, 0, 0x75, 0x75, 0x69, 0x64,
   0x63, 0x32, 0x63, 0x73, 0x00, 0x11, 0x00, 0x10,
   0x80, 0x00, 0x00, 0xaa, 0x00, 0x38, 0x9b, 0x71,
   0x74, 0x68, 0x69, 0x73, 0x20, 0x77, 0x6f, 0x75, 0x6c, 0x64, 0x20, 0x6e,
   0x6f, 0x72, 0x6d, 0x61, 0x6c, 0x6c, 0x79, 0x20, 0x62, 0x65, 0x20, 0x62,
   0x69, 0x6e, 0x61, 0x72, 0x79, 0x20, 0x73, 0x69, 0x67, 0x6e, 0x61, 0x74,
   0x75, 0x72, 0x65, 0x20, 0x64, 0x61, 0x74, 0x61, 0x2e, 0x2e, 0x2e]

/-- Parse the full 119-byte example, then re-parse its first `ancestorLen`
bytes (same base buffer, so the slices occupy overlapping addresses), and
query the full parse's first child against the re-parsed super box.
Returns `some result` when both parses and the child lookup succeed. -/
def offsetDemo (ancestorLen : Nat) : Option (Option Nat) :=
  match SuperBox.fromSource ⟨0, signatureExampleJumbf⟩ with
  | .ok (sbFull, _) =>
    match SuperBox.fromSource ⟨0, signatureExampleJumbf.take ancestorLen⟩ with
    | .ok (sbAnc, _) =>
      match sbFull.dataBox with
      | some db => some (db.offsetWithinSuperbox sbAnc)
      | none => none
    | .error _ => none
  | .error _ => none

/-- A 25-byte description box with a zero UUID and no optional fields,
used to demonstrate the depth limit. -/
def descDemoBytes : List Nat :=
  [0, 0, 0, 25, 0x6a, 0x75, 0x6d, 0x64] ++ List.replicate 16 0 ++ [0]

/-- A 33-byte super box containing just `descDemoBytes`. -/
def innerDemoBytes : List Nat := [0, 0, 0, 33, 0x6a, 0x75, 0x6d, 0x62] ++ descDemoBytes

/-- A raw super box whose payload is a description box followed by one
nested super box (`innerDemoBytes`). -/
def depthDemoBox : DataBox :=
  ⟨SUPER_BOX_TYPE, ⟨8, descDemoBytes ++ innerDemoBytes⟩, ⟨0, [9]⟩⟩

/-- The decoded description box of `depthDemoBox`. -/
def depthDemoDesc : DescriptionBox :=
  ⟨List.replicate 16 0, none, false, none, none, none, ⟨8, descDemoBytes⟩⟩

/-- The raw (undecoded) nested super box inside `depthDemoBox`. -/
def depthDemoInnerRaw : DataBox :=
  ⟨SUPER_BOX_TYPE, ⟨41, descDemoBytes⟩, ⟨33, innerDemoBytes⟩⟩

/-- The decoded nested super box inside `depthDemoBox`. -/
def depthDemoInnerSB : SuperBox :=
  .mk ⟨List.replicate 16 0, none, false, none, none, none, ⟨41, descDemoBytes⟩⟩ []
    ⟨33, innerDemoBytes⟩

/-! ### Byte-level specification of the builder output

These definitions spell out, as plain byte lists, what the builder's write
path emits for a super box whose children and private box are data boxes.
They are related to `writeJumbf` by the lemmas that follow. -/

/-- The on-wire bytes of one data-box child `(tag, payload)`:
4-byte big-endian length `payload.length + 8`, the tag, the payload. -/
def childJumbfBytes (c : BoxTag × List Nat) : List Nat :=
  encode4 (c.2.length + 8) ++ c.1 ++ c.2

/-- Concatenated on-wire bytes of a list of data-box children. -/
def childrenJumbfBytes : List (BoxTag × List Nat) → List Nat
  | [] => []
  | c :: rest => childJumbfBytes c ++ childrenJumbfBytes rest

/-- The toggles byte derived from which optional description-box fields are
set (`DescriptionBoxBuilder::write_payload`, lines 246-276). -/
def descToggles (label : Option (List Nat)) (requestable : Bool) (id : Option Nat)
    (hash : Option (List Nat)) (priv : Option (BoxTag × List Nat)) : Nat :=
  (if requestable then 0x01 else 0) |||
  (if label.isSome then 0x02 else 0) |||
  (if id.isSome then 0x04 else 0) |||
  (if hash.isSome then 0x08 else 0) |||
  (if priv.isSome then 0x10 else 0)

/-- The bytes of the optional null-terminated label field. -/
def labelFieldBytes : Option (List Nat) → List Nat
  | some l => l ++ [0]
  | none => []

/-- The bytes of the optional big-endian 32-bit id field. -/
def idFieldBytes : Option Nat → List Nat
  | some v => encode4 v
  | none => []

/-- The bytes of the optional 32-byte hash field. -/
def hashFieldBytes : Option (List Nat) → List Nat
  | some h => h
  | none => []

/-- The bytes of the optional private data box. -/
def privFieldBytes : Option (BoxTag × List Nat) → List Nat
  | some c => childJumbfBytes c
  | none => []

/-- The payload bytes the description-box builder writes: UUID, toggles,
then the optional null-terminated label, big-endian id, hash, and private
box. -/
def descPayloadBytes (uuid : List Nat) (label : Option (List Nat)) (requestable : Bool)
    (id : Option Nat) (hash : Option (List Nat)) (priv : Option (BoxTag × List Nat)) :
    List Nat :=
  uuid ++ [descToggles label requestable id hash priv] ++
  labelFieldBytes label ++ idFieldBytes id ++ hashFieldBytes hash ++
  privFieldBytes priv

/-- The data box recovered by re-parsing a private box written at address
`a2`. -/
def privBoxAt (a2 : Nat) (c : BoxTag × List Nat) : DataBox :=
  ⟨c.1, ⟨a2 + 8, c.2⟩, ⟨a2, childJumbfBytes c⟩⟩

/-- The full on-wire description box: header plus `descPayloadBytes`. -/
def descJumbfBytes (uuid : List Nat) (label : Option (List Nat)) (requestable : Bool)
    (id : Option Nat) (hash : Option (List Nat)) (priv : Option (BoxTag × List Nat)) :
    List Nat :=
  encode4 ((descPayloadBytes uuid label requestable id hash priv).length + 8) ++
  DESCRIPTION_BOX_TYPE ++ descPayloadBytes uuid label requestable id hash priv

/-- The full on-wire super box: header, `jumb` tag, description box, then
the children in order. -/
def superJumbfBytes (uuid : List Nat) (label : Option (List Nat)) (requestable : Bool)
    (id : Option Nat) (hash : Option (List Nat)) (priv : Option (BoxTag × List Nat))
    (children : List (BoxTag × List Nat)) : List Nat :=
  encode4 ((descJumbfBytes uuid label requestable id hash priv
      ++ childrenJumbfBytes children).length + 8) ++
  SUPER_BOX_TYPE ++
  (descJumbfBytes uuid label requestable id hash priv ++ childrenJumbfBytes children)

/-- The `SuperBoxBuilder` value whose children and private box are data
boxes. -/
def builderOf (uuid : List Nat) (label : Option (List Nat)) (requestable : Bool)
    (id : Option Nat) (hash : Option (List Nat)) (priv : Option (BoxTag × List Nat))
    (children : List (BoxTag × List Nat)) : Builder :=
  .superBox (.mk uuid label requestable id hash
      (priv.map fun c => .dataBox c.1 c.2))
    (children.map fun c => .dataBox c.1 c.2)

/-- The data boxes produced by parsing `childrenJumbfBytes cs` starting at
address `a`. -/
def childDataBoxesAt : Nat → List (BoxTag × List Nat) → List DataBox
  | _, [] => []
  | a, c :: rest =>
    ⟨c.1, ⟨a + 8, c.2⟩, ⟨a, childJumbfBytes c⟩⟩ ::
      childDataBoxesAt (a + 8 + c.2.length) rest

/-! ## Helper lemmas -/

/-- The 4-byte big-endian encoding emitted by the builder decodes to the
encoded value for anything that fits in 32 bits. -/
theorem beNat_encode4 {n : Nat} (h : n < 4294967296) : beNat (encode4 n) = n := by
  simp only [beNat, encode4, List.foldl, Nat.shiftRight_eq_div_pow]
  omega

/-- The length header is always 4 bytes. -/
theorem encode4_length (n : Nat) : (encode4 n).length = 4 := rfl

/-- Writing to a sink whose cursor sits at the end of its contents appends
the buffer. -/
theorem Sink.writeAll_aligned {s : Sink} (h : s.pos = s.data.length) (buf : List Nat) :
    s.writeAll buf = ⟨s.data ++ buf, s.pos + buf.length, s.counting⟩ := by
  simp only [Sink.writeAll, h]
  congr 1
  rw [List.take_length, Nat.sub_self, List.replicate_zero,
    List.drop_eq_nil_of_le (by omega)]
  simp

/-- Taking the length of a leading segment recovers it. -/
theorem take_len_append (pre rest : List Nat) : (pre ++ rest).take pre.length = pre := by
  simp

/-- Behaviour of `PlaceholderDataBox::write_payload` on a real sink whose
reported position is 0: error, with box and sink untouched. -/
theorem PlaceholderDataBox.writePayload_pos_zero (p : PlaceholderDataBox) {s : Sink}
    (hc : s.counting = false) (h0 : s.pos = 0) :
    PlaceholderDataBox.writePayload p s = (.error .placeholderEmptyStream, p, s) := by
  simp [PlaceholderDataBox.writePayload, Sink.streamPosition, hc, h0]

/-- Behaviour of `PlaceholderDataBox::write_payload` on a real sink with a
nonzero position: record the position as the offset and write `size`
zeros. -/
theorem PlaceholderDataBox.writePayload_pos_succ (p : PlaceholderDataBox) {s : Sink}
    (hc : s.counting = false) (hpos : 0 < s.pos) :
    PlaceholderDataBox.writePayload p s =
      (.ok (), { p with offset := some s.pos },
       s.writeAll (List.replicate p.size 0)) := by
  obtain ⟨k, hk⟩ : ∃ k, s.pos = k + 1 := ⟨s.pos - 1, by omega⟩
  simp [PlaceholderDataBox.writePayload, Sink.streamPosition, hc, hk]

/-- Dropping the length of a leading segment leaves the rest. -/
theorem drop_len_append (pre rest : List Nat) : (pre ++ rest).drop pre.length = rest := by
  simp

/-- Inversion for `Except` bind: a successful bind factors through a
successful first step. -/
theorem except_bind_ok {e a b : Type} {x : Except e a} {f : a → Except e b} {v : b} :
    (x >>= f) = .ok v ↔ ∃ w, x = .ok w ∧ f w = .ok v := by
  cases x with
  | error err => simp [Bind.bind, Except.bind]
  | ok w => simp [Bind.bind, Except.bind]

/-- Masking with a constant below 32 only sees the value modulo 32. -/
theorem land_mod32 (k : Nat) (hk : k < 32) (t : Nat) : t &&& k = t % 32 &&& k := by
  apply Nat.eq_of_testBit_eq
  intro i
  rw [Nat.testBit_land, Nat.testBit_land]
  rcases Nat.lt_or_ge i 5 with h | h
  · rw [show (32 : Nat) = 2 ^ 5 from rfl, Nat.testBit_mod_two_pow]
    simp [h]
  · have hbit : k.testBit i = false := by
      apply Nat.testBit_eq_false_of_lt
      calc k < 32 := hk
        _ = 2 ^ 5 := rfl
        _ ≤ 2 ^ i := Nat.pow_le_pow_right (by omega) h
    simp [hbit]

/-- On success, the label is present exactly when toggle bit 1 (0x02) is
set. -/
theorem DescriptionBox.readLabel_isSome {t : Nat} {i i2 : ByteSlice}
    {lab : Option (List Nat)} (h : DescriptionBox.readLabel t i = .ok (lab, i2)) :
    (lab.isSome = true ↔ t &&& 0x02 ≠ 0) := by
  rw [DescriptionBox.readLabel] at h
  split_ifs at h with hbit
  · split at h
    all_goals try split_ifs at h with hv
    all_goals simp only [Except.ok.injEq, Prod.mk.injEq, reduceCtorEq] at h
    all_goals obtain ⟨h1, -⟩ := h
    all_goals rw [← h1]; simp [hbit]
  · simp only [Except.ok.injEq, Prod.mk.injEq] at h
    obtain ⟨h1, -⟩ := h
    rw [← h1]; simp [hbit]

/-- On success, the id is present exactly when toggle bit 2 (0x04) is set. -/
theorem DescriptionBox.readId_isSome {t : Nat} {i i2 : ByteSlice}
    {idv : Option Nat} (h : DescriptionBox.readId t i = .ok (idv, i2)) :
    (idv.isSome = true ↔ t &&& 0x04 ≠ 0) := by
  rw [DescriptionBox.readId] at h
  split_ifs at h with hbit hlen
  all_goals simp only [Except.ok.injEq, Prod.mk.injEq, reduceCtorEq] at h
  all_goals obtain ⟨h1, -⟩ := h
  all_goals rw [← h1]; simp [hbit]

/-- On success, the hash is present exactly when toggle bit 3 (0x08) is
set. -/
theorem DescriptionBox.readHash_isSome {t : Nat} {i i2 : ByteSlice}
    {hv : Option (List Nat)} (h : DescriptionBox.readHash t i = .ok (hv, i2)) :
    (hv.isSome = true ↔ t &&& 0x08 ≠ 0) := by
  rw [DescriptionBox.readHash] at h
  split_ifs at h with hbit hlen
  all_goals simp only [Except.ok.injEq, Prod.mk.injEq, reduceCtorEq] at h
  all_goals obtain ⟨h1, -⟩ := h
  all_goals rw [← h1]; simp [hbit]

/-- On success, the private box is present exactly when toggle bit 4 (0x10)
is set. -/
theorem DescriptionBox.readPrivate_isSome {t : Nat} {i i2 : ByteSlice}
    {pv : Option DataBox} (h : DescriptionBox.readPrivate t i = .ok (pv, i2)) :
    (pv.isSome = true ↔ t &&& 0x10 ≠ 0) := by
  rw [DescriptionBox.readPrivate] at h
  split_ifs at h with hbit
  · split at h
    all_goals simp only [Except.ok.injEq, Prod.mk.injEq, reduceCtorEq] at h
    all_goals obtain ⟨h1, -⟩ := h
    all_goals rw [← h1]; simp [hbit]
  · simp only [Except.ok.injEq, Prod.mk.injEq] at h
    obtain ⟨h1, -⟩ := h
    rw [← h1]; simp [hbit]

/-- `readLabel` only depends on toggle bit 1. -/
theorem DescriptionBox.readLabel_congr {t1 t2 : Nat} (h : t1 &&& 0x02 = t2 &&& 0x02) :
    DescriptionBox.readLabel t1 = DescriptionBox.readLabel t2 :=
  funext fun i => by rw [DescriptionBox.readLabel, DescriptionBox.readLabel, h]

/-- `readId` only depends on toggle bit 2. -/
theorem DescriptionBox.readId_congr {t1 t2 : Nat} (h : t1 &&& 0x04 = t2 &&& 0x04) :
    DescriptionBox.readId t1 = DescriptionBox.readId t2 :=
  funext fun i => by rw [DescriptionBox.readId, DescriptionBox.readId, h]

/-- `readHash` only depends on toggle bit 3. -/
theorem DescriptionBox.readHash_congr {t1 t2 : Nat} (h : t1 &&& 0x08 = t2 &&& 0x08) :
    DescriptionBox.readHash t1 = DescriptionBox.readHash t2 :=
  funext fun i => by rw [DescriptionBox.readHash, DescriptionBox.readHash, h]

/-- `readPrivate` only depends on toggle bit 4. -/
theorem DescriptionBox.readPrivate_congr {t1 t2 : Nat} (h : t1 &&& 0x10 = t2 &&& 0x10) :
    DescriptionBox.readPrivate t1 = DescriptionBox.readPrivate t2 :=
  funext fun i => by rw [DescriptionBox.readPrivate, DescriptionBox.readPrivate, h]

/-! ## Claim theorems -/

/-- C2: for every input on which `DataBox::from_slice` succeeds, the length
law holds: `data.len()` equals the declared payload length (`L - 8` for
`L ≥ 8`; `X - 16` for the extended `L = 1` form; the bytes remaining after
the 8-byte header when `L = 0`), `original.len()` equals the declared
payload length plus the header length (8, or 16 for the extended form; the
whole input buffer for `L = 0`), and `original` fully contains `data` (the
payload is a suffix of `original`). -/
theorem c2_box_length_law (s : ByteSlice) (box : DataBox) (rem : ByteSlice)
    (h : DataBox.fromSlice s = .ok (box, rem)) :
    (8 ≤ beNat (s.bytes.take 4) →
      box.data.len = beNat (s.bytes.take 4) - 8 ∧
      box.original.len = beNat (s.bytes.take 4)) ∧
    (beNat (s.bytes.take 4) = 0 →
      box.data.len = s.len - 8 ∧ box.original.len = s.len) ∧
    (beNat (s.bytes.take 4) = 1 →
      box.data.len = beNat ((s.bytes.drop 8).take 8) - 16 ∧
      box.original.len = beNat ((s.bytes.drop 8).take 8)) ∧
    box.data.bytes <:+ box.original.bytes := by
  simp only [DataBox.fromSlice, DataBox.fromSlice.finish] at h
  split_ifs at h with h1 h2 h3 h4 h5 h6 h7 h8 h9 h10
  all_goals simp only [Except.ok.injEq, Prod.mk.injEq, reduceCtorEq] at h
  all_goals obtain ⟨rfl, rfl⟩ := h
  all_goals
    simp only [beq_iff_eq] at *
    simp only [ByteSlice.take, ByteSlice.drop, ByteSlice.len, List.length_drop,
      List.length_take, List.drop_drop,
      show (4 : Nat) + 4 = 8 from rfl, show (8 : Nat) + 8 = 16 from rfl,
      show (4 : Nat) + 4 + 8 = 16 from rfl] at *
  -- L = 0 branch
  · refine ⟨fun hL => by omega, fun _ => ⟨by omega, by omega⟩, fun hL => by omega, ?_⟩
    rw [List.take_length, List.take_of_length_le (by simp)]
    exact ⟨s.bytes.take 8, List.take_append_drop 8 s.bytes⟩
  -- L = 1 (extended) branch
  · refine ⟨fun hL => by omega, fun hL => by omega, fun _ => ⟨by omega, by omega⟩, ?_⟩
    refine ⟨s.bytes.take 16, ?_⟩
    have hsplit := (List.take_add s.bytes 16 (beNat ((s.bytes.drop 8).take 8) - 16)).symm
    have h16 : 16 + (beNat ((s.bytes.drop 8).take 8) - 16) =
        beNat ((s.bytes.drop 8).take 8) := by omega
    rw [h16] at hsplit
    exact hsplit
  -- L ≥ 8 branch
  · refine ⟨fun _ => ⟨by omega, by omega⟩, fun hL => by omega, fun hL => by omega, ?_⟩
    refine ⟨s.bytes.take 8, ?_⟩
    have hsplit := (List.take_add s.bytes 8 (beNat (s.bytes.take 4) - 8)).symm
    have h8 : 8 + (beNat (s.bytes.take 4) - 8) = beNat (s.bytes.take 4) := by omega
    rw [h8] at hsplit
    exact hsplit

/-- Witness for C2: the 12-byte box `00000ooc 'abcd' 09090909` decodes with a
4-byte payload and a 12-byte original range. -/
theorem c2_box_length_law_witness :
    (⟨[97, 98, 99, 100], ⟨8, [9, 9, 9, 9]⟩,
      ⟨0, [0, 0, 0, 12, 97, 98, 99, 100, 9, 9, 9, 9]⟩⟩ : DataBox).data.len = 4 ∧
    (⟨[97, 98, 99, 100], ⟨8, [9, 9, 9, 9]⟩,
      ⟨0, [0, 0, 0, 12, 97, 98, 99, 100, 9, 9, 9, 9]⟩⟩ : DataBox).original.len = 12 := by
  have h := c2_box_length_law ⟨0, [0, 0, 0, 12, 97, 98, 99, 100, 9, 9, 9, 9]⟩
    ⟨[97, 98, 99, 100], ⟨8, [9, 9, 9, 9]⟩, ⟨0, [0, 0, 0, 12, 97, 98, 99, 100, 9, 9, 9, 9]⟩⟩
    ⟨12, []⟩ (by decide)
  have h8 := h.1 (by decide)
  constructor
  · rw [h8.1]; decide
  · rw [h8.2]; decide

/-- C3 counterexample: an input whose 32-bit length field is 2 (in the
reserved range `[2,7]`) but which is too short to carry the 4-byte type tag
fails with `Incomplete(4)`, not with `InvalidBoxLength(2)` — so the claim's
universal statement over "every input whose 32-bit length field L is in
[2,7]" does not hold as written. -/
theorem c3_counterexample :
    2 ≤ beNat (([0, 0, 0, 2] : List Nat).take 4) ∧
    beNat (([0, 0, 0, 2] : List Nat).take 4) ≤ 7 ∧
    DataBox.fromSlice ⟨0, [0, 0, 0, 2]⟩ = .error (.incomplete 4) ∧
    Error.incomplete 4 ≠ Error.invalidBoxLength 2 := by decide

/-- C3 (amended): provided the header fields named by the claim are in fact
present — at least 8 bytes so the type tag exists, and at least 16 bytes for
the extended form so the 64-bit field exists — box decoding rejects exactly
the malformed length headers: `L ∈ [2,7]` fails with `InvalidBoxLength(L)`;
`L = 1` with extended length `X < 16` fails with `InvalidBoxLength(X)` (as
truncated to 32 bits); and the 8-byte input `00000002 6A756D62` fails with
`InvalidBoxLength(2)`. -/
theorem c3_invalid_length_rejection :
    (∀ s : ByteSlice, 8 ≤ s.len → 2 ≤ beNat (s.bytes.take 4) →
      beNat (s.bytes.take 4) ≤ 7 →
      DataBox.fromSlice s = .error (.invalidBoxLength (beNat (s.bytes.take 4)))) ∧
    (∀ s : ByteSlice, 16 ≤ s.len → beNat (s.bytes.take 4) = 1 →
      beNat ((s.bytes.drop 8).take 8) < 16 →
      DataBox.fromSlice s =
        .error (.invalidBoxLength (beNat ((s.bytes.drop 8).take 8) % 4294967296))) ∧
    DataBox.fromSlice ⟨0, [0x00, 0x00, 0x00, 0x02, 0x6a, 0x75, 0x6d, 0x62]⟩ =
      .error (.invalidBoxLength 2) := by
  refine ⟨?_, ?_, by decide⟩
  · intro s h8 hlo hhi
    simp only [ByteSlice.len] at h8
    simp only [DataBox.fromSlice, ByteSlice.len, ByteSlice.drop, List.length_drop,
      beq_iff_eq]
    split_ifs with hc1 hc2 hc3 hc4 hc5
    all_goals first
      | rfl
      | (exfalso; omega)
  · intro s h16 h1 hx
    simp only [ByteSlice.len] at h16
    simp only [DataBox.fromSlice, ByteSlice.len, ByteSlice.drop, List.length_drop,
      List.drop_drop, beq_iff_eq, show (4 : Nat) + 4 = 8 from rfl]
    split_ifs with hc1 hc2 hc3 hc4 hc5
    all_goals first
      | rfl
      | (exfalso; omega)

/-- Witness for the amended C3: the reserved length field 2 with the tag
present, and the extended form with `X = 15`. -/
theorem c3_invalid_length_rejection_witness :
    DataBox.fromSlice ⟨0, [0, 0, 0, 2, 0x6a, 0x75, 0x6d, 0x62]⟩ =
      .error (.invalidBoxLength 2) ∧
    DataBox.fromSlice ⟨0, [0, 0, 0, 1, 0x6a, 0x75, 0x6d, 0x62,
        0, 0, 0, 0, 0, 0, 0, 15]⟩ = .error (.invalidBoxLength 15) := by
  constructor
  · have h := c3_invalid_length_rejection.1 ⟨0, [0, 0, 0, 2, 0x6a, 0x75, 0x6d, 0x62]⟩
      (by decide) (by decide) (by decide)
    rw [h]; decide
  · have h := c3_invalid_length_rejection.2.1
      ⟨0, [0, 0, 0, 1, 0x6a, 0x75, 0x6d, 0x62, 0, 0, 0, 0, 0, 0, 0, 15]⟩
      (by decide) (by decide) (by decide)
    rw [h]; decide

/-- C7: for every builder whose `payload_size` succeeds with `n`, if `n`
fits the non-extended 32-bit header then `write_jumbf` hands the payload
writer a sink extended by exactly the 4-byte big-endian length `n + 8`
followed by the 4-byte type tag (conjunct 1), and the length header really
is the 4-byte big-endian encoding of `n + 8` (conjunct 2); on an
append-positioned sink a data-box builder thus emits exactly
`length ∥ tag ∥ payload` (conjunct 3); and for payloads beyond
`MAX_32BIT_PAYLOAD_SIZE` it fails loudly, with nothing written (conjunct
4). -/
theorem c7_write_jumbf_format :
    (∀ (b : Builder) (s : Sink) (n : Nat), payloadSize b = .ok n →
      n ≤ MAX_32BIT_PAYLOAD_SIZE →
      writeJumbf b s = writePayload b ((s.writeAll (encode4 (n + 8))).writeAll b.boxType)) ∧
    (∀ n : Nat, n ≤ MAX_32BIT_PAYLOAD_SIZE →
      (encode4 (n + 8)).length = 4 ∧ beNat (encode4 (n + 8)) = n + 8) ∧
    (∀ (tbox : BoxTag) (data : List Nat) (s : Sink), s.pos = s.data.length →
      data.length ≤ MAX_32BIT_PAYLOAD_SIZE →
      (writeJumbf (.dataBox tbox data) s).1 = .ok () ∧
      (writeJumbf (.dataBox tbox data) s).2.2.data =
        s.data ++ encode4 (data.length + 8) ++ tbox ++ data) ∧
    (∀ (b : Builder) (s : Sink) (n : Nat), payloadSize b = .ok n →
      MAX_32BIT_PAYLOAD_SIZE < n →
      writeJumbf b s = (.error .unsupportedLargePayload, b, s)) := by
  have hmain : ∀ (b : Builder) (s : Sink) (n : Nat), payloadSize b = .ok n →
      n ≤ MAX_32BIT_PAYLOAD_SIZE →
      writeJumbf b s = writePayload b ((s.writeAll (encode4 (n + 8))).writeAll b.boxType) := by
    intro b s n h hle
    rw [writeJumbf, h]
    simp only [jumbfSizeFromPayloadSize, if_pos hle]
  refine ⟨hmain, ?_, ?_, ?_⟩
  · intro n hle
    exact ⟨encode4_length _, beNat_encode4 (by
      simp only [MAX_32BIT_PAYLOAD_SIZE] at hle; omega)⟩
  · intro tbox data s hpos hle
    rw [hmain (.dataBox tbox data) s data.length (by simp [payloadSize]) hle]
    have h1 := Sink.writeAll_aligned hpos (encode4 (data.length + 8))
    have hpos1 : (s.writeAll (encode4 (data.length + 8))).pos =
        (s.writeAll (encode4 (data.length + 8))).data.length := by
      rw [h1]; simp [hpos]
    have h2 := Sink.writeAll_aligned hpos1 ((Builder.dataBox tbox data).boxType)
    rw [writePayload]
    have hpos2 : ((s.writeAll (encode4 (data.length + 8))).writeAll
        (Builder.dataBox tbox data).boxType).pos =
        ((s.writeAll (encode4 (data.length + 8))).writeAll
          (Builder.dataBox tbox data).boxType).data.length := by
      rw [h2]; simp [hpos1]
    refine ⟨rfl, ?_⟩
    rw [Sink.writeAll_aligned hpos2 data, h2, h1]
    simp [Builder.boxType, List.append_assoc]
  · intro b s n h hgt
    rw [writeJumbf, h]
    have hneg : ¬ n ≤ MAX_32BIT_PAYLOAD_SIZE := by omega
    simp only [jumbfSizeFromPayloadSize, if_neg hneg]

/-- Witness for C7: a data box with tag `abcd` and 2-byte payload written to
an empty sink emits `0000000a 61626364 0102`. -/
theorem c7_write_jumbf_format_witness :
    (writeJumbf (.dataBox [97, 98, 99, 100] [1, 2]) Sink.emptySink).1 = .ok () ∧
    (writeJumbf (.dataBox [97, 98, 99, 100] [1, 2]) Sink.emptySink).2.2.data =
      [0, 0, 0, 10, 97, 98, 99, 100, 1, 2] := by
  have h := c7_write_jumbf_format.2.2.1 [97, 98, 99, 100] [1, 2] Sink.emptySink rfl
    (by decide)
  exact ⟨h.1, by rw [h.2]; decide⟩

/-- C10: `PlaceholderDataBox::write_payload` fails (writing nothing and
leaving the recorded offset unchanged) exactly when the sink reports stream
position 0 — whatever the sink's contents are — and otherwise records the
current position as the offset and writes exactly `size` zero bytes. -/
theorem c10_placeholder_write_payload :
    (∀ (p : PlaceholderDataBox) (s : Sink), s.counting = false → s.pos = 0 →
      PlaceholderDataBox.writePayload p s = (.error .placeholderEmptyStream, p, s)) ∧
    (∀ (p : PlaceholderDataBox) (s : Sink), s.counting = false → 0 < s.pos →
      PlaceholderDataBox.writePayload p s =
        (.ok (), { p with offset := some s.pos },
         s.writeAll (List.replicate p.size 0))) := by
  exact ⟨fun p s hc h0 => PlaceholderDataBox.writePayload_pos_zero p hc h0,
    fun p s hc hpos => PlaceholderDataBox.writePayload_pos_succ p hc hpos⟩

/-- Witness for C10: with the cursor at position 0 of a *nonempty* stream
the write fails and both the box (offset still `none`) and the stream are
untouched; with the cursor at position 1 it records offset 1 and appends
three zeros. -/
theorem c10_placeholder_write_payload_witness :
    PlaceholderDataBox.writePayload ⟨[97, 98, 99, 100], 3, none⟩ ⟨[9], 0, false⟩ =
      (.error .placeholderEmptyStream, ⟨[97, 98, 99, 100], 3, none⟩, ⟨[9], 0, false⟩) ∧
    PlaceholderDataBox.writePayload ⟨[97, 98, 99, 100], 3, none⟩ ⟨[9], 1, false⟩ =
      (.ok (), ⟨[97, 98, 99, 100], 3, some 1⟩, ⟨[9, 0, 0, 0], 4, false⟩) := by
  constructor
  · exact c10_placeholder_write_payload.1 _ _ rfl rfl
  · have h := c10_placeholder_write_payload.2 ⟨[97, 98, 99, 100], 3, none⟩
      ⟨[9], 1, false⟩ rfl (by decide)
    rw [h]; decide

/-- Writing a placeholder box to an append-positioned sink emits the 8-byte
header followed by `size` zeros and records the payload's stream offset. -/
theorem writeJumbf_placeholder {t : BoxTag} {N : Nat} {off0 : Option Nat} {s : Sink}
    (hc : s.counting = false) (hpos : s.pos = s.data.length) (ht : t.length = 4)
    (hN : N ≤ MAX_32BIT_PAYLOAD_SIZE) :
    writeJumbf (.placeholder ⟨t, N, off0⟩) s =
      (.ok (), .placeholder ⟨t, N, some (s.data.length + 8)⟩,
       ⟨s.data ++ encode4 (N + 8) ++ t ++ List.replicate N 0,
        s.data.length + 8 + N, false⟩) := by
  rw [writeJumbf]
  simp only [payloadSize, jumbfSizeFromPayloadSize, if_pos hN]
  rw [Sink.writeAll_aligned hpos]
  simp only [Builder.boxType, encode4_length]
  have hpos1 : (⟨s.data ++ encode4 (N + 8), s.pos + 4, s.counting⟩ : Sink).pos =
      (⟨s.data ++ encode4 (N + 8), s.pos + 4, s.counting⟩ : Sink).data.length := by
    simp [hpos, encode4_length]
  rw [Sink.writeAll_aligned hpos1]
  rw [writePayload]
  dsimp only
  rw [ht, PlaceholderDataBox.writePayload_pos_succ]
  rotate_left
  · exact hc
  · simp
  rw [Sink.writeAll_aligned (by simp [encode4_length, ht, hpos])]
  simp only [List.length_replicate, List.append_assoc, hc]
  refine congrArg (fun x => ((Except.ok ()), x)) ?_
  dsimp only
  have e1 : s.pos + 4 + 4 = s.data.length + 8 := by omega
  rw [e1]

/-- The frame equation for `replace_payload`: with a recorded offset whose
reserved range lies inside the stream, an in-bounds payload overwrites
exactly `payload.length` bytes at the offset. -/
theorem PlaceholderDataBox.replacePayload_frame {p : PlaceholderDataBox} {o : Nat}
    {s : Sink} (payload : List Nat) (hc : s.counting = false)
    (hoff : p.offset = some o) (hlen : payload.length ≤ p.size)
    (hin : o + p.size ≤ s.data.length) :
    PlaceholderDataBox.replacePayload p s payload =
      .ok ⟨s.data.take o ++ payload ++ s.data.drop (o + payload.length),
           o + payload.length, false⟩ := by
  rw [PlaceholderDataBox.replacePayload,
    if_neg (show ¬ p.size < payload.length by omega), hoff]
  simp only [Sink.seekStart, hc, Bool.false_eq_true, if_false, Sink.writeAll,
    bind, Except.bind]
  have hz : o - s.data.length = 0 := by omega
  rw [hz]
  simp

/-- Lengths are preserved by the frame overwrite. -/
theorem replacePayload_frame_length {off : Nat} {sdata payload : List Nat}
    (hfit : off + payload.length ≤ sdata.length) :
    (sdata.take off ++ payload ++ sdata.drop (off + payload.length)).length
      = sdata.length := by
  simp only [List.length_append, List.length_take, List.length_drop]
  omega

/-- The three segments of the frame overwrite: the prefix before the offset
is untouched, the `payload.length` bytes at the offset are the payload, and
everything from `off + payload.length` on is untouched. -/
theorem frame_segments_gen (pre mid post : List Nat) :
    (pre ++ mid ++ post).take pre.length = pre ∧
    ((pre ++ mid ++ post).drop pre.length).take mid.length = mid ∧
    (pre ++ mid ++ post).drop (pre.length + mid.length) = post := by
  refine ⟨?_, ?_, ?_⟩
  · rw [List.append_assoc, take_len_append]
  · rw [List.append_assoc, drop_len_append, take_len_append]
  · rw [show pre.length + mid.length = (pre ++ mid).length by simp,
      drop_len_append]

/-- Specialisation of `frame_segments_gen` to an overwrite inside `sdata`. -/
theorem replacePayload_frame_segments {off : Nat} {d p : List Nat}
    (hfit : off + p.length ≤ d.length) :
    (d.take off ++ p ++ d.drop (off + p.length)).take off
        = d.take off ∧
    (((d.take off ++ p ++ d.drop (off + p.length)).drop off).take
        p.length) = p ∧
    (d.take off ++ p ++ d.drop (off + p.length)).drop
        (off + p.length) = d.drop (off + p.length) := by
  have h := frame_segments_gen (d.take off) p
    (d.drop (off + p.length))
  have hofflen : (d.take off).length = off := by
    simp only [List.length_take]; omega
  rw [hofflen] at h
  exact h

/-- C8: writing a placeholder of size `N` reserves an 8-byte header plus `N`
zero bytes and records the p offset (conjunct 1); `replace_p`
with an in-bounds buffer overwrites exactly that buffer's bytes at the
recorded offset, preserving the stream's length and every byte outside the
overwritten range (conjunct 2); a second `replace_p` overwrites the
same range again without growing the container (conjunct 3); an oversized
buffer fails (conjunct 4); and with no recorded offset it fails with the
distinct no-offset error (conjuncts 5 and 6). -/
theorem c8_placeholder_patch_law :
    (∀ (t : BoxTag) (N : Nat) (off0 : Option Nat) (s : Sink),
      s.counting = false → s.pos = s.data.length → t.length = 4 →
      N ≤ MAX_32BIT_PAYLOAD_SIZE →
      writeJumbf (.placeholder ⟨t, N, off0⟩) s =
        (.ok (), .placeholder ⟨t, N, some (s.data.length + 8)⟩,
         ⟨s.data ++ encode4 (N + 8) ++ t ++ List.replicate N 0,
          s.data.length + 8 + N, false⟩)) ∧
    (∀ (p : PlaceholderDataBox) (off : Nat) (s : Sink) (payload : List Nat),
      s.counting = false → p.offset = some off → payload.length ≤ p.size →
      off + p.size ≤ s.data.length →
      ∃ s1, PlaceholderDataBox.replacePayload p s payload = .ok s1 ∧
        s1.data.length = s.data.length ∧
        s1.data.take off = s.data.take off ∧
        (s1.data.drop off).take payload.length = payload ∧
        s1.data.drop (off + payload.length) = s.data.drop (off + payload.length)) ∧
    (∀ (p : PlaceholderDataBox) (off : Nat) (s : Sink) (payload payload2 : List Nat),
      s.counting = false → p.offset = some off → payload.length ≤ p.size →
      payload2.length ≤ p.size → off + p.size ≤ s.data.length →
      ∃ s1 s2, PlaceholderDataBox.replacePayload p s payload = .ok s1 ∧
        PlaceholderDataBox.replacePayload p s1 payload2 = .ok s2 ∧
        s2.data.length = s.data.length ∧
        s2.data.take off = s.data.take off ∧
        (s2.data.drop off).take payload2.length = payload2) ∧
    (∀ (p : PlaceholderDataBox) (s : Sink) (payload : List Nat),
      p.size < payload.length →
      PlaceholderDataBox.replacePayload p s payload =
        .error (.replacePayloadTooLarge payload.length p.size)) ∧
    (∀ (p : PlaceholderDataBox) (s : Sink) (payload : List Nat),
      p.offset = none → payload.length ≤ p.size →
      PlaceholderDataBox.replacePayload p s payload = .error .replacePayloadNoOffset) ∧
    (∀ (k r : Nat), IoError.replacePayloadNoOffset ≠ IoError.replacePayloadTooLarge k r) := by
  have hframe : ∀ (p : PlaceholderDataBox) (off : Nat) (s : Sink) (payload : List Nat),
      s.counting = false → p.offset = some off → payload.length ≤ p.size →
      off + p.size ≤ s.data.length →
      ∃ s1, PlaceholderDataBox.replacePayload p s payload = .ok s1 ∧
        s1.counting = false ∧
        s1.data = s.data.take off ++ payload ++ s.data.drop (off + payload.length) ∧
        s1.data.length = s.data.length ∧
        s1.data.take off = s.data.take off ∧
        (s1.data.drop off).take payload.length = payload ∧
        s1.data.drop (off + payload.length) = s.data.drop (off + payload.length) := by
    intro p off s payload hc hoff hlen hin
    have hfit : off + payload.length ≤ s.data.length := by omega
    obtain ⟨h1, h2, h3⟩ := replacePayload_frame_segments (d := s.data)
      (p := payload) hfit
    exact ⟨_, PlaceholderDataBox.replacePayload_frame payload hc hoff hlen hin,
      rfl, rfl, replacePayload_frame_length hfit, h1, h2, h3⟩
  refine ⟨?_, ?_, ?_, ?_, ?_, ?_⟩
  · intro t N off0 s hc hpos ht hN
    exact writeJumbf_placeholder hc hpos ht hN
  · intro p off s payload hc hoff hlen hin
    obtain ⟨s1, he, -, -, hl, hs1, hs2, hs3⟩ := hframe p off s payload hc hoff hlen hin
    exact ⟨s1, he, hl, hs1, hs2, hs3⟩
  · intro p off s payload payload2 hc hoff hlen hlen2 hin
    obtain ⟨s1, he1, hc1, -, hl1, ht1, -, -⟩ := hframe p off s payload hc hoff hlen hin
    obtain ⟨s2, he2, -, -, hl2, ht2, hm2, -⟩ := hframe p off s1 payload2 hc1 hoff hlen2
      (by omega)
    exact ⟨s1, s2, he1, he2, by omega, by rw [ht2, ht1], hm2⟩
  · intro p s payload hbig
    rw [PlaceholderDataBox.replacePayload, if_pos hbig]
  · intro p s payload hnone hlen
    rw [PlaceholderDataBox.replacePayload,
      if_neg (show ¬ p.size < payload.length by omega), hnone]
  · intro k r
    exact fun h => nomatch h

/-- Witness for C8: write a 4-byte placeholder after two existing bytes,
patch it with `[5, 6]`, then patch again with `[7]`; the container never
grows and only the reserved range changes. -/
theorem c8_placeholder_patch_law_witness :
    writeJumbf (.placeholder ⟨[97, 98, 99, 100], 4, none⟩) ⟨[9, 9], 2, false⟩ =
      (.ok (), .placeholder ⟨[97, 98, 99, 100], 4, some 10⟩,
       ⟨[9, 9, 0, 0, 0, 12, 97, 98, 99, 100, 0, 0, 0, 0], 14, false⟩) ∧
    PlaceholderDataBox.replacePayload ⟨[97, 98, 99, 100], 4, some 10⟩
        ⟨[9, 9, 0, 0, 0, 12, 97, 98, 99, 100, 0, 0, 0, 0], 14, false⟩ [5, 6] =
      .ok ⟨[9, 9, 0, 0, 0, 12, 97, 98, 99, 100, 5, 6, 0, 0], 12, false⟩ ∧
    PlaceholderDataBox.replacePayload ⟨[97, 98, 99, 100], 4, some 10⟩
        ⟨[9, 9, 0, 0, 0, 12, 97, 98, 99, 100, 5, 6, 0, 0], 12, false⟩ [7] =
      .ok ⟨[9, 9, 0, 0, 0, 12, 97, 98, 99, 100, 7, 6, 0, 0], 11, false⟩ ∧
    PlaceholderDataBox.replacePayload ⟨[97, 98, 99, 100], 4, some 10⟩
        ⟨[9, 9, 0, 0, 0, 12, 97, 98, 99, 100, 5, 6, 0, 0], 12, false⟩ [1, 2, 3, 4, 5] =
      .error (.replacePayloadTooLarge 5 4) ∧
    PlaceholderDataBox.replacePayload ⟨[97, 98, 99, 100], 4, none⟩
        ⟨[9, 9], 2, false⟩ [5, 6] = .error .replacePayloadNoOffset := by
  refine ⟨?_, ?_, ?_, ?_, ?_⟩
  · have h := c8_placeholder_patch_law.1 [97, 98, 99, 100] 4 none ⟨[9, 9], 2, false⟩
      rfl rfl rfl (by decide)
    rw [h]
    rfl
  · have h := PlaceholderDataBox.replacePayload_frame (p := ⟨[97, 98, 99, 100], 4, some 10⟩)
      (o := 10) (s := ⟨[9, 9, 0, 0, 0, 12, 97, 98, 99, 100, 0, 0, 0, 0], 14, false⟩)
      [5, 6] rfl rfl (by decide) (by decide)
    rw [h]
    rfl
  · have h := PlaceholderDataBox.replacePayload_frame (p := ⟨[97, 98, 99, 100], 4, some 10⟩)
      (o := 10) (s := ⟨[9, 9, 0, 0, 0, 12, 97, 98, 99, 100, 5, 6, 0, 0], 12, false⟩)
      [7] rfl rfl (by decide) (by decide)
    rw [h]
    rfl
  · exact c8_placeholder_patch_law.2.2.2.1 ⟨[97, 98, 99, 100], 4, some 10⟩
      ⟨[9, 9, 0, 0, 0, 12, 97, 98, 99, 100, 5, 6, 0, 0], 12, false⟩
      [1, 2, 3, 4, 5] (by decide)
  · exact c8_placeholder_patch_law.2.2.2.2.1 ⟨[97, 98, 99, 100], 4, none⟩
      ⟨[9, 9], 2, false⟩ [5, 6] rfl (by decide)

set_option maxRecDepth 40000 in
/-- C9: `offset_within_superbox` answers the pointer-range containment
query: it returns `some off` exactly when the box's `data` region lies
fully inside the ancestor's `original` byte range, with `off` the address
difference (conjunct 1); it computes the same answer as the Source
containment query `offset_of_subsource` applied to the ancestor's
`original` and the box's `data` (conjunct 2); on the documented example the
first child's payload begins 56 bytes into the super box and the query
returns `some 56` (conjunct 3); and querying the same child against the
truncated 118-byte re-parse of the same buffer — numerically overlapping
addresses — returns `none`, never a stale 56 (conjunct 4). -/
theorem c9_offset_recovery :
    (∀ (db : DataBox) (sb : SuperBox) (off : Nat),
      DataBox.offsetWithinSuperbox db sb = some off ↔
        (sb.original.addr ≤ db.data.addr ∧
         db.data.addr + db.data.len ≤ sb.original.addr + sb.original.len ∧
         off = db.data.addr - sb.original.addr)) ∧
    (∀ (db : DataBox) (sb : SuperBox),
      DataBox.offsetWithinSuperbox db sb =
        ByteSlice.offset_of_subsource sb.original db.data) ∧
    offsetDemo 119 = some (some 56) ∧
    offsetDemo 118 = some none := by
  refine ⟨?_, ?_, by rfl, by rfl⟩
  · intro db sb off
    constructor
    · intro h
      rw [DataBox.offsetWithinSuperbox] at h
      split_ifs at h with h1 h2
      simp only [Option.some.injEq] at h
      exact ⟨by omega, by omega, h.symm⟩
    · rintro ⟨ha, hb, rfl⟩
      rw [DataBox.offsetWithinSuperbox, if_neg (show ¬ db.data.addr < sb.original.addr by omega),
        if_neg (show ¬ sb.original.len < db.data.addr - sb.original.addr + db.data.len by omega)]
  · intro db sb
    rfl

/-- Witness for C9: a synthetic box whose 2-byte data region sits at
address 10 inside an ancestor spanning addresses 8-14 has offset 2. -/
theorem c9_offset_recovery_witness :
    DataBox.offsetWithinSuperbox
      ⟨[1, 1, 1, 1], ⟨10, [5, 5]⟩, ⟨8, [0, 0, 0, 0]⟩⟩
      (.mk ⟨[], none, false, none, none, none, ⟨8, []⟩⟩ [] ⟨8, [0, 0, 0, 0, 0, 0]⟩)
      = some 2 :=
  (c9_offset_recovery.1 _ _ 2).mpr ⟨by decide, by decide, by decide⟩

/-- C5: on a successful description-box parse with toggles byte `t`, each
optional field is present exactly when its toggle bit is set (so a clear
bit guarantees absence, and a set bit is never silently defaulted),
`requestable` equals bit 0x01 (conjunct 1); and the reserved bits
0x20/0x40/0x80 never affect the result: two boxes identical except for the
high three bits of the toggles byte parse to identical results (conjunct
2). -/
theorem c5_toggle_field_law :
    (∀ (boxx : DataBox) (desc : DescriptionBox) (rem : ByteSlice) (t : Nat),
      (boxx.data.bytes.drop 16).head? = some t →
      DescriptionBox.fromBox boxx = .ok (desc, rem) →
      ((desc.requestable = true ↔ t &&& 0x01 ≠ 0) ∧
       (desc.label.isSome = true ↔ t &&& 0x02 ≠ 0) ∧
       (desc.id.isSome = true ↔ t &&& 0x04 ≠ 0) ∧
       (desc.hash.isSome = true ↔ t &&& 0x08 ≠ 0) ∧
       (desc.priv.isSome = true ↔ t &&& 0x10 ≠ 0))) ∧
    (∀ (b1 b2 : DataBox) (u : List Nat) (t1 t2 : Nat) (r : List Nat),
      b1.tbox = b2.tbox → b1.original = b2.original → b1.data.addr = b2.data.addr →
      b1.data.bytes = u ++ t1 :: r → b2.data.bytes = u ++ t2 :: r → u.length = 16 →
      t1 % 32 = t2 % 32 →
      DescriptionBox.fromBox b1 = DescriptionBox.fromBox b2) := by
  constructor
  · intro boxx desc rem t ht h
    obtain ⟨r, hr⟩ : ∃ r, boxx.data.bytes.drop 16 = t :: r := by
      cases hc : boxx.data.bytes.drop 16 with
      | nil => rw [hc] at ht; exact absurd ht (by simp)
      | cons a l =>
        rw [hc] at ht
        simp only [List.head?_cons, Option.some.injEq] at ht
        exact ⟨l, by rw [ht]⟩
    rw [DescriptionBox.fromBox] at h
    rw [show (boxx.data.drop 16).bytes = t :: r from hr] at h
    split_ifs at h with h1 h2
    all_goals try simp only [reduceCtorEq] at h
    simp only [except_bind_ok] at h
    obtain ⟨⟨lab, i1⟩, hL, h⟩ := h
    obtain ⟨⟨idv, i2⟩, hI, h⟩ := h
    obtain ⟨⟨hsh, i3⟩, hH, h⟩ := h
    obtain ⟨⟨pv, i4⟩, hP, h⟩ := h
    simp only [Except.ok.injEq, Prod.mk.injEq] at h
    obtain ⟨h5, -⟩ := h
    rw [← h5]
    refine ⟨by simp [decide_eq_true_iff], DescriptionBox.readLabel_isSome hL,
      DescriptionBox.readId_isSome hI, DescriptionBox.readHash_isSome hH,
      DescriptionBox.readPrivate_isSome hP⟩
  · intro b1 b2 u t1 t2 r htb ho ha hd1 hd2 hu hmod
    have hbits : ∀ k, k < 32 → t1 &&& k = t2 &&& k := fun k hk => by
      rw [land_mod32 k hk t1, land_mod32 k hk t2, hmod]
    have hlen : b1.data.len = b2.data.len := by
      simp [ByteSlice.len, hd1, hd2]
    have hdrop1 : (b1.data.drop 16).bytes = t1 :: r := by
      simp only [ByteSlice.drop, hd1, show (16 : Nat) = u.length from hu.symm,
        drop_len_append]
    have hdrop2 : (b2.data.drop 16).bytes = t2 :: r := by
      simp only [ByteSlice.drop, hd2, show (16 : Nat) = u.length from hu.symm,
        drop_len_append]
    have htake1 : b1.data.bytes.take 16 = u := by
      rw [hd1, show (16 : Nat) = u.length from hu.symm, take_len_append]
    have htake2 : b2.data.bytes.take 16 = u := by
      rw [hd2, show (16 : Nat) = u.length from hu.symm, take_len_append]
    have hdd : (b1.data.drop 16).drop 1 = (b2.data.drop 16).drop 1 := by
      simp only [ByteSlice.drop]
      congr 1
      · rw [ha]
      rw [show b1.data.bytes.drop 16 = t1 :: r by
          rw [hd1, show (16 : Nat) = u.length from hu.symm, drop_len_append],
        show b2.data.bytes.drop 16 = t2 :: r by
          rw [hd2, show (16 : Nat) = u.length from hu.symm, drop_len_append]]
      rfl
    rw [DescriptionBox.fromBox, DescriptionBox.fromBox, htb, ho, hlen, hdrop1, hdrop2]
    dsimp only
    rw [htake1, htake2, hdd,
      DescriptionBox.readLabel_congr (hbits 2 (by omega)),
      DescriptionBox.readId_congr (hbits 4 (by omega)),
      DescriptionBox.readHash_congr (hbits 8 (by omega)),
      DescriptionBox.readPrivate_congr (hbits 16 (by omega)),
      hbits 1 (by omega)]

/-- Witness for C5: a description box with toggles byte 0x03 parses with a
label present and requestable set, and setting reserved bit 0x20 (toggles
0x23) yields the identical parse result. -/
theorem c5_toggle_field_law_witness :
    DescriptionBox.fromBox
        ⟨DESCRIPTION_BOX_TYPE, ⟨8, List.replicate 16 0 ++ 3 :: [116, 101, 115, 116, 0]⟩,
         ⟨0, []⟩⟩ =
      .ok (⟨List.replicate 16 0, some [116, 101, 115, 116], true, none, none, none,
        ⟨0, []⟩⟩, ⟨30, []⟩) ∧
    ((⟨List.replicate 16 0, some [116, 101, 115, 116], true, none, none, none,
        ⟨0, []⟩⟩ : DescriptionBox).label.isSome = true ↔ (3 : Nat) &&& 0x02 ≠ 0) ∧
    DescriptionBox.fromBox
        ⟨DESCRIPTION_BOX_TYPE, ⟨8, List.replicate 16 0 ++ 0x23 :: [116, 101, 115, 116, 0]⟩,
         ⟨0, []⟩⟩ =
      DescriptionBox.fromBox
        ⟨DESCRIPTION_BOX_TYPE, ⟨8, List.replicate 16 0 ++ 3 :: [116, 101, 115, 116, 0]⟩,
         ⟨0, []⟩⟩ := by
  refine ⟨by rfl, ?_, ?_⟩
  · exact (c5_toggle_field_law.1
      ⟨DESCRIPTION_BOX_TYPE, ⟨8, List.replicate 16 0 ++ 3 :: [116, 101, 115, 116, 0]⟩, ⟨0, []⟩⟩
      ⟨List.replicate 16 0, some [116, 101, 115, 116], true, none, none, none, ⟨0, []⟩⟩
      ⟨30, []⟩ 3 (by rfl) (by rfl)).2.1
  · exact c5_toggle_field_law.2 _ _ (List.replicate 16 0) 0x23 3 [116, 101, 115, 116, 0]
      rfl rfl rfl rfl rfl (by decide) (by decide)

/-- Unpacking membership in `matchingChildren`: every match is a super-box
child whose description-box label equals the segment and whose requestable
flag is set. -/
theorem mem_matchingChildren {sb m : SuperBox} {seg : List Nat}
    (h : m ∈ SuperBox.matchingChildren sb seg) :
    (∃ cb ∈ sb.childBoxes, cb = .superBox m) ∧
    m.desc.label = some seg ∧ m.desc.requestable = true := by
  rw [SuperBox.matchingChildren] at h
  obtain ⟨cb, hcb, hf⟩ := List.mem_filterMap.mp h
  cases cb with
  | dataBox db => exact absurd hf (by simp)
  | superBox sbox =>
    dsimp only at hf
    cases hl : sbox.desc.label with
    | none => rw [hl] at hf; exact absurd hf (by simp)
    | some l =>
      rw [hl] at hf
      dsimp only at hf
      split_ifs at hf with hc
      · simp only [Option.some.injEq] at hf
        refine ⟨⟨.superBox sbox, hcb, by rw [hf]⟩, ?_, ?_⟩
        · rw [← hf, hl, hc.1]
        · rw [← hf]; exact hc.2

/-- C4: `find_by_label` treats the path as `/`-separated segments; at each
level, when the number of requestable super-box children whose label equals
the current segment is not exactly one the result is `none` (conjunct 1);
when exactly one matches, the search returns it or descends into it with
the remaining path (conjunct 2); any box returned has its requestable bit
set (conjunct 3); and every candidate counted is a super-box child whose
label equals the segment and which is requestable (conjunct 4). -/
theorem c4_find_by_label_law :
    (∀ (sb : SuperBox) (label : List Nat),
      (sb.matchingChildren (splitOncePath label).1).length ≠ 1 →
      sb.findByLabel label = none) ∧
    (∀ (sb m : SuperBox) (label : List Nat),
      sb.matchingChildren (splitOncePath label).1 = [m] →
      sb.findByLabel label =
        (match (splitOncePath label).2 with
         | some suffix => m.findByLabel suffix
         | none => some m)) ∧
    (∀ (sb r : SuperBox) (label : List Nat),
      sb.findByLabel label = some r → r.desc.requestable = true) ∧
    (∀ (sb : SuperBox) (seg : List Nat) (m : SuperBox),
      m ∈ sb.matchingChildren seg →
      (∃ cb ∈ sb.childBoxes, cb = .superBox m) ∧
      m.desc.label = some seg ∧ m.desc.requestable = true) := by
  have hzero : ∀ (sb : SuperBox) (label : List Nat),
      (sb.matchingChildren (splitOncePath label).1).length ≠ 1 →
      sb.findByLabel label = none := by
    intro sb label hlen
    rw [SuperBox.findByLabel_eq]
    cases hm : sb.matchingChildren (splitOncePath label).1 with
    | nil => rfl
    | cons m tl =>
      cases tl with
      | nil => exact absurd (by rw [hm]; rfl) hlen
      | cons m2 tl2 => rfl
  have hone : ∀ (sb m : SuperBox) (label : List Nat),
      sb.matchingChildren (splitOncePath label).1 = [m] →
      sb.findByLabel label =
        (match (splitOncePath label).2 with
         | some suffix => m.findByLabel suffix
         | none => some m) := by
    intro sb m label hm
    rw [SuperBox.findByLabel_eq, hm]
  have hreq : ∀ (n : Nat) (label : List Nat), label.length ≤ n →
      ∀ (sb r : SuperBox), sb.findByLabel label = some r →
      r.desc.requestable = true := by
    intro n
    induction n with
    | zero =>
      intro label hl sb r h
      rw [SuperBox.findByLabel_eq] at h
      cases hm : sb.matchingChildren (splitOncePath label).1 with
      | nil => rw [hm] at h; exact absurd h (by simp)
      | cons m tl =>
        cases tl with
        | cons m2 tl2 => rw [hm] at h; exact absurd h (by simp)
        | nil =>
          rw [hm] at h
          cases hsuf : (splitOncePath label).2 with
          | some suffix =>
            exact absurd (splitOncePath_suffix_lt hsuf) (by omega)
          | none =>
            rw [hsuf] at h
            simp only [Option.some.injEq] at h
            subst h
            exact (mem_matchingChildren (by rw [hm]; exact List.mem_singleton.mpr rfl)).2.2
    | succ k ih =>
      intro label hl sb r h
      rw [SuperBox.findByLabel_eq] at h
      cases hm : sb.matchingChildren (splitOncePath label).1 with
      | nil => rw [hm] at h; exact absurd h (by simp)
      | cons m tl =>
        cases tl with
        | cons m2 tl2 => rw [hm] at h; exact absurd h (by simp)
        | nil =>
          rw [hm] at h
          cases hsuf : (splitOncePath label).2 with
          | some suffix =>
            rw [hsuf] at h
            have hlt := splitOncePath_suffix_lt hsuf
            exact ih suffix (by omega) m r h
          | none =>
            rw [hsuf] at h
            simp only [Option.some.injEq] at h
            subst h
            exact (mem_matchingChildren (by rw [hm]; exact List.mem_singleton.mpr rfl)).2.2
  exact ⟨hzero, hone, fun sb r label h => hreq label.length label (Nat.le_refl _) sb r h,
    fun sb seg m h => mem_matchingChildren h⟩

/-- Witness for C4: two requestable children sharing label `"a"` make the
lookup ambiguous (`none`); a unique requestable child labelled `"c"` is
found; a non-requestable child labelled `"b"` is never returned even though
its label is unique. -/
theorem c4_find_by_label_law_witness :
    SuperBox.findByLabel
      (.mk ⟨[], none, false, none, none, none, ⟨0, []⟩⟩
        [.superBox (.mk ⟨[], some [97], true, none, none, none, ⟨0, []⟩⟩ [] ⟨0, []⟩),
         .superBox (.mk ⟨[], some [97], true, none, none, none, ⟨0, []⟩⟩ [] ⟨0, []⟩)]
        ⟨0, []⟩) [97] = none ∧
    SuperBox.findByLabel
      (.mk ⟨[], none, false, none, none, none, ⟨0, []⟩⟩
        [.superBox (.mk ⟨[], some [98], false, none, none, none, ⟨0, []⟩⟩ [] ⟨0, []⟩),
         .superBox (.mk ⟨[], some [99], true, none, none, none, ⟨0, []⟩⟩ [] ⟨0, []⟩)]
        ⟨0, []⟩) [99] =
      some (.mk ⟨[], some [99], true, none, none, none, ⟨0, []⟩⟩ [] ⟨0, []⟩) ∧
    SuperBox.findByLabel
      (.mk ⟨[], none, false, none, none, none, ⟨0, []⟩⟩
        [.superBox (.mk ⟨[], some [98], false, none, none, none, ⟨0, []⟩⟩ [] ⟨0, []⟩),
         .superBox (.mk ⟨[], some [99], true, none, none, none, ⟨0, []⟩⟩ [] ⟨0, []⟩)]
        ⟨0, []⟩) [98] = none := by
  refine ⟨?_, ?_, ?_⟩
  · exact c4_find_by_label_law.1 _ [97] (by decide)
  · rw [c4_find_by_label_law.2.1 _
      (.mk ⟨[], some [99], true, none, none, none, ⟨0, []⟩⟩ [] ⟨0, []⟩) [99] (by rfl)]
    rfl
  · exact c4_find_by_label_law.1 _ [98] (by decide)

/-- Index-wise description of a successful `mapChildren` run: the output
has one entry per raw box, each produced by the dispatch. -/
theorem mapChildren_ok_get {step : DataBox → Except Error ChildBox} :
    ∀ {raws : List DataBox} {cs : List ChildBox}, mapChildren step raws = .ok cs →
      cs.length = raws.length ∧
      ∀ (j : Nat) (hj : j < raws.length) (hj2 : j < cs.length),
        step (raws.get ⟨j, hj⟩) = .ok (cs.get ⟨j, hj2⟩) := by
  intro raws
  induction raws with
  | nil =>
    intro cs h
    rw [mapChildren] at h
    simp only [Except.ok.injEq] at h
    subst h
    exact ⟨rfl, fun j hj => absurd hj (by simp)⟩
  | cons d rest ih =>
    intro cs h
    rw [mapChildren] at h
    cases hd : step d with
    | error e => rw [hd] at h; exact absurd h (by simp)
    | ok c =>
      rw [hd] at h
      cases hrest : mapChildren step rest with
      | error e => rw [hrest] at h; exact absurd h (by simp)
      | ok cs2 =>
        rw [hrest] at h
        simp only [Except.ok.injEq] at h
        subst h
        obtain ⟨hlen, hget⟩ := ih hrest
        refine ⟨by simp [hlen], ?_⟩
        intro j hj hj2
        cases j with
        | zero => simpa using hd
        | succ k =>
          simp only [List.length_cons] at hj hj2
          simpa using hget k (by omega) (by omega)

/-- C6: during super-box decoding with depth limit `d`, each raw child box
becomes `ChildBox::SuperBox` (recursively decoded with `d - 1`) exactly when
its tag is `jumb` and `d > 0`, and stays an opaque `ChildBox::DataBox`
otherwise — in particular always when `d = 0` or the tag differs (conjunct
1); and the default entry points behave as the depth-limited ones with
`usize::MAX` (conjuncts 2-4). -/
theorem c6_depth_limit_law :
    (∀ (box : DataBox) (d : Nat) (sb : SuperBox) (desc : DescriptionBox)
        (i : ByteSlice) (rawBoxes : List DataBox) (rem : ByteSlice),
      DescriptionBox.fromSource box.data = .ok (desc, i) →
      boxesFromSource i = .ok (rawBoxes, rem) →
      SuperBox.fromDataBoxWithDepthLimit box d = .ok sb →
      sb.desc = desc ∧
      sb.childBoxes.length = rawBoxes.length ∧
      ∀ (j : Nat) (hj : j < rawBoxes.length),
        ((rawBoxes.get ⟨j, hj⟩).tbox = SUPER_BOX_TYPE ∧ 0 < d →
          ∃ sub, SuperBox.fromDataBoxWithDepthLimit (rawBoxes.get ⟨j, hj⟩) (d - 1)
              = .ok sub ∧
            sb.childBoxes.get? j = some (.superBox sub)) ∧
        ((rawBoxes.get ⟨j, hj⟩).tbox ≠ SUPER_BOX_TYPE ∨ d = 0 →
          sb.childBoxes.get? j = some (.dataBox (rawBoxes.get ⟨j, hj⟩)))) ∧
    (∀ box : DataBox, SuperBox.fromDataBox box =
      SuperBox.fromDataBoxWithDepthLimit box USIZE_MAX) ∧
    (∀ s : ByteSlice, SuperBox.fromSource s =
      SuperBox.fromSourceWithDepthLimit s USIZE_MAX) ∧
    USIZE_MAX = 2 ^ 64 - 1 := by
  refine ⟨?_, fun box => rfl, fun s => rfl, rfl⟩
  intro box d sb desc i rawBoxes rem hdesc hboxes h
  rw [SuperBox.fromDataBoxWithDepthLimit_eq, superBoxShell] at h
  split_ifs at h with htag
  rw [hdesc] at h
  dsimp only at h
  rw [hboxes] at h
  dsimp only at h
  cases hmap : mapChildren (fun d2 =>
      if d2.tbox = SUPER_BOX_TYPE ∧ 0 < d then
        (SuperBox.fromDataBoxWithDepthLimit d2 (d - 1)).map ChildBox.superBox
      else .ok (.dataBox d2)) rawBoxes with
  | error e => rw [hmap] at h; exact absurd h (by simp)
  | ok cs =>
    rw [hmap] at h
    simp only [Except.ok.injEq] at h
    subst h
    obtain ⟨hlen, hget⟩ := mapChildren_ok_get hmap
    refine ⟨rfl, by simpa [SuperBox.childBoxes] using hlen, ?_⟩
    intro j hj
    have hj2 : j < cs.length := by omega
    have hstep := hget j hj hj2
    constructor
    · intro hcond
      rw [if_pos hcond] at hstep
      cases hsub : SuperBox.fromDataBoxWithDepthLimit (rawBoxes.get ⟨j, hj⟩) (d - 1) with
      | error e =>
        rw [hsub] at hstep
        rw [show (Except.error e).map ChildBox.superBox =
          (Except.error e : Except Error ChildBox) from rfl] at hstep
        exact absurd hstep (by simp)
      | ok sub =>
        rw [hsub] at hstep
        rw [show (Except.ok sub).map ChildBox.superBox =
          (Except.ok (ChildBox.superBox sub) : Except Error ChildBox) from rfl] at hstep
        simp only [Except.ok.injEq] at hstep
        refine ⟨sub, rfl, ?_⟩
        rw [show (SuperBox.mk desc cs box.original).childBoxes = cs from rfl,
          List.get?_eq_get hj2, hstep]
    · intro hcond
      have hneg : ¬ ((rawBoxes.get ⟨j, hj⟩).tbox = SUPER_BOX_TYPE ∧ 0 < d) := by
        intro hand
        rcases hcond with hc | hc
        · exact hc hand.1
        · omega
      rw [if_neg hneg] at hstep
      simp only [Except.ok.injEq] at hstep
      rw [show (SuperBox.mk desc cs box.original).childBoxes = cs from rfl,
        List.get?_eq_get hj2, ← hstep]

set_option maxRecDepth 40000 in
/-- Witness for C6: the nested super box of `depthDemoBox` is recursively
decoded at depth 1 but kept as an opaque data box at depth 0, and the
depth-1 child slot really holds the recursively decoded super box. -/
theorem c6_depth_limit_law_witness :
    SuperBox.fromDataBoxWithDepthLimit depthDemoBox 1 =
      .ok (.mk depthDemoDesc [.superBox depthDemoInnerSB] ⟨0, [9]⟩) ∧
    SuperBox.fromDataBoxWithDepthLimit depthDemoBox 0 =
      .ok (.mk depthDemoDesc [.dataBox depthDemoInnerRaw] ⟨0, [9]⟩) ∧
    (SuperBox.mk depthDemoDesc [.superBox depthDemoInnerSB] ⟨0, [9]⟩).childBoxes.get? 0
      = some (.superBox depthDemoInnerSB) := by
  refine ⟨by rfl, by rfl, ?_⟩
  have h := (c6_depth_limit_law.1 depthDemoBox 1
      (.mk depthDemoDesc [.superBox depthDemoInnerSB] ⟨0, [9]⟩)
      depthDemoDesc ⟨33, innerDemoBytes⟩ [depthDemoInnerRaw] ⟨66, []⟩
      (by rfl) (by rfl) (by rfl)).2.2 0 (by simp)
  obtain ⟨sub, hsub, hget⟩ := h.1 ⟨rfl, by omega⟩
  have hsub2 : sub = depthDemoInnerSB := by
    have h2 : Except.ok (ε := Error) sub = .ok depthDemoInnerSB := hsub.symm.trans (by rfl)
    exact Except.ok.inj h2
  rw [hsub2] at hget
  exact hget

/-! ### Builder output as explicit bytes (for the round-trip claim) -/

/-- Writing a data box to an append-positioned sink appends exactly its
on-wire bytes. -/
theorem writeJumbf_dataBox {t : BoxTag} {d : List Nat} {s : Sink}
    (hpos : s.pos = s.data.length) (hd : d.length ≤ MAX_32BIT_PAYLOAD_SIZE) :
    writeJumbf (.dataBox t d) s =
      (.ok (), .dataBox t d,
       ⟨s.data ++ childJumbfBytes (t, d),
        s.pos + (childJumbfBytes (t, d)).length, s.counting⟩) := by
  rw [writeJumbf, show payloadSize (.dataBox t d) = .ok d.length by rw [payloadSize]]
  simp only [jumbfSizeFromPayloadSize, if_pos hd]
  rw [writePayload]
  have h1 := Sink.writeAll_aligned hpos (encode4 (d.length + 8))
  rw [h1]
  have hpos1 : s.pos + (encode4 (d.length + 8)).length =
      (s.data ++ encode4 (d.length + 8)).length := by
    simp [hpos]
  rw [Sink.writeAll_aligned hpos1 (Builder.dataBox t d).boxType]
  have hpos2 : s.pos + (encode4 (d.length + 8)).length +
      (Builder.dataBox t d).boxType.length =
      (s.data ++ encode4 (d.length + 8) ++ (Builder.dataBox t d).boxType).length := by
    simp [hpos]; omega
  rw [Sink.writeAll_aligned hpos2 d]
  simp [Builder.boxType, childJumbfBytes, List.append_assoc]
  omega


/-- `writeAll` on an aligned literal sink, in a form suitable for chained
conditional rewriting. -/
theorem Sink.writeAll_mk {l : List Nat} {n : Nat} {c : Bool} (buf : List Nat)
    (h : n = l.length) :
    Sink.writeAll ⟨l, n, c⟩ buf = ⟨l ++ buf, n + buf.length, c⟩ :=
  Sink.writeAll_aligned h buf

/-- The description-box builder's payload write appends exactly
`descPayloadBytes` when every optional private box is a data box within the
32-bit size limit. -/
theorem descWritePayload_eq (uuid : List Nat) (label : Option (List Nat))
    (requestable : Bool) (id : Option Nat) (hash : Option (List Nat))
    (priv : Option (BoxTag × List Nat)) {s : Sink}
    (hpos : s.pos = s.data.length)
    (hpriv : ∀ c ∈ priv, c.2.length ≤ MAX_32BIT_PAYLOAD_SIZE) :
    descWritePayload
        (.mk uuid label requestable id hash (priv.map fun c => .dataBox c.1 c.2)) s =
      (.ok (), .mk uuid label requestable id hash (priv.map fun c => .dataBox c.1 c.2),
       ⟨s.data ++ descPayloadBytes uuid label requestable id hash priv,
        s.pos + (descPayloadBytes uuid label requestable id hash priv).length,
        s.counting⟩) := by
  obtain ⟨ld, np, cb⟩ := s
  have hpos2 : np = ld.length := hpos
  rcases priv with _ | ⟨pt, pd⟩
  · cases label <;> cases id <;> cases hash <;>
      simp +arith [descWritePayload, Sink.writeAll_mk, descPayloadBytes, descToggles,
        labelFieldBytes, idFieldBytes, hashFieldBytes, privFieldBytes,
        hpos2, List.append_assoc]
  · have hd : pd.length ≤ MAX_32BIT_PAYLOAD_SIZE := hpriv (pt, pd) rfl
    cases label <;> cases id <;> cases hash <;>
      simp +arith [descWritePayload, Sink.writeAll_mk, descPayloadBytes, descToggles,
        labelFieldBytes, idFieldBytes, hashFieldBytes, privFieldBytes,
        childJumbfBytes, hpos2, hd, writeJumbf_dataBox, List.append_assoc]


/-- The default `payload_size` of the description-box builder reports the
exact length of `descPayloadBytes`. -/
theorem descPayloadSize_eq (uuid : List Nat) (label : Option (List Nat))
    (requestable : Bool) (id : Option Nat) (hash : Option (List Nat))
    (priv : Option (BoxTag × List Nat))
    (hpriv : ∀ c ∈ priv, c.2.length ≤ MAX_32BIT_PAYLOAD_SIZE) :
    descPayloadSize
        (.mk uuid label requestable id hash (priv.map fun c => .dataBox c.1 c.2)) =
      .ok (descPayloadBytes uuid label requestable id hash priv).length := by
  rw [descPayloadSize,
    descWritePayload_eq uuid label requestable id hash priv rfl hpriv]
  simp [Sink.countingSink]

/-- Writing the description box to an append-positioned sink appends
exactly `descJumbfBytes`. -/
theorem descWriteJumbf_eq (uuid : List Nat) (label : Option (List Nat))
    (requestable : Bool) (id : Option Nat) (hash : Option (List Nat))
    (priv : Option (BoxTag × List Nat)) {s : Sink}
    (hpos : s.pos = s.data.length)
    (hpriv : ∀ c ∈ priv, c.2.length ≤ MAX_32BIT_PAYLOAD_SIZE)
    (hdesc : (descPayloadBytes uuid label requestable id hash priv).length ≤
      MAX_32BIT_PAYLOAD_SIZE) :
    descWriteJumbf
        (.mk uuid label requestable id hash (priv.map fun c => .dataBox c.1 c.2)) s =
      (.ok (), .mk uuid label requestable id hash (priv.map fun c => .dataBox c.1 c.2),
       ⟨s.data ++ descJumbfBytes uuid label requestable id hash priv,
        s.pos + (descJumbfBytes uuid label requestable id hash priv).length,
        s.counting⟩) := by
  obtain ⟨ld, np, cb⟩ := s
  have hpos2 : np = ld.length := hpos
  rw [descWriteJumbf, descPayloadSize_eq uuid label requestable id hash priv hpriv]
  simp only [jumbfSizeFromPayloadSize, if_pos hdesc]
  rw [Sink.writeAll_mk _ hpos2, Sink.writeAll_mk _ (by simp [hpos2])]
  rw [descWritePayload_eq uuid label requestable id hash priv
    (by simp [hpos2]; omega) hpriv]
  simp +arith [descJumbfBytes, List.append_assoc, DESCRIPTION_BOX_TYPE]

/-- Writing a list of data-box children to an append-positioned sink appends
exactly `childrenJumbfBytes`. -/
theorem writeJumbfChildren_eq (cs : List (BoxTag × List Nat)) {s : Sink}
    (hpos : s.pos = s.data.length)
    (hsz : ∀ c ∈ cs, c.2.length ≤ MAX_32BIT_PAYLOAD_SIZE) :
    writeJumbfChildren (cs.map fun c => .dataBox c.1 c.2) s =
      (.ok (), cs.map fun c => .dataBox c.1 c.2,
       ⟨s.data ++ childrenJumbfBytes cs,
        s.pos + (childrenJumbfBytes cs).length, s.counting⟩) := by
  induction cs generalizing s with
  | nil =>
    simp only [List.map_nil]
    rw [writeJumbfChildren]
    simp [childrenJumbfBytes]
  | cons c rest ih =>
    rw [List.map_cons, writeJumbfChildren,
      writeJumbf_dataBox hpos (hsz c (by simp))]
    dsimp only
    rw [ih (s := ⟨s.data ++ childJumbfBytes (c.1, c.2),
        s.pos + (childJumbfBytes (c.1, c.2)).length, s.counting⟩)
      (by simp [hpos]) (fun x hx => hsz x (by simp [hx]))]
    simp +arith [childrenJumbfBytes, List.append_assoc]


/-- `SuperBoxBuilder::payload_size`'s loop over data-box children computes
the exact length of `childrenJumbfBytes` when every tag is 4 bytes. -/
theorem payloadSizeChildren_eq (cs : List (BoxTag × List Nat))
    (h : ∀ c ∈ cs, c.1.length = 4 ∧ c.2.length ≤ MAX_32BIT_PAYLOAD_SIZE) :
    payloadSizeChildren (cs.map fun c => .dataBox c.1 c.2) =
      .ok (childrenJumbfBytes cs).length := by
  induction cs with
  | nil =>
    simp only [List.map_nil]
    rw [payloadSizeChildren]
    simp [childrenJumbfBytes]
  | cons c rest ih =>
    rw [List.map_cons, payloadSizeChildren, jumbfSizeOf,
      show payloadSize (.dataBox c.1 c.2) = .ok c.2.length by rw [payloadSize]]
    dsimp only
    simp only [jumbfSizeFromPayloadSize, if_pos (h c (by simp)).2]
    rw [ih (fun x hx => h x (by simp [hx]))]
    simp +arith [childrenJumbfBytes, childJumbfBytes, encode4_length, (h c (by simp)).1]

/-- Master equation for the builder: writing a super-box builder whose
children and private box are data boxes appends exactly `superJumbfBytes`,
provided every component stays within the 32-bit length form. -/
theorem writeJumbf_builderOf (uuid : List Nat) (label : Option (List Nat))
    (requestable : Bool) (id : Option Nat) (hash : Option (List Nat))
    (priv : Option (BoxTag × List Nat)) (children : List (BoxTag × List Nat))
    {s : Sink} (hpos : s.pos = s.data.length)
    (hpriv : ∀ c ∈ priv, c.2.length ≤ MAX_32BIT_PAYLOAD_SIZE)
    (hdesc : (descPayloadBytes uuid label requestable id hash priv).length ≤
      MAX_32BIT_PAYLOAD_SIZE)
    (hch : ∀ c ∈ children, c.1.length = 4 ∧ c.2.length ≤ MAX_32BIT_PAYLOAD_SIZE)
    (htot : (descJumbfBytes uuid label requestable id hash priv).length +
      (childrenJumbfBytes children).length ≤ MAX_32BIT_PAYLOAD_SIZE) :
    writeJumbf (builderOf uuid label requestable id hash priv children) s =
      (.ok (), builderOf uuid label requestable id hash priv children,
       ⟨s.data ++ superJumbfBytes uuid label requestable id hash priv children,
        s.pos + (superJumbfBytes uuid label requestable id hash priv children).length,
        s.counting⟩) := by
  obtain ⟨ld, np, cb⟩ := s
  have hpos2 : np = ld.length := hpos
  have hps : payloadSize (builderOf uuid label requestable id hash priv children) =
      .ok ((descJumbfBytes uuid label requestable id hash priv).length +
        (childrenJumbfBytes children).length) := by
    rw [builderOf, payloadSize,
      descPayloadSize_eq uuid label requestable id hash priv hpriv]
    dsimp only
    simp only [jumbfSizeFromPayloadSize, if_pos hdesc]
    rw [payloadSizeChildren_eq children hch]
    simp +arith [descJumbfBytes, DESCRIPTION_BOX_TYPE, encode4_length]
  rw [writeJumbf, hps]
  simp only [jumbfSizeFromPayloadSize, if_pos htot]
  rw [show (builderOf uuid label requestable id hash priv children).boxType =
    SUPER_BOX_TYPE from rfl]
  rw [Sink.writeAll_mk _ hpos2, Sink.writeAll_mk _ (by simp [hpos2])]
  rw [builderOf, writePayload]
  rw [descWriteJumbf_eq uuid label requestable id hash priv
    (by simp [hpos2, SUPER_BOX_TYPE]; omega) hpriv hdesc]
  dsimp only
  rw [writeJumbfChildren_eq children
    (by simp [hpos2, SUPER_BOX_TYPE]; omega) (fun c hc => (hch c hc).2)]
  dsimp only
  simp +arith [superJumbfBytes, SUPER_BOX_TYPE, List.append_assoc]


/-- Taking a well-formed box header's worth of bytes from a framed stream
recovers header plus payload. -/
theorem take_header (e t p rest : List Nat) (he : e.length = 4) (ht : t.length = 4)
    (n : Nat) (hn : n = p.length + 8) :
    (e ++ t ++ p ++ rest).take n = e ++ t ++ p := by
  have hl : (e ++ t ++ p).length = n := by
    simp [he, ht, hn]; omega
  rw [← hl]
  exact take_len_append _ _

/-- Parsing a well-formed framed box: 4-byte big-endian length `|p| + 8`,
4-byte tag, payload `p`, then anything.  The parse succeeds, the payload
and original slices sit at the expected addresses, and the remainder is
exactly the trailing bytes. -/
theorem DataBox.fromSlice_frame (a : Nat) (t : BoxTag) (p rest : List Nat)
    (ht : t.length = 4) (hp : p.length + 8 < 4294967296) :
    DataBox.fromSlice ⟨a, encode4 (p.length + 8) ++ t ++ p ++ rest⟩ =
      .ok (⟨t, ⟨a + 8, p⟩, ⟨a, encode4 (p.length + 8) ++ t ++ p⟩⟩,
        ⟨a + 8 + p.length, rest⟩) := by
  have htake4 : (encode4 (p.length + 8) ++ t ++ p ++ rest).take 4 =
      encode4 (p.length + 8) := by
    rw [List.append_assoc, List.append_assoc]
    exact take_len_append (encode4 (p.length + 8)) (t ++ (p ++ rest))
  have hdrop4 : (encode4 (p.length + 8) ++ t ++ p ++ rest).drop 4 = t ++ (p ++ rest) := by
    rw [List.append_assoc, List.append_assoc]
    exact drop_len_append (encode4 (p.length + 8)) (t ++ (p ++ rest))
  have htaket : (t ++ (p ++ rest)).take 4 = t := by
    rw [← ht]; exact take_len_append _ _
  have hdropt : (t ++ (p ++ rest)).drop 4 = p ++ rest := by
    rw [← ht]; exact drop_len_append _ _
  have horig := take_header (encode4 (p.length + 8)) t p rest rfl ht
    (p.length + 8) rfl
  simp only [DataBox.fromSlice, DataBox.fromSlice.finish, ByteSlice.len,
    ByteSlice.drop, ByteSlice.take, htake4, hdrop4, htaket, hdropt,
    beNat_encode4 hp, horig, List.length_append, ht, beq_iff_eq,
    Nat.add_sub_cancel, take_len_append, drop_len_append]
  split_ifs with h1 h2 h3 h4 h5
  all_goals first
    | (exfalso; omega)
    | (exfalso; assumption)
    | (simp +arith [Prod.mk.injEq])


/-- Toggle bit 0 of the builder's toggles byte records `requestable`. -/
theorem descToggles_and1 (label : Option (List Nat)) (req : Bool) (id : Option Nat)
    (hash : Option (List Nat)) (priv : Option (BoxTag × List Nat)) :
    decide (descToggles label req id hash priv &&& 1 ≠ 0) = req := by
  rcases label with _ | l <;> rcases id with _ | v <;> rcases hash with _ | h <;>
    rcases priv with _ | c <;> cases req <;> simp +decide [descToggles]

/-- Toggle bit 1 of the builder's toggles byte records label presence. -/
theorem descToggles_and2 (label : Option (List Nat)) (req : Bool) (id : Option Nat)
    (hash : Option (List Nat)) (priv : Option (BoxTag × List Nat)) :
    (descToggles label req id hash priv &&& 2 = 0) ↔ label = none := by
  rcases label with _ | l <;> rcases id with _ | v <;> rcases hash with _ | h <;>
    rcases priv with _ | c <;> cases req <;> simp +decide [descToggles]

/-- Toggle bit 2 of the builder's toggles byte records id presence. -/
theorem descToggles_and4 (label : Option (List Nat)) (req : Bool) (id : Option Nat)
    (hash : Option (List Nat)) (priv : Option (BoxTag × List Nat)) :
    (descToggles label req id hash priv &&& 4 = 0) ↔ id = none := by
  rcases label with _ | l <;> rcases id with _ | v <;> rcases hash with _ | h <;>
    rcases priv with _ | c <;> cases req <;> simp +decide [descToggles]

/-- Toggle bit 3 of the builder's toggles byte records hash presence. -/
theorem descToggles_and8 (label : Option (List Nat)) (req : Bool) (id : Option Nat)
    (hash : Option (List Nat)) (priv : Option (BoxTag × List Nat)) :
    (descToggles label req id hash priv &&& 8 = 0) ↔ hash = none := by
  rcases label with _ | l <;> rcases id with _ | v <;> rcases hash with _ | h <;>
    rcases priv with _ | c <;> cases req <;> simp +decide [descToggles]

/-- Toggle bit 4 of the builder's toggles byte records private-box presence. -/
theorem descToggles_and16 (label : Option (List Nat)) (req : Bool) (id : Option Nat)
    (hash : Option (List Nat)) (priv : Option (BoxTag × List Nat)) :
    (descToggles label req id hash priv &&& 16 = 0) ↔ priv = none := by
  rcases label with _ | l <;> rcases id with _ | v <;> rcases hash with _ | h <;>
    rcases priv with _ | c <;> cases req <;> simp +decide [descToggles]

/-- The first null in `l ++ 0 :: r` sits exactly at index `l.length` when
`l` itself is null-free (the `take_until` of the label parse). -/
theorem findIdx_zero_append (l r : List Nat) (h : 0 ∉ l) :
    (l ++ 0 :: r).findIdx? (· == 0) = some l.length := by
  induction l with
  | nil => simp [List.findIdx?_cons]
  | cons b bs ih =>
    have hb : ¬ (b = 0) := fun hb => h (by simp [hb])
    have ihh := ih (fun hm => h (by simp [hm]))
    simp [List.findIdx?_cons, hb, ihh]

/-- Dropping a prefix plus one more byte. -/
theorem drop_len_succ (l r : List Nat) (x : Nat) :
    (l ++ x :: r).drop (l.length + 1) = r := by
  rw [show l ++ x :: r = (l ++ [x]) ++ r by simp,
    show l.length + 1 = (l ++ [x]).length by simp]
  exact drop_len_append _ _

/-- The label reader consumes exactly the label field the builder wrote. -/
theorem readLabel_frame (label : Option (List Nat)) {tog : Nat}
    (hbit : (tog &&& 2 = 0) ↔ label = none)
    (hlab : ∀ l ∈ label, 0 ∉ l ∧ validUtf8 l = true) (a : Nat) (r : List Nat) :
    DescriptionBox.readLabel tog ⟨a, labelFieldBytes label ++ r⟩ =
      .ok (label, ⟨a + (labelFieldBytes label).length, r⟩) := by
  rcases label with _ | l
  · rw [DescriptionBox.readLabel, if_neg (by simp [hbit.mpr rfl])]
    simp [labelFieldBytes]
  · have hbit2 : tog &&& 2 ≠ 0 := fun h0 => by simpa using hbit.mp h0
    obtain ⟨hl0, hvu⟩ := hlab l rfl
    rw [DescriptionBox.readLabel, if_pos hbit2]
    simp only [labelFieldBytes, List.append_assoc, List.cons_append, List.nil_append]
    rw [findIdx_zero_append l r hl0]
    dsimp only
    rw [take_len_append l (0 :: r), if_pos hvu]
    simp only [ByteSlice.drop, drop_len_succ]
    simp +arith

/-- The id reader consumes exactly the id field the builder wrote. -/
theorem readId_frame (id : Option Nat) {tog : Nat}
    (hbit : (tog &&& 4 = 0) ↔ id = none)
    (hid : ∀ v ∈ id, v < 4294967296) (a : Nat) (r : List Nat) :
    DescriptionBox.readId tog ⟨a, idFieldBytes id ++ r⟩ =
      .ok (id, ⟨a + (idFieldBytes id).length, r⟩) := by
  rcases id with _ | v
  · rw [DescriptionBox.readId, if_neg (by simp [hbit.mpr rfl])]
    simp [idFieldBytes]
  · have hbit2 : tog &&& 4 ≠ 0 := fun h0 => by simpa using hbit.mp h0
    rw [DescriptionBox.readId, if_pos hbit2]
    simp only [idFieldBytes]
    rw [if_neg (by simp [ByteSlice.len, encode4])]
    rw [show List.take 4 (encode4 v ++ r) = encode4 v from take_len_append (encode4 v) r]
    rw [beNat_encode4 (hid v rfl)]
    simp only [ByteSlice.drop]
    rw [show List.drop 4 (encode4 v ++ r) = r from drop_len_append (encode4 v) r]
    simp [encode4]

/-- The hash reader consumes exactly the hash field the builder wrote. -/
theorem readHash_frame (hash : Option (List Nat)) {tog : Nat}
    (hbit : (tog &&& 8 = 0) ↔ hash = none)
    (hh : ∀ h ∈ hash, h.length = 32) (a : Nat) (r : List Nat) :
    DescriptionBox.readHash tog ⟨a, hashFieldBytes hash ++ r⟩ =
      .ok (hash, ⟨a + (hashFieldBytes hash).length, r⟩) := by
  rcases hash with _ | h32
  · rw [DescriptionBox.readHash, if_neg (by simp [hbit.mpr rfl])]
    simp [hashFieldBytes]
  · have hbit2 : tog &&& 8 ≠ 0 := fun h0 => by simpa using hbit.mp h0
    have h32l := hh h32 rfl
    rw [DescriptionBox.readHash, if_pos hbit2]
    simp only [hashFieldBytes]
    rw [if_neg (by simp [ByteSlice.len, h32l])]
    rw [show List.take 32 (h32 ++ r) = h32 by
      rw [← h32l]; exact take_len_append h32 r]
    simp only [ByteSlice.drop]
    rw [show List.drop 32 (h32 ++ r) = r by
      rw [← h32l]; exact drop_len_append h32 r]
    simp [h32l]

/-- The private-box reader re-parses exactly the private box the builder
wrote. -/
theorem readPrivate_frame (priv : Option (BoxTag × List Nat)) {tog : Nat}
    (hbit : (tog &&& 16 = 0) ↔ priv = none)
    (hpt : ∀ c ∈ priv, c.1.length = 4)
    (hpd : ∀ c ∈ priv, c.2.length + 8 < 4294967296) (a : Nat) (r : List Nat) :
    DescriptionBox.readPrivate tog ⟨a, privFieldBytes priv ++ r⟩ =
      .ok (priv.map (privBoxAt a), ⟨a + (privFieldBytes priv).length, r⟩) := by
  rcases priv with _ | ⟨pt, pd⟩
  · rw [DescriptionBox.readPrivate, if_neg (by simp [hbit.mpr rfl])]
    simp [privFieldBytes]
  · have hbit2 : tog &&& 16 ≠ 0 := fun h0 => by simpa using hbit.mp h0
    rw [DescriptionBox.readPrivate, if_pos hbit2]
    simp only [privFieldBytes, childJumbfBytes]
    rw [DataBox.fromSlice_frame a pt pd r (hpt (pt, pd) rfl) (hpd (pt, pd) rfl)]
    dsimp only
    simp +arith [privBoxAt, childJumbfBytes, encode4_length, hpt (pt, pd) rfl]


/-- Parsing the bytes the description-box builder wrote recovers every
field: same UUID, label, requestable flag, id and hash, with the private
box re-parsed as a data box at its on-wire address, and the remainder
exactly the trailing bytes. -/
theorem DescriptionBox.fromSource_frame (a : Nat) (uuid : List Nat)
    (label : Option (List Nat)) (requestable : Bool) (id : Option Nat)
    (hash : Option (List Nat)) (priv : Option (BoxTag × List Nat)) (rest : List Nat)
    (huuid : uuid.length = 16)
    (hlab : ∀ l ∈ label, 0 ∉ l ∧ validUtf8 l = true)
    (hid : ∀ v ∈ id, v < 4294967296)
    (hh : ∀ h ∈ hash, h.length = 32)
    (hpt : ∀ c ∈ priv, c.1.length = 4)
    (hpd : ∀ c ∈ priv, c.2.length + 8 < 4294967296)
    (hdlen : (descPayloadBytes uuid label requestable id hash priv).length + 8 <
      4294967296) :
    DescriptionBox.fromSource
        ⟨a, descJumbfBytes uuid label requestable id hash priv ++ rest⟩ =
      .ok (⟨uuid, label, requestable, id, hash,
          priv.map (privBoxAt (a + 25 + (labelFieldBytes label).length +
            (idFieldBytes id).length + (hashFieldBytes hash).length)),
          ⟨a, descJumbfBytes uuid label requestable id hash priv⟩⟩,
        ⟨a + (descJumbfBytes uuid label requestable id hash priv).length, rest⟩) := by
  simp only [DescriptionBox.fromSource, descJumbfBytes]
  set dp := descPayloadBytes uuid label requestable id hash priv with hdp
  have hplen : dp.length = 17 + (labelFieldBytes label).length +
      (idFieldBytes id).length + (hashFieldBytes hash).length +
      (privFieldBytes priv).length := by
    rw [hdp]
    simp +arith [descPayloadBytes, huuid]
  have hdrop16 : dp.drop 16 = descToggles label requestable id hash priv ::
      (labelFieldBytes label ++ (idFieldBytes id ++ (hashFieldBytes hash ++
        (privFieldBytes priv ++ ([] : List Nat))))) := by
    rw [hdp]
    simp only [descPayloadBytes, List.append_assoc]
    rw [show (16 : Nat) = uuid.length from huuid.symm, drop_len_append uuid _]
    simp
  have htu : dp.take 16 = uuid := by
    rw [hdp]
    simp only [descPayloadBytes, List.append_assoc]
    rw [show (16 : Nat) = uuid.length from huuid.symm]
    exact take_len_append uuid _
  rw [DataBox.fromSlice_frame a DESCRIPTION_BOX_TYPE dp rest rfl hdlen]
  simp only [bind, Except.bind]
  rw [DescriptionBox.fromBox]
  rw [if_neg (by simp)]
  rw [if_neg (by simp only [ByteSlice.len]; omega)]
  simp only [ByteSlice.drop, hdrop16, List.drop_one, List.tail_cons]
  try dsimp only
  rw [readLabel_frame label (descToggles_and2 label requestable id hash priv) hlab]
  simp only [bind, Except.bind]
  try dsimp only
  rw [readId_frame id (descToggles_and4 label requestable id hash priv) hid]
  simp only [bind, Except.bind]
  try dsimp only
  rw [readHash_frame hash (descToggles_and8 label requestable id hash priv) hh]
  simp only [bind, Except.bind]
  try dsimp only
  rw [readPrivate_frame priv (descToggles_and16 label requestable id hash priv)
    hpt hpd]
  simp only [bind, Except.bind]
  try dsimp only
  rw [htu, descToggles_and1 label requestable id hash priv]
  simp +arith [encode4_length]
  constructor
  · rw [show a + (labelFieldBytes label).length + (idFieldBytes id).length +
        (hashFieldBytes hash).length + 25 =
        a + 25 + (labelFieldBytes label).length + (idFieldBytes id).length +
        (hashFieldBytes hash).length by omega]
  · simp [DESCRIPTION_BOX_TYPE]


/-- Parsing the concatenated children bytes yields exactly the written data
boxes, in order, consuming everything. -/
theorem boxesFromSource_children (cs : List (BoxTag × List Nat)) :
    ∀ a : Nat, (∀ c ∈ cs, c.1.length = 4 ∧ c.2.length + 8 < 4294967296) →
    boxesFromSource ⟨a, childrenJumbfBytes cs⟩ =
      .ok (childDataBoxesAt a cs, ⟨a + (childrenJumbfBytes cs).length, []⟩) := by
  induction cs with
  | nil =>
    intro a h
    rw [boxesFromSource_eq]
    simp [childrenJumbfBytes, childDataBoxesAt, ByteSlice.len]
  | cons c rest ih =>
    intro a h
    obtain ⟨ht4, hsz⟩ := h c (by simp)
    rw [boxesFromSource_eq]
    rw [if_neg (by
      simp only [ByteSlice.len, childrenJumbfBytes, childJumbfBytes,
        List.length_append, encode4]
      simp)]
    rw [show (⟨a, childrenJumbfBytes (c :: rest)⟩ : ByteSlice) =
      ⟨a, encode4 (c.2.length + 8) ++ c.1 ++ c.2 ++ childrenJumbfBytes rest⟩ by
        simp [childrenJumbfBytes, childJumbfBytes]]
    rw [DataBox.fromSlice_frame a c.1 c.2 (childrenJumbfBytes rest) ht4 hsz]
    try dsimp only
    rw [ih (a + 8 + c.2.length) (fun x hx => h x (by simp [hx]))]
    try dsimp only
    simp +arith [childDataBoxesAt, childrenJumbfBytes, childJumbfBytes,
      encode4_length, ht4]

/-- Projecting tag and payload bytes out of the parsed children recovers the
written list. -/
theorem childDataBoxesAt_spec (cs : List (BoxTag × List Nat)) :
    ∀ a : Nat,
    (childDataBoxesAt a cs).map (fun d => (d.tbox, d.data.bytes)) = cs := by
  induction cs with
  | nil => intro a; rfl
  | cons c rest ih =>
    intro a
    simp [childDataBoxesAt, ih]

/-- Every parsed child's tag is one of the written tags. -/
theorem childDataBoxesAt_tbox (cs : List (BoxTag × List Nat)) :
    ∀ a : Nat, ∀ d ∈ childDataBoxesAt a cs, d.tbox ∈ cs.map Prod.fst := by
  induction cs with
  | nil => intro a d hd; simp [childDataBoxesAt] at hd
  | cons c rest ih =>
    intro a d hd
    rcases (by simpa [childDataBoxesAt] using hd :
        d = ⟨c.1, ⟨a + 8, c.2⟩, ⟨a, childJumbfBytes c⟩⟩ ∨
          d ∈ childDataBoxesAt (a + 8 + c.2.length) rest) with h | h
    · simp [h]
    · simp [ih _ d h]

/-- When the dispatch keeps every raw box opaque, `mapChildren` is just
`List.map`. -/
theorem mapChildren_all_data {step : DataBox → Except Error ChildBox} :
    ∀ ds : List DataBox, (∀ d ∈ ds, step d = .ok (.dataBox d)) →
    mapChildren step ds = .ok (ds.map ChildBox.dataBox) := by
  intro ds
  induction ds with
  | nil => intro h; rfl
  | cons d rest ih =>
    intro h
    rw [mapChildren, h d (by simp), ih (fun x hx => h x (by simp [hx]))]
    rfl


/-- Parsing the bytes `writeJumbf` emitted for a restricted super-box
builder recovers the description box and all children, consuming exactly
the emitted bytes. -/
theorem superJumbf_parse (uuid : List Nat) (label : Option (List Nat))
    (requestable : Bool) (id : Option Nat) (hash : Option (List Nat))
    (priv : Option (BoxTag × List Nat)) (children : List (BoxTag × List Nat))
    (a : Nat) (rest : List Nat)
    (huuid : uuid.length = 16)
    (hlab : ∀ l ∈ label, 0 ∉ l ∧ validUtf8 l = true)
    (hid : ∀ v ∈ id, v < 4294967296)
    (hh : ∀ h ∈ hash, h.length = 32)
    (hpt : ∀ c ∈ priv, c.1.length = 4)
    (hpd : ∀ c ∈ priv, c.2.length + 8 < 4294967296)
    (hch : ∀ c ∈ children, c.1.length = 4 ∧ c.1 ≠ SUPER_BOX_TYPE ∧
      c.2.length + 8 < 4294967296)
    (hdlen : (descPayloadBytes uuid label requestable id hash priv).length + 8 <
      4294967296)
    (htot : (descJumbfBytes uuid label requestable id hash priv).length +
      (childrenJumbfBytes children).length + 8 < 4294967296) :
    SuperBox.fromSource
        ⟨a, superJumbfBytes uuid label requestable id hash priv children ++ rest⟩ =
      .ok (.mk
        ⟨uuid, label, requestable, id, hash,
          priv.map (privBoxAt (a + 8 + 25 + (labelFieldBytes label).length +
            (idFieldBytes id).length + (hashFieldBytes hash).length)),
          ⟨a + 8, descJumbfBytes uuid label requestable id hash priv⟩⟩
        ((childDataBoxesAt
            (a + 8 + (descJumbfBytes uuid label requestable id hash priv).length)
            children).map ChildBox.dataBox)
        ⟨a, superJumbfBytes uuid label requestable id hash priv children⟩,
        ⟨a + (superJumbfBytes uuid label requestable id hash priv children).length,
          rest⟩) := by
  simp only [SuperBox.fromSource, SuperBox.fromSourceWithDepthLimit, superJumbfBytes]
  rw [DataBox.fromSlice_frame a SUPER_BOX_TYPE
    (descJumbfBytes uuid label requestable id hash priv ++ childrenJumbfBytes children)
    rest rfl (by simp only [List.length_append]; omega)]
  simp only [bind, Except.bind]
  try dsimp only
  rw [SuperBox.fromDataBoxWithDepthLimit_eq]
  rw [superBoxShell]
  rw [if_neg (by simp)]
  try dsimp only
  rw [DescriptionBox.fromSource_frame (a + 8) uuid label requestable id hash priv
    (childrenJumbfBytes children) huuid hlab hid hh hpt hpd hdlen]
  try dsimp only
  rw [boxesFromSource_children children
    (a + 8 + (descJumbfBytes uuid label requestable id hash priv).length)
    (fun c hc => ⟨(hch c hc).1, (hch c hc).2.2⟩)]
  try dsimp only
  rw [mapChildren_all_data _ (fun d hd => by
    rw [if_neg]
    rintro ⟨hsup, -⟩
    have hmem := childDataBoxesAt_tbox children _ d hd
    rw [hsup] at hmem
    rcases List.mem_map.mp hmem with ⟨c, hc, hceq⟩
    exact (hch c hc).2.1 hceq)]
  try dsimp only
  simp +arith [encode4_length, List.length_append, SUPER_BOX_TYPE]


/-- Writing a data box whose payload exceeds the 32-bit form fails loudly,
leaving the sink untouched. -/
theorem writeJumbf_dataBox_oversized {t : BoxTag} {d : List Nat} (s : Sink)
    (hd : MAX_32BIT_PAYLOAD_SIZE < d.length) :
    writeJumbf (.dataBox t d) s = (.error .unsupportedLargePayload, .dataBox t d, s) := by
  rw [writeJumbf, show payloadSize (.dataBox t d) = .ok d.length by rw [payloadSize]]
  simp only [jumbfSizeFromPayloadSize,
    if_neg (by omega : ¬ d.length ≤ MAX_32BIT_PAYLOAD_SIZE)]

/-- An oversized private data box makes the description-box payload write
fail. -/
theorem descWritePayload_priv_oversized {uuid : List Nat} {label : Option (List Nat)}
    {requestable : Bool} {id : Option Nat} {hash : Option (List Nat)}
    {pt : BoxTag} {pd : List Nat} (s : Sink)
    (hd : MAX_32BIT_PAYLOAD_SIZE < pd.length) :
    (descWritePayload
      (.mk uuid label requestable id hash (some (.dataBox pt pd))) s).1 =
      .error .unsupportedLargePayload := by
  rw [descWritePayload.eq_def]
  dsimp only
  rw [writeJumbf_dataBox_oversized _ hd]

/-- A successful description-box payload size bounds the private box's
payload. -/
theorem descPayloadSize_priv_guard {uuid : List Nat} {label : Option (List Nat)}
    {requestable : Bool} {id : Option Nat} {hash : Option (List Nat)}
    {priv : Option (BoxTag × List Nat)} {n : Nat}
    (h : descPayloadSize (.mk uuid label requestable id hash
      (priv.map fun c => .dataBox c.1 c.2)) = .ok n) :
    ∀ c ∈ priv, c.2.length ≤ MAX_32BIT_PAYLOAD_SIZE := by
  rcases priv with _ | ⟨pt, pd⟩
  · intro c hc
    exact absurd hc (by simp)
  · intro c hc
    obtain rfl : c = (pt, pd) := by
      have := hc
      simp only [Option.mem_def, Option.some.injEq] at this
      exact this.symm
    by_contra hgt
    push_neg at hgt
    have h2 : descPayloadSize
        (.mk uuid label requestable id hash (some (.dataBox pt pd))) = .ok n := h
    rw [descPayloadSize] at h2
    rcases hw : descWritePayload
        (.mk uuid label requestable id hash (some (.dataBox pt pd)))
        Sink.countingSink with ⟨r, d2, s2⟩
    have hgt2 : MAX_32BIT_PAYLOAD_SIZE < pd.length := hgt
    have h1 := @descWritePayload_priv_oversized uuid label requestable id hash pt pd
      Sink.countingSink hgt2
    rw [hw] at h1 h2
    dsimp only at h1
    rw [h1] at h2
    exact absurd h2 (by simp)

/-- A successful children payload size bounds every child's payload. -/
theorem payloadSizeChildren_guard :
    ∀ (cs : List (BoxTag × List Nat)) {n : Nat},
    payloadSizeChildren (cs.map fun c => .dataBox c.1 c.2) = .ok n →
    ∀ c ∈ cs, c.2.length ≤ MAX_32BIT_PAYLOAD_SIZE := by
  intro cs
  induction cs with
  | nil =>
    intro n h c hc
    simp at hc
  | cons c0 rest ih =>
    intro n h c hc
    rw [List.map_cons, payloadSizeChildren, jumbfSizeOf,
      show payloadSize (.dataBox c0.1 c0.2) = .ok c0.2.length
        by rw [payloadSize]] at h
    try dsimp only at h
    by_cases hle : c0.2.length ≤ MAX_32BIT_PAYLOAD_SIZE
    · simp only [jumbfSizeFromPayloadSize, if_pos hle] at h
      try dsimp only at h
      rcases hr : payloadSizeChildren (rest.map fun c => Builder.dataBox c.1 c.2)
        with e | m <;> rw [hr] at h
      · exact absurd h (by simp)
      · rcases (by simpa using hc : c = c0 ∨ c ∈ rest) with rfl | hmem
        · exact hle
        · exact ih hr c hmem
    · simp only [jumbfSizeFromPayloadSize, if_neg hle] at h
      exact absurd h (by simp)

/-- Inversion of a successful super-box payload size. -/
theorem payloadSize_superBox_guard {desc : DescriptionBoxBuilder}
    {children : List Builder} {n : Nat}
    (h : payloadSize (.superBox desc children) = .ok n) :
    ∃ dsize csize, descPayloadSize desc = .ok dsize ∧
      dsize ≤ MAX_32BIT_PAYLOAD_SIZE ∧
      payloadSizeChildren children = .ok csize ∧ n = dsize + 8 + csize := by
  rw [payloadSize] at h
  rcases hd : descPayloadSize desc with e | dsize <;> rw [hd] at h
  · exact absurd h (by simp)
  · by_cases hle : dsize ≤ MAX_32BIT_PAYLOAD_SIZE
    · simp only [jumbfSizeFromPayloadSize, if_pos hle] at h
      try dsimp only at h
      rcases hc : payloadSizeChildren children with e | csize <;> rw [hc] at h
      · exact absurd h (by simp)
      · simp only [Except.ok.injEq] at h
        exact ⟨dsize, csize, rfl, hle, rfl, h.symm⟩
    · simp only [jumbfSizeFromPayloadSize, if_neg hle] at h
      exact absurd h (by simp)

/-- A successful `write_jumbf` implies the payload size was computed and fit
the 32-bit header form. -/
theorem writeJumbf_ok_guard {b : Builder} {s s2 : Sink} {b2 : Builder}
    (h : writeJumbf b s = (.ok (), b2, s2)) :
    ∃ n, payloadSize b = .ok n ∧ n ≤ MAX_32BIT_PAYLOAD_SIZE := by
  rw [writeJumbf] at h
  rcases hp : payloadSize b with e | n <;> rw [hp] at h
  · simp only [Prod.mk.injEq, reduceCtorEq, false_and] at h
  · by_cases hle : n ≤ MAX_32BIT_PAYLOAD_SIZE
    · exact ⟨n, rfl, hle⟩
    · simp only [jumbfSizeFromPayloadSize, if_neg hle] at h
      simp only [Prod.mk.injEq, reduceCtorEq, false_and] at h


/-- C1 counterexample: a super-box builder with one data-box child whose
type tag is `jumb` (the super-box tag) and whose payload is empty.
`write_jumbf` succeeds, but parsing the emitted bytes fails — the parser
recursively decodes any `jumb`-tagged child as a super box, and the child's
empty payload has no description box — so the claim's round trip does not
hold for every builder value. -/
theorem c1_counterexample :
    (writeJumbf (builderOf (List.replicate 16 0) none false none none none
        [(SUPER_BOX_TYPE, [])]) Sink.emptySink).1 = .ok () ∧
    (writeJumbf (builderOf (List.replicate 16 0) none false none none none
        [(SUPER_BOX_TYPE, [])]) Sink.emptySink).2.2.data =
      superJumbfBytes (List.replicate 16 0) none false none none none
        [(SUPER_BOX_TYPE, [])] ∧
    SuperBox.fromSource
        ⟨0, superJumbfBytes (List.replicate 16 0) none false none none none
          [(SUPER_BOX_TYPE, [])]⟩ =
      .error (.nomError .eof) := by
  have hw := writeJumbf_builderOf (List.replicate 16 0) none false none none none
    [(SUPER_BOX_TYPE, [])] (s := Sink.emptySink) rfl (by simp) (by decide)
    (by decide) (by decide)
  refine ⟨by rw [hw], by rw [hw]; rfl, by rfl⟩

/-! ### Byte-level specification for arbitrary builders

The pair-based definitions above cover data-box children only; the
following mutual definitions spell out the emitted bytes for every
`ToBox` implementation, including placeholder and nested super-box
builders. -/

/-- The toggles byte for a description-box builder whose private box is an
arbitrary builder. -/
def descTogglesB (label : Option (List Nat)) (requestable : Bool) (id : Option Nat)
    (hash : Option (List Nat)) (priv : Option Builder) : Nat :=
  (if requestable then 0x01 else 0) |||
  (if label.isSome then 0x02 else 0) |||
  (if id.isSome then 0x04 else 0) |||
  (if hash.isSome then 0x08 else 0) |||
  (if priv.isSome then 0x10 else 0)

mutual

/-- The payload bytes `write_payload` produces for each builder: the raw
buffer for a data box, `size` zeros for a placeholder, and the description
box followed by the children for a super box. -/
def builderPayloadBytes : Builder → List Nat
  | .dataBox _ d => d
  | .placeholder p => List.replicate p.size 0
  | .superBox desc children =>
    descJumbfBytesB desc ++ childrenJumbfBytesB children
termination_by b => (sizeOf b, 0)

/-- The full on-wire frame `write_jumbf` produces for a builder: 4-byte
big-endian length, 4-byte tag, payload. -/
def builderJumbfBytes (b : Builder) : List Nat :=
  encode4 ((builderPayloadBytes b).length + 8) ++ b.boxType ++ builderPayloadBytes b
termination_by (sizeOf b, 1)

/-- Concatenated frames of a list of child builders, in order. -/
def childrenJumbfBytesB : List Builder → List Nat
  | [] => []
  | c :: rest => builderJumbfBytes c ++ childrenJumbfBytesB rest
termination_by cs => (sizeOf cs, 2)

/-- The payload bytes `DescriptionBoxBuilder::write_payload` produces, with
the private box written through `write_jumbf`. -/
def descPayloadBytesB : DescriptionBoxBuilder → List Nat
  | .mk uuid label requestable id hash priv =>
    uuid ++ [descTogglesB label requestable id hash priv] ++
    labelFieldBytes label ++ idFieldBytes id ++ hashFieldBytes hash ++
    (match priv with | some pb => builderJumbfBytes pb | none => [])
termination_by d => (sizeOf d, 1)

/-- The full on-wire description box for a builder. -/
def descJumbfBytesB (desc : DescriptionBoxBuilder) : List Nat :=
  encode4 ((descPayloadBytesB desc).length + 8) ++ DESCRIPTION_BOX_TYPE ++
    descPayloadBytesB desc
termination_by (sizeOf desc, 2)

end

mutual

/-- Nesting depth of a builder: data boxes and placeholders are leaves; a
super box is one deeper than its deepest child. -/
def Builder.depth : Builder → Nat
  | .dataBox _ _ => 0
  | .placeholder _ => 0
  | .superBox _ children => depthList children + 1
termination_by b => sizeOf b

/-- Greatest nesting depth in a list of child builders. -/
def depthList : List Builder → Nat
  | [] => 0
  | c :: rest => max c.depth (depthList rest)
termination_by cs => sizeOf cs

end

mutual

/-- All box type tags inside a builder are 4 bytes, so the `payload + 8`
length accounting of `jumbf_size` matches the bytes actually written.
In Rust this holds by construction (`BoxType` is `[u8; 4]`). -/
inductive SCB : Builder → Prop
  | dataBox {t : BoxTag} {d : List Nat} (h4 : t.length = 4) : SCB (.dataBox t d)
  | placeholder {p : PlaceholderDataBox} (h4 : p.tbox.length = 4) :
      SCB (.placeholder p)
  | superBox {desc : DescriptionBoxBuilder} {children : List Builder}
      (hdesc : SCDesc desc) (hch : ∀ c ∈ children, SCB c) :
      SCB (.superBox desc children)

/-- Tag-size consistency for a description-box builder (its own tag is the
fixed 4-byte `jumd`; only the private box carries nested tags). -/
inductive SCDesc : DescriptionBoxBuilder → Prop
  | mk {uuid : List Nat} {label : Option (List Nat)} {requestable : Bool}
      {id : Option Nat} {hash : Option (List Nat)} {priv : Option Builder}
      (hpriv : ∀ pb ∈ priv, SCB pb) :
      SCDesc (.mk uuid label requestable id hash priv)

end

mutual

/-- The builder class of the amended round-trip claim: children may be data
boxes, placeholders or nested super boxes; a data or placeholder child must
not use the reserved super-box tag `jumb` (the parser would re-decode it);
nested super boxes are recursively in the class. -/
inductive GoodChild : Builder → Prop
  | dataBox {t : BoxTag} {d : List Nat} (h4 : t.length = 4)
      (hnj : t ≠ SUPER_BOX_TYPE) : GoodChild (.dataBox t d)
  | placeholder {p : PlaceholderDataBox} (h4 : p.tbox.length = 4)
      (hnj : p.tbox ≠ SUPER_BOX_TYPE) : GoodChild (.placeholder p)
  | superBox {desc : DescriptionBoxBuilder} {children : List Builder}
      (hgood : GoodSuper desc children) : GoodChild (.superBox desc children)

/-- A super-box builder in the round-trip class: field shapes as in the
Rust types (16-byte UUID, valid-UTF-8 label, `u32` id, 32-byte hash), a
null-free label, a private box of any builder kind with 4-byte tags inside,
and children in the class. -/
inductive GoodSuper : DescriptionBoxBuilder → List Builder → Prop
  | mk {uuid : List Nat} {label : Option (List Nat)} {requestable : Bool}
      {id : Option Nat} {hash : Option (List Nat)} {priv : Option Builder}
      {children : List Builder}
      (huuid : uuid.length = 16)
      (hlab : ∀ l ∈ label, 0 ∉ l ∧ validUtf8 l = true)
      (hid : ∀ v ∈ id, v < 4294967296)
      (hh : ∀ x ∈ hash, x.length = 32)
      (hpriv : ∀ pb ∈ priv, SCB pb)
      (hch : ∀ c ∈ children, GoodChild c) :
      GoodSuper (.mk uuid label requestable id hash priv) children

end

mutual

/-- Every payload in the builder tree fits the 32-bit length form (derived
below from a successful `write_jumbf`). -/
inductive BoundedB : Builder → Prop
  | dataBox {t : BoxTag} {d : List Nat} (h : d.length ≤ MAX_32BIT_PAYLOAD_SIZE) :
      BoundedB (.dataBox t d)
  | placeholder {p : PlaceholderDataBox} (h : p.size ≤ MAX_32BIT_PAYLOAD_SIZE) :
      BoundedB (.placeholder p)
  | superBox {desc : DescriptionBoxBuilder} {children : List Builder}
      (hdesc : BoundedDesc desc) (hch : ∀ c ∈ children, BoundedB c)
      (htot : (builderPayloadBytes (.superBox desc children)).length ≤
        MAX_32BIT_PAYLOAD_SIZE) :
      BoundedB (.superBox desc children)

/-- Bound for the description box and its private box. -/
inductive BoundedDesc : DescriptionBoxBuilder → Prop
  | mk {uuid : List Nat} {label : Option (List Nat)} {requestable : Bool}
      {id : Option Nat} {hash : Option (List Nat)} {priv : Option Builder}
      (hpriv : ∀ pb ∈ priv, BoundedB pb)
      (hd : (descPayloadBytesB (.mk uuid label requestable id hash priv)).length ≤
        MAX_32BIT_PAYLOAD_SIZE) :
      BoundedDesc (.mk uuid label requestable id hash priv)

end

mutual

/-- Structural correspondence between a child builder and a parsed child
box: a data box keeps its tag and payload; a placeholder parses back as the
data box of `size` zeros it wrote; a nested super-box builder parses back
as a recursively matching super box. -/
inductive MatchesChild : Builder → ChildBox → Prop
  | dataBox {t : BoxTag} {d : List Nat} {db : DataBox}
      (ht : db.tbox = t) (hd : db.data.bytes = d) :
      MatchesChild (.dataBox t d) (.dataBox db)
  | placeholder {p : PlaceholderDataBox} {db : DataBox}
      (ht : db.tbox = p.tbox) (hd : db.data.bytes = List.replicate p.size 0) :
      MatchesChild (.placeholder p) (.dataBox db)
  | superBox {desc : DescriptionBoxBuilder} {children : List Builder} {sb : SuperBox}
      (hm : MatchesSuper desc children sb) :
      MatchesChild (.superBox desc children) (.superBox sb)

/-- Structural correspondence between a super-box builder and a parsed
super box: equal description-box fields, the private box re-parsed with the
builder's tag and written payload, and pointwise matching children. -/
inductive MatchesSuper : DescriptionBoxBuilder → List Builder → SuperBox → Prop
  | mk {uuid : List Nat} {label : Option (List Nat)} {requestable : Bool}
      {id : Option Nat} {hash : Option (List Nat)} {priv : Option Builder}
      {children : List Builder} {sb : SuperBox}
      (huuid : sb.desc.uuid = uuid) (hlab : sb.desc.label = label)
      (hreq : sb.desc.requestable = requestable) (hid : sb.desc.id = id)
      (hhash : sb.desc.hash = hash)
      (hpriv : MatchesPriv priv sb.desc.priv)
      (hch : MatchesChildren children sb.childBoxes) :
      MatchesSuper (.mk uuid label requestable id hash priv) children sb

/-- The parsed private box carries the builder's tag and exactly the
payload bytes its `write_payload` produced. -/
inductive MatchesPriv : Option Builder → Option DataBox → Prop
  | none : MatchesPriv none none
  | some {pb : Builder} {db : DataBox}
      (ht : db.tbox = pb.boxType)
      (hd : db.data.bytes = builderPayloadBytes pb) :
      MatchesPriv (some pb) (some db)

/-- Pointwise child correspondence, preserving order and count. -/
inductive MatchesChildren : List Builder → List ChildBox → Prop
  | nil : MatchesChildren [] []
  | cons {c : Builder} {cb : ChildBox} {cs : List Builder} {cbs : List ChildBox}
      (hm : MatchesChild c cb) (hs : MatchesChildren cs cbs) :
      MatchesChildren (c :: cs) (cb :: cbs)

end

/-- The raw data boxes obtained by parsing the concatenated child frames
starting at address `a`. -/
def rawBoxesAt : Nat → List Builder → List DataBox
  | _, [] => []
  | a, c :: rest =>
    ⟨c.boxType, ⟨a + 8, builderPayloadBytes c⟩, ⟨a, builderJumbfBytes c⟩⟩ ::
      rawBoxesAt (a + 8 + (builderPayloadBytes c).length) rest


/-- Tag-size consistency gives the reported box type 4 bytes. -/
theorem SCB.boxType_len {b : Builder} (h : SCB b) : b.boxType.length = 4 := by
  cases h with
  | dataBox h4 => exact h4
  | placeholder h4 => exact h4
  | superBox hdesc hch => rfl

/-- The bound at a node of the `Bounded` tree, phrased on the payload
bytes. -/
theorem BoundedB.payload_le {b : Builder} (h : BoundedB b) :
    (builderPayloadBytes b).length ≤ MAX_32BIT_PAYLOAD_SIZE := by
  cases h with
  | dataBox hb => rw [builderPayloadBytes]; exact hb
  | placeholder hb => rw [builderPayloadBytes]; simpa using hb
  | superBox hdesc hch htot => exact htot

/-- A consistent builder's frame is its payload plus the 8-byte header. -/
theorem builderJumbfBytes_len {b : Builder} (h : SCB b) :
    (builderJumbfBytes b).length = (builderPayloadBytes b).length + 8 := by
  rw [builderJumbfBytes]
  simp +arith [encode4_length, h.boxType_len]

/-- The description frame is its payload plus the 8-byte header. -/
theorem descJumbfBytesB_len (desc : DescriptionBoxBuilder) :
    (descJumbfBytesB desc).length = (descPayloadBytesB desc).length + 8 := by
  rw [descJumbfBytesB]
  simp +arith [encode4_length, DESCRIPTION_BOX_TYPE]

/-- A triple whose first component is `ok` is an `ok` triple. -/
theorem exists_ok_of_fst_ok {β γ : Type} {x : Except IoError Unit × β × γ}
    (h1 : x.1 = .ok ()) : ∃ b2 s3, x = (.ok (), b2, s3) :=
  ⟨x.2.1, x.2.2, by rw [← h1]⟩

/-- A successful description-payload write with a private box implies the
private box's own `write_jumbf` succeeded on some sink. -/
theorem descWritePayload_priv_ok {uuid : List Nat} {label : Option (List Nat)}
    {requestable : Bool} {id : Option Nat} {hash : Option (List Nat)}
    {pb : Builder} {s : Sink} {d2 : DescriptionBoxBuilder} {s2 : Sink}
    (h : descWritePayload (.mk uuid label requestable id hash (some pb)) s =
      (.ok (), d2, s2)) :
    ∃ s0 pb2 s3, writeJumbf pb s0 = (.ok (), pb2, s3) := by
  rw [descWritePayload.eq_def] at h
  dsimp only at h
  rcases label with _ | l <;> rcases id with _ | v <;> rcases hash with _ | x <;>
    (try dsimp only at h) <;>
    (simp only [Prod.mk.injEq] at h
     obtain ⟨pb2, s3, hw⟩ := exists_ok_of_fst_ok h.1
     exact ⟨_, pb2, s3, hw⟩)

/-- A successful children size computation bounds and sizes every child. -/
theorem payloadSizeChildren_ok_each :
    ∀ (cs : List Builder) {m : Nat}, payloadSizeChildren cs = .ok m →
    ∀ c ∈ cs, ∃ k, payloadSize c = .ok k ∧ k ≤ MAX_32BIT_PAYLOAD_SIZE := by
  intro cs
  induction cs with
  | nil =>
    intro m h c hc
    exact absurd hc (by simp)
  | cons c0 rest ih =>
    intro m h c hc
    rw [payloadSizeChildren, jumbfSizeOf] at h
    rcases hp : payloadSize c0 with e | k <;> rw [hp] at h
    · exact absurd h (by simp)
    · by_cases hk : k ≤ MAX_32BIT_PAYLOAD_SIZE
      · simp only [jumbfSizeFromPayloadSize, if_pos hk] at h
        try dsimp only at h
        rcases hr : payloadSizeChildren rest with e | mr <;> rw [hr] at h
        · exact absurd h (by simp)
        · rcases (by simpa using hc : c = c0 ∨ c ∈ rest) with rfl | hmem
          · exact ⟨k, hp, hk⟩
          · exact ih hr c hmem
      · simp only [jumbfSizeFromPayloadSize, if_neg hk] at h
        exact absurd h (by simp)

/-- Inversion of a successful default `payload_size`: the counting-sink
write succeeded and the count is its final position. -/
theorem descPayloadSize_ok_inv {desc : DescriptionBoxBuilder} {m : Nat}
    (h : descPayloadSize desc = .ok m) :
    ∃ d2 s2, descWritePayload desc Sink.countingSink = (.ok (), d2, s2) ∧
      m = s2.pos := by
  rw [descPayloadSize] at h
  rcases hw : descWritePayload desc Sink.countingSink with ⟨r, d2, s2⟩
  rw [hw] at h
  cases r with
  | error e => exact absurd h (by simp)
  | ok u =>
    cases u
    exact ⟨d2, s2, rfl, (Except.ok.inj h).symm⟩


mutual

/-- A successful `payload_size` of a tag-consistent builder equals the
length of the payload bytes it will write. -/
theorem payloadSize_sc {b : Builder} (hsc : SCB b) {m : Nat}
    (h : payloadSize b = .ok m) : m = (builderPayloadBytes b).length := by
  cases hsc with
  | dataBox h4 =>
    rw [payloadSize] at h
    rw [builderPayloadBytes]
    exact (Except.ok.inj h).symm
  | placeholder h4 =>
    rw [payloadSize] at h
    rw [builderPayloadBytes]
    simp [← Except.ok.inj h]
  | superBox hdesc hch =>
    rename_i desc children
    rw [payloadSize] at h
    rcases hd : descPayloadSize desc with e | dsize <;> rw [hd] at h
    · exact absurd h (by simp)
    · by_cases hdle : dsize ≤ MAX_32BIT_PAYLOAD_SIZE
      · simp only [jumbfSizeFromPayloadSize, if_pos hdle] at h
        try dsimp only at h
        rcases hc : payloadSizeChildren children with e | csize <;> rw [hc] at h
        · exact absurd h (by simp)
        · have h1 := descPayloadSize_sc hdesc hd
          have h2 := payloadSizeChildren_sc hch hc
          have h3 := Except.ok.inj h
          rw [builderPayloadBytes]
          simp only [List.length_append, descJumbfBytesB_len]
          omega
      · simp only [jumbfSizeFromPayloadSize, if_neg hdle] at h
        exact absurd h (by simp)
termination_by (sizeOf b, 0)

/-- A successful children size sum equals the length of the concatenated
child frames. -/
theorem payloadSizeChildren_sc {cs : List Builder} (hsc : ∀ c ∈ cs, SCB c) {m : Nat}
    (h : payloadSizeChildren cs = .ok m) : m = (childrenJumbfBytesB cs).length := by
  cases cs with
  | nil =>
    rw [payloadSizeChildren] at h
    rw [childrenJumbfBytesB]
    simpa using (Except.ok.inj h).symm
  | cons c0 rest =>
    rw [payloadSizeChildren, jumbfSizeOf] at h
    rcases hp : payloadSize c0 with e | k <;> rw [hp] at h
    · exact absurd h (by simp)
    · by_cases hk : k ≤ MAX_32BIT_PAYLOAD_SIZE
      · simp only [jumbfSizeFromPayloadSize, if_pos hk] at h
        try dsimp only at h
        rcases hr : payloadSizeChildren rest with e | mr <;> rw [hr] at h
        · exact absurd h (by simp)
        · have hsc0 : SCB c0 := hsc c0 (by simp)
          have h1 := payloadSize_sc hsc0 hp
          have h2 := payloadSizeChildren_sc (fun c hcm => hsc c (by simp [hcm])) hr
          have h3 := Except.ok.inj h
          rw [childrenJumbfBytesB]
          simp only [List.length_append, builderJumbfBytes_len hsc0]
          omega
      · simp only [jumbfSizeFromPayloadSize, if_neg hk] at h
        exact absurd h (by simp)
termination_by (sizeOf cs, 1)

/-- A successful default description-box size equals the length of the
description payload bytes. -/
theorem descPayloadSize_sc {desc : DescriptionBoxBuilder} (hsc : SCDesc desc) {m : Nat}
    (h : descPayloadSize desc = .ok m) : m = (descPayloadBytesB desc).length := by
  obtain ⟨d3, s3, hw, hm⟩ := descPayloadSize_ok_inv h
  have h2 := descWritePayload_sc hsc (s := Sink.countingSink) rfl hw
  rw [hm, h2]
  simp [Sink.countingSink]
termination_by (sizeOf desc, 2)

/-- A successful description-payload write appends exactly
`descPayloadBytesB`. -/
theorem descWritePayload_sc {desc : DescriptionBoxBuilder} (hsc : SCDesc desc)
    {s : Sink} {d2 : DescriptionBoxBuilder} {s2 : Sink}
    (hpos : s.pos = s.data.length)
    (h : descWritePayload desc s = (.ok (), d2, s2)) :
    s2 = ⟨s.data ++ descPayloadBytesB desc,
      s.pos + (descPayloadBytesB desc).length, s.counting⟩ := by
  obtain ⟨uuid, label, requestable, id, hash, priv, hdeq⟩ :
      ∃ u l r i hh p, desc = .mk u l r i hh p := by
    cases desc
    exact ⟨_, _, _, _, _, _, rfl⟩
  rw [hdeq] at h hsc ⊢
  obtain ⟨ld, np, cb⟩ := s
  have hpos2 : np = ld.length := hpos
  rcases priv with _ | pb
  · have heq : descWritePayload (.mk uuid label requestable id hash none)
        (⟨ld, np, cb⟩ : Sink) =
        (.ok (), .mk uuid label requestable id hash none,
         ⟨ld ++ descPayloadBytesB (.mk uuid label requestable id hash none),
          np + (descPayloadBytesB (.mk uuid label requestable id hash none)).length,
          cb⟩) := by
      cases label <;> cases id <;> cases hash <;>
        simp +arith [descWritePayload, Sink.writeAll_mk, descPayloadBytesB,
          descTogglesB, labelFieldBytes, idFieldBytes, hashFieldBytes,
          hpos2, List.append_assoc]
    rw [heq] at h
    simp only [Prod.mk.injEq] at h
    exact h.2.2.symm
  · have hscpb : SCB pb := by
      cases hsc with
      | mk hpriv => exact hpriv pb rfl
    have hdec : sizeOf pb < sizeOf desc := by
      rw [hdeq]
      simp +arith
    cases label <;> cases id <;> cases hash <;>
      (rw [descWritePayload.eq_def] at h
       dsimp only at h
       simp +arith [Sink.writeAll_mk, hpos2, Prod.mk.injEq] at h
       obtain ⟨h1, hmk, h3⟩ := h
       obtain ⟨pb2, s3, hw⟩ := exists_ok_of_fst_ok h1
       have hs3 := writeJumbf_sc hscpb (by simp +arith) hw
       have h4 : s3 = s2 := by rw [hw] at h3; exact h3
       rw [← h4, hs3]
       simp +arith [descPayloadBytesB, descTogglesB, labelFieldBytes,
         idFieldBytes, hashFieldBytes, List.append_assoc]
       try omega)
termination_by (sizeOf desc, 1)
decreasing_by
  all_goals apply Prod.Lex.left
  all_goals exact hdec

/-- A successful description-box `write_jumbf` appends exactly
`descJumbfBytesB`. -/
theorem descWriteJumbf_sc {desc : DescriptionBoxBuilder} (hsc : SCDesc desc)
    {s : Sink} {d2 : DescriptionBoxBuilder} {s2 : Sink}
    (hpos : s.pos = s.data.length)
    (h : descWriteJumbf desc s = (.ok (), d2, s2)) :
    s2 = ⟨s.data ++ descJumbfBytesB desc,
      s.pos + (descJumbfBytesB desc).length, s.counting⟩ := by
  rw [descWriteJumbf] at h
  rcases hd : descPayloadSize desc with e | dsize <;> rw [hd] at h
  · exact absurd h (by simp)
  · by_cases hdle : dsize ≤ MAX_32BIT_PAYLOAD_SIZE
    · simp only [jumbfSizeFromPayloadSize, if_pos hdle] at h
      try dsimp only at h
      have hdsz := descPayloadSize_sc hsc hd
      obtain ⟨ld, np, cb⟩ := s
      have hpos2 : np = ld.length := hpos
      rw [Sink.writeAll_mk _ hpos2, Sink.writeAll_mk _ (by simp [hpos2])] at h
      have hs2 := descWritePayload_sc hsc (by simp +arith [hpos2]) h
      rw [hs2, hdsz]
      simp +arith [descJumbfBytesB, DESCRIPTION_BOX_TYPE, encode4_length,
        List.append_assoc]
    · simp only [jumbfSizeFromPayloadSize, if_neg hdle] at h
      exact absurd h (by simp)
termination_by (sizeOf desc, 3)

/-- A successful `write_jumbf` of a tag-consistent builder appends exactly
its frame bytes. -/
theorem writeJumbf_sc {b : Builder} (hsc : SCB b) {s : Sink} {b2 : Builder}
    {s2 : Sink} (hpos : s.pos = s.data.length)
    (h : writeJumbf b s = (.ok (), b2, s2)) :
    s2 = ⟨s.data ++ builderJumbfBytes b,
      s.pos + (builderJumbfBytes b).length, s.counting⟩ := by
  obtain ⟨n, hp, hn⟩ := writeJumbf_ok_guard h
  have hlen := payloadSize_sc hsc hp
  cases hsc with
  | dataBox h4 =>
    rename_i t d
    have hd : d.length ≤ MAX_32BIT_PAYLOAD_SIZE := by
      rw [show payloadSize (.dataBox t d) = .ok d.length by rw [payloadSize]] at hp
      have := Except.ok.inj hp
      omega
    rw [writeJumbf_dataBox hpos hd] at h
    simp only [Prod.mk.injEq] at h
    rw [← h.2.2]
    simp +arith [builderJumbfBytes, builderPayloadBytes, childJumbfBytes,
      Builder.boxType, List.append_assoc]
  | placeholder h4 =>
    rename_i p
    obtain ⟨t, N, off0⟩ := p
    have hN : N ≤ MAX_32BIT_PAYLOAD_SIZE := by
      rw [show payloadSize (.placeholder ⟨t, N, off0⟩) = .ok N
        by rw [payloadSize]] at hp
      have := Except.ok.inj hp
      omega
    cases hcb : s.counting with
    | true =>
      exfalso
      rw [writeJumbf, show payloadSize (.placeholder ⟨t, N, off0⟩) = .ok N
        by rw [payloadSize]] at h
      simp only [jumbfSizeFromPayloadSize, if_pos hN] at h
      try dsimp only at h
      rw [writePayload] at h
      try dsimp only at h
      rw [show PlaceholderDataBox.writePayload ⟨t, N, off0⟩
          ((s.writeAll (encode4 (N + 8))).writeAll
            (Builder.placeholder ⟨t, N, off0⟩).boxType) =
          (.error .countingSeek, ⟨t, N, off0⟩,
            (s.writeAll (encode4 (N + 8))).writeAll
              (Builder.placeholder ⟨t, N, off0⟩).boxType) by
        rw [PlaceholderDataBox.writePayload]
        simp [Sink.streamPosition, Sink.writeAll, hcb]] at h
      exact absurd h (by simp)
    | false =>
      rw [writeJumbf_placeholder hcb hpos h4 hN] at h
      simp only [Prod.mk.injEq] at h
      rw [← h.2.2]
      simp +arith [builderJumbfBytes, builderPayloadBytes, Builder.boxType,
        List.append_assoc, hpos, hcb, encode4_length, h4]
  | superBox hdesc hch =>
    rename_i desc children
    rw [writeJumbf, hp] at h
    simp only [jumbfSizeFromPayloadSize, if_pos hn] at h
    try dsimp only at h
    obtain ⟨ld, np, cb⟩ := s
    have hpos2 : np = ld.length := hpos
    rw [Sink.writeAll_mk _ hpos2,
      Sink.writeAll_mk _ (by simp [hpos2])] at h
    rw [writePayload] at h
    split at h
    · exact absurd h (by simp)
    · rename_i r1 desc2 s4 heq1
      try dsimp only at h
      simp only [Prod.mk.injEq] at h
      obtain ⟨h1, hmk, h3⟩ := h
      have hs4 := descWriteJumbf_sc hdesc
        (by simp +arith [hpos2, encode4_length]; try omega) heq1
      obtain ⟨ch2, s5, hw2⟩ := exists_ok_of_fst_ok h1
      have hs5 := writeJumbfChildren_sc hch
        (by rw [hs4]; simp +arith [hpos2, encode4_length]; try omega) hw2
      have h4 : s5 = s2 := by rw [hw2] at h3; exact h3
      rw [← h4, hs5, hs4]
      rw [hlen, builderPayloadBytes]
      simp +arith [builderJumbfBytes, builderPayloadBytes, Builder.boxType,
        SUPER_BOX_TYPE, encode4_length, List.append_assoc]
termination_by (sizeOf b, 3)

/-- Writing a list of tag-consistent children successfully appends exactly
their concatenated frames. -/
theorem writeJumbfChildren_sc {cs : List Builder} (hsc : ∀ c ∈ cs, SCB c)
    {s : Sink} {cs2 : List Builder} {s2 : Sink} (hpos : s.pos = s.data.length)
    (h : writeJumbfChildren cs s = (.ok (), cs2, s2)) :
    s2 = ⟨s.data ++ childrenJumbfBytesB cs,
      s.pos + (childrenJumbfBytesB cs).length, s.counting⟩ := by
  cases cs with
  | nil =>
    rw [writeJumbfChildren] at h
    simp only [Prod.mk.injEq] at h
    rw [← h.2.2]
    simp [childrenJumbfBytesB]
  | cons c0 rest =>
    rw [writeJumbfChildren] at h
    split at h
    · exact absurd h (by simp)
    · rename_i r1 c2 s3 heq1
      try dsimp only at h
      simp only [Prod.mk.injEq] at h
      obtain ⟨h1, hcons, h3⟩ := h
      have hs3 := writeJumbf_sc (hsc c0 (by simp)) hpos heq1
      obtain ⟨rest2, s4, hw2⟩ := exists_ok_of_fst_ok h1
      have hs4 := writeJumbfChildren_sc (fun c hcm => hsc c (by simp [hcm]))
        (by rw [hs3]; simp +arith [hpos]) hw2
      have h4 : s4 = s2 := by rw [hw2] at h3; exact h3
      rw [← h4, hs4, hs3]
      simp +arith [childrenJumbfBytesB, List.append_assoc]
termination_by (sizeOf cs, 4)

end


mutual

/-- A successful, in-bounds `payload_size` bounds every payload in the
builder tree. -/
theorem boundedB_of_success {b : Builder} (hsc : SCB b) {m : Nat}
    (h : payloadSize b = .ok m) (hm : m ≤ MAX_32BIT_PAYLOAD_SIZE) : BoundedB b := by
  cases hsc with
  | dataBox h4 =>
    rename_i t d
    rw [payloadSize] at h
    exact .dataBox (by rw [Except.ok.inj h]; exact hm)
  | placeholder h4 =>
    rename_i p
    rw [payloadSize] at h
    exact .placeholder (by rw [Except.ok.inj h]; exact hm)
  | superBox hdesc hch =>
    rename_i desc children
    obtain ⟨dsize, csize, hdsz, hdle, hcsz, hnval⟩ := payloadSize_superBox_guard h
    refine .superBox (boundedDesc_of_success hdesc hdsz hdle)
      (boundedList_of_success hch hcsz) ?_
    have h1 := payloadSize_sc (.superBox hdesc hch) h
    omega
termination_by (sizeOf b, 1)

/-- A successful children size sum bounds every child. -/
theorem boundedList_of_success {cs : List Builder} (hsc : ∀ c ∈ cs, SCB c) {m : Nat}
    (h : payloadSizeChildren cs = .ok m) : ∀ c ∈ cs, BoundedB c := by
  cases cs with
  | nil =>
    intro c hc
    exact absurd hc (by simp)
  | cons c0 rest =>
    rw [payloadSizeChildren, jumbfSizeOf] at h
    rcases hp : payloadSize c0 with e | k <;> rw [hp] at h
    · exact absurd h (by simp)
    · by_cases hk : k ≤ MAX_32BIT_PAYLOAD_SIZE
      · simp only [jumbfSizeFromPayloadSize, if_pos hk] at h
        try dsimp only at h
        rcases hr : payloadSizeChildren rest with e | mr <;> rw [hr] at h
        · exact absurd h (by simp)
        · intro c hc
          rcases (by simpa using hc : c = c0 ∨ c ∈ rest) with rfl | hmem
          · exact boundedB_of_success (hsc c (by simp)) hp hk
          · exact boundedList_of_success (fun x hx => hsc x (by simp [hx])) hr c hmem
      · simp only [jumbfSizeFromPayloadSize, if_neg hk] at h
        exact absurd h (by simp)
termination_by (sizeOf cs, 2)

/-- A successful, in-bounds description-box size bounds the description
payload and the private box's entire tree. -/
theorem boundedDesc_of_success {desc : DescriptionBoxBuilder} (hsc : SCDesc desc)
    {m : Nat} (h : descPayloadSize desc = .ok m)
    (hm : m ≤ MAX_32BIT_PAYLOAD_SIZE) : BoundedDesc desc := by
  obtain ⟨uuid, label, requestable, id, hash, priv, hdeq⟩ :
      ∃ u l r i hh p, desc = .mk u l r i hh p := by
    cases desc
    exact ⟨_, _, _, _, _, _, rfl⟩
  rw [hdeq] at h hsc ⊢
  have hd : (descPayloadBytesB
      (.mk uuid label requestable id hash priv)).length ≤
      MAX_32BIT_PAYLOAD_SIZE := by
    have := descPayloadSize_sc hsc h
    omega
  rcases priv with _ | pb
  · exact .mk (by intro pb hpb; exact absurd hpb (by simp)) hd
  · have hscpb : SCB pb := by
      cases hsc with
      | mk hpriv => exact hpriv pb rfl
    have hdec : sizeOf pb < sizeOf desc := by
      rw [hdeq]
      simp +arith
    obtain ⟨d3, s3, hw, -⟩ := descPayloadSize_ok_inv h
    obtain ⟨s0, pb2, s4, hwp⟩ := descWritePayload_priv_ok hw
    obtain ⟨n, hn, hnle⟩ := writeJumbf_ok_guard hwp
    refine .mk ?_ hd
    intro x hx
    obtain rfl : pb = x := by simpa using hx
    exact boundedB_of_success hscpb hn hnle
termination_by (sizeOf desc, 0)
decreasing_by
  all_goals apply Prod.Lex.left
  all_goals exact hdec

end


/-- The bytes of the optional private box field, for an arbitrary private
builder. -/
def privFieldBytesB : Option Builder → List Nat
  | some pb => builderJumbfBytes pb
  | none => []

/-- The data box recovered by re-parsing a private builder's frame written
at address `a`. -/
def privBoxAtB (a : Nat) (pb : Builder) : DataBox :=
  ⟨pb.boxType, ⟨a + 8, builderPayloadBytes pb⟩, ⟨a, builderJumbfBytes pb⟩⟩

/-- `descPayloadBytesB` spelled with the named field helpers. -/
theorem descPayloadBytesB_eq (uuid : List Nat) (label : Option (List Nat))
    (requestable : Bool) (id : Option Nat) (hash : Option (List Nat))
    (priv : Option Builder) :
    descPayloadBytesB (.mk uuid label requestable id hash priv) =
      uuid ++ [descTogglesB label requestable id hash priv] ++
      labelFieldBytes label ++ idFieldBytes id ++ hashFieldBytes hash ++
      privFieldBytesB priv := by
  cases priv <;> rw [descPayloadBytesB] <;> rfl

/-- Toggle bit 0 of the generalized toggles byte records `requestable`. -/
theorem descTogglesB_and1 (label : Option (List Nat)) (req : Bool) (id : Option Nat)
    (hash : Option (List Nat)) (priv : Option Builder) :
    decide (descTogglesB label req id hash priv &&& 1 ≠ 0) = req := by
  rcases label with _ | l <;> rcases id with _ | v <;> rcases hash with _ | h <;>
    rcases priv with _ | c <;> cases req <;> simp +decide [descTogglesB]

/-- Toggle bit 1 of the generalized toggles byte records label presence. -/
theorem descTogglesB_and2 (label : Option (List Nat)) (req : Bool) (id : Option Nat)
    (hash : Option (List Nat)) (priv : Option Builder) :
    (descTogglesB label req id hash priv &&& 2 = 0) ↔ label = none := by
  rcases label with _ | l <;> rcases id with _ | v <;> rcases hash with _ | h <;>
    rcases priv with _ | c <;> cases req <;> simp +decide [descTogglesB]

/-- Toggle bit 2 of the generalized toggles byte records id presence. -/
theorem descTogglesB_and4 (label : Option (List Nat)) (req : Bool) (id : Option Nat)
    (hash : Option (List Nat)) (priv : Option Builder) :
    (descTogglesB label req id hash priv &&& 4 = 0) ↔ id = none := by
  rcases label with _ | l <;> rcases id with _ | v <;> rcases hash with _ | h <;>
    rcases priv with _ | c <;> cases req <;> simp +decide [descTogglesB]

/-- Toggle bit 3 of the generalized toggles byte records hash presence. -/
theorem descTogglesB_and8 (label : Option (List Nat)) (req : Bool) (id : Option Nat)
    (hash : Option (List Nat)) (priv : Option Builder) :
    (descTogglesB label req id hash priv &&& 8 = 0) ↔ hash = none := by
  rcases label with _ | l <;> rcases id with _ | v <;> rcases hash with _ | h <;>
    rcases priv with _ | c <;> cases req <;> simp +decide [descTogglesB]

/-- Toggle bit 4 of the generalized toggles byte records private-box
presence. -/
theorem descTogglesB_and16 (label : Option (List Nat)) (req : Bool) (id : Option Nat)
    (hash : Option (List Nat)) (priv : Option Builder) :
    (descTogglesB label req id hash priv &&& 16 = 0) ↔ priv = none := by
  rcases label with _ | l <;> rcases id with _ | v <;> rcases hash with _ | h <;>
    rcases priv with _ | c <;> cases req <;> simp +decide [descTogglesB]

/-- The private-box reader re-parses exactly the frame any private builder
wrote: the builder's tag and its payload bytes. -/
theorem readPrivate_frameB (priv : Option Builder) {tog : Nat}
    (hbit : (tog &&& 16 = 0) ↔ priv = none)
    (hpt : ∀ pb ∈ priv, pb.boxType.length = 4)
    (hpd : ∀ pb ∈ priv, (builderPayloadBytes pb).length + 8 < 4294967296)
    (a : Nat) (r : List Nat) :
    DescriptionBox.readPrivate tog ⟨a, privFieldBytesB priv ++ r⟩ =
      .ok (priv.map (privBoxAtB a), ⟨a + (privFieldBytesB priv).length, r⟩) := by
  rcases priv with _ | pb
  · rw [DescriptionBox.readPrivate, if_neg (by simp [hbit.mpr rfl])]
    simp [privFieldBytesB]
  · have hbit2 : tog &&& 16 ≠ 0 := fun h0 => by simpa using hbit.mp h0
    rw [DescriptionBox.readPrivate, if_pos hbit2]
    simp only [privFieldBytesB, builderJumbfBytes]
    rw [DataBox.fromSlice_frame a pb.boxType (builderPayloadBytes pb) r
      (hpt pb rfl) (hpd pb rfl)]
    try dsimp only
    simp +arith [privBoxAtB, builderJumbfBytes, encode4_length, hpt pb rfl]


/-- Parsing the bytes the description-box builder wrote, with an arbitrary
private builder: every field is recovered, the private box re-parsed at its
on-wire address, and the remainder is exactly the trailing bytes. -/
theorem DescriptionBox.fromSource_frameB (a : Nat) (uuid : List Nat)
    (label : Option (List Nat)) (requestable : Bool) (id : Option Nat)
    (hash : Option (List Nat)) (priv : Option Builder) (rest : List Nat)
    (huuid : uuid.length = 16)
    (hlab : ∀ l ∈ label, 0 ∉ l ∧ validUtf8 l = true)
    (hid : ∀ v ∈ id, v < 4294967296)
    (hh : ∀ h ∈ hash, h.length = 32)
    (hpt : ∀ pb ∈ priv, pb.boxType.length = 4)
    (hpd : ∀ pb ∈ priv, (builderPayloadBytes pb).length + 8 < 4294967296)
    (hdlen : (descPayloadBytesB (.mk uuid label requestable id hash priv)).length +
      8 < 4294967296) :
    DescriptionBox.fromSource
        ⟨a, descJumbfBytesB (.mk uuid label requestable id hash priv) ++ rest⟩ =
      .ok (⟨uuid, label, requestable, id, hash,
          priv.map (privBoxAtB (a + 25 + (labelFieldBytes label).length +
            (idFieldBytes id).length + (hashFieldBytes hash).length)),
          ⟨a, descJumbfBytesB (.mk uuid label requestable id hash priv)⟩⟩,
        ⟨a + (descJumbfBytesB (.mk uuid label requestable id hash priv)).length,
          rest⟩) := by
  simp only [DescriptionBox.fromSource, descJumbfBytesB]
  set dp := descPayloadBytesB (.mk uuid label requestable id hash priv) with hdp
  have hplen : dp.length = 17 + (labelFieldBytes label).length +
      (idFieldBytes id).length + (hashFieldBytes hash).length +
      (privFieldBytesB priv).length := by
    rw [hdp, descPayloadBytesB_eq]
    simp +arith [huuid]
  have hdrop16 : dp.drop 16 = descTogglesB label requestable id hash priv ::
      (labelFieldBytes label ++ (idFieldBytes id ++ (hashFieldBytes hash ++
        (privFieldBytesB priv ++ ([] : List Nat))))) := by
    rw [hdp, descPayloadBytesB_eq]
    simp only [List.append_assoc]
    rw [show (16 : Nat) = uuid.length from huuid.symm, drop_len_append uuid _]
    simp
  have htu : dp.take 16 = uuid := by
    rw [hdp, descPayloadBytesB_eq]
    simp only [List.append_assoc]
    rw [show (16 : Nat) = uuid.length from huuid.symm]
    exact take_len_append uuid _
  rw [DataBox.fromSlice_frame a DESCRIPTION_BOX_TYPE dp rest rfl hdlen]
  simp only [bind, Except.bind]
  rw [DescriptionBox.fromBox]
  rw [if_neg (by simp)]
  rw [if_neg (by simp only [ByteSlice.len]; omega)]
  simp only [ByteSlice.drop, hdrop16, List.drop_one, List.tail_cons]
  try dsimp only
  rw [readLabel_frame label (descTogglesB_and2 label requestable id hash priv) hlab]
  simp only [bind, Except.bind]
  try dsimp only
  rw [readId_frame id (descTogglesB_and4 label requestable id hash priv) hid]
  simp only [bind, Except.bind]
  try dsimp only
  rw [readHash_frame hash (descTogglesB_and8 label requestable id hash priv) hh]
  simp only [bind, Except.bind]
  try dsimp only
  rw [readPrivate_frameB priv (descTogglesB_and16 label requestable id hash priv)
    hpt hpd]
  simp only [bind, Except.bind]
  try dsimp only
  rw [htu, descTogglesB_and1 label requestable id hash priv]
  simp +arith [encode4_length]
  constructor
  · rw [show a + (labelFieldBytes label).length + (idFieldBytes id).length +
        (hashFieldBytes hash).length + 25 =
        a + 25 + (labelFieldBytes label).length + (idFieldBytes id).length +
        (hashFieldBytes hash).length by omega]
  · simp [DESCRIPTION_BOX_TYPE]


/-- Parsing the concatenated child frames yields exactly the raw data
boxes, in order, consuming everything. -/
theorem boxesFromSource_childrenB (cs : List Builder) :
    ∀ a : Nat, (∀ c ∈ cs, c.boxType.length = 4 ∧
      (builderPayloadBytes c).length + 8 < 4294967296) →
    boxesFromSource ⟨a, childrenJumbfBytesB cs⟩ =
      .ok (rawBoxesAt a cs, ⟨a + (childrenJumbfBytesB cs).length, []⟩) := by
  induction cs with
  | nil =>
    intro a h
    rw [boxesFromSource_eq]
    simp [childrenJumbfBytesB, rawBoxesAt, ByteSlice.len]
  | cons c rest ih =>
    intro a h
    obtain ⟨ht4, hsz⟩ := h c (by simp)
    rw [boxesFromSource_eq]
    rw [if_neg (by
      simp only [ByteSlice.len, childrenJumbfBytesB, builderJumbfBytes,
        List.length_append, encode4]
      simp)]
    rw [show (⟨a, childrenJumbfBytesB (c :: rest)⟩ : ByteSlice) =
      ⟨a, encode4 ((builderPayloadBytes c).length + 8) ++ c.boxType ++
        builderPayloadBytes c ++ childrenJumbfBytesB rest⟩ by
        rw [childrenJumbfBytesB, builderJumbfBytes]]
    rw [DataBox.fromSlice_frame a c.boxType (builderPayloadBytes c)
      (childrenJumbfBytesB rest) ht4 hsz]
    try dsimp only
    rw [ih (a + 8 + (builderPayloadBytes c).length)
      (fun x hx => h x (by simp [hx]))]
    try dsimp only
    rw [rawBoxesAt, childrenJumbfBytesB, builderJumbfBytes]
    simp +arith [encode4_length, ht4, List.append_assoc]


/-- Every builder in the round-trip class reports a 4-byte box type. -/
theorem goodChild_boxType_len {c : Builder} (h : GoodChild c) :
    c.boxType.length = 4 := by
  cases h with
  | dataBox h4 hnj => exact h4
  | placeholder h4 hnj => exact h4
  | superBox hgood => rfl

/-- Builder sizes are positive. -/
theorem descBuilder_sizeOf_pos (desc : DescriptionBoxBuilder) : 0 < sizeOf desc := by
  cases desc
  simp +arith

set_option maxRecDepth 4000 in
mutual

/-- Re-parsing a `jumb`-framed data box whose payload is what a super-box
builder in the round-trip class wrote yields a structurally matching super
box, at any depth limit at least the builder's nesting depth. -/
theorem superParse_matches {desc : DescriptionBoxBuilder} {children : List Builder}
    (hgood : GoodSuper desc children) (hbdesc : BoundedDesc desc)
    (hbch : ∀ c ∈ children, BoundedB c)
    (d : Nat) (hdep : depthList children ≤ d) (a2 : Nat) (orig : ByteSlice) :
    ∃ sb, SuperBox.fromDataBoxWithDepthLimit
        ⟨SUPER_BOX_TYPE,
         ⟨a2, descJumbfBytesB desc ++ childrenJumbfBytesB children⟩, orig⟩ d =
        .ok sb ∧
      sb.original = orig ∧ MatchesSuper desc children sb := by
  obtain ⟨uuid, label, requestable, id, hash, priv, hdeq⟩ :
      ∃ u l r i hh p, desc = .mk u l r i hh p := by
    cases desc
    exact ⟨_, _, _, _, _, _, rfl⟩
  rw [hdeq] at hgood hbdesc ⊢
  cases hgood with
  | mk huuid hlab hid hh hpriv hch =>
  cases hbdesc with
  | mk hbpriv hbd =>
  rw [SuperBox.fromDataBoxWithDepthLimit_eq, superBoxShell, if_neg (by simp)]
  try dsimp only
  rw [DescriptionBox.fromSource_frameB a2 uuid label requestable id hash priv
    (childrenJumbfBytesB children) huuid hlab hid hh
    (fun pb hpb => (hpriv pb hpb).boxType_len)
    (fun pb hpb => by
      have := (hbpriv pb hpb).payload_le
      simp only [MAX_32BIT_PAYLOAD_SIZE] at this
      omega)
    (by simp only [MAX_32BIT_PAYLOAD_SIZE] at hbd; omega)]
  try dsimp only
  rw [boxesFromSource_childrenB children _
    (fun c hc => ⟨goodChild_boxType_len (hch c hc), by
      have := (hbch c hc).payload_le
      simp only [MAX_32BIT_PAYLOAD_SIZE] at this
      omega⟩)]
  try dsimp only
  obtain ⟨out, hmap, hm⟩ := mapChildren_matches hch hbch d hdep
    (a2 + (descJumbfBytesB (.mk uuid label requestable id hash priv)).length)
  rw [hmap]
  try dsimp only
  refine ⟨.mk ⟨uuid, label, requestable, id, hash,
      priv.map (privBoxAtB (a2 + 25 + (labelFieldBytes label).length +
        (idFieldBytes id).length + (hashFieldBytes hash).length)),
      ⟨a2, descJumbfBytesB (.mk uuid label requestable id hash priv)⟩⟩
    out orig, rfl, rfl, ?_⟩
  refine .mk rfl rfl rfl rfl rfl ?_ ?_
  · rcases priv with _ | pb
    · exact .none
    · exact .some rfl rfl
  · exact hm
termination_by (sizeOf desc + sizeOf children, 1)

/-- Converting the raw child boxes written by a list of builders in the
round-trip class yields pointwise matching child boxes. -/
theorem mapChildren_matches {cs : List Builder}
    (hgood : ∀ c ∈ cs, GoodChild c) (hb : ∀ c ∈ cs, BoundedB c)
    (d : Nat) (hdep : depthList cs ≤ d) (a : Nat) :
    ∃ out, mapChildren (fun x =>
        if x.tbox = SUPER_BOX_TYPE ∧ 0 < d then
          (SuperBox.fromDataBoxWithDepthLimit x (d - 1)).map .superBox
        else .ok (.dataBox x)) (rawBoxesAt a cs) = .ok out ∧
      MatchesChildren cs out := by
  rcases hcs : cs with _ | ⟨c, rest⟩
  · rw [rawBoxesAt, mapChildren]
    exact ⟨[], rfl, .nil⟩
  · rw [hcs] at hgood hb hdep
    have hdec1 : sizeOf rest < sizeOf cs := by
      rw [hcs]
      simp +arith
    have hdeprest : depthList rest ≤ d := by
      rw [depthList] at hdep
      omega
    obtain ⟨out, hmap, hm⟩ := mapChildren_matches
      (fun x hx => hgood x (by simp [hx])) (fun x hx => hb x (by simp [hx]))
      d hdeprest (a + 8 + (builderPayloadBytes c).length)
    have hgc := hgood c (by simp)
    cases hceq : c with
    | dataBox t dd =>
      rw [hceq] at hgc hmap
      cases hgc with
      | dataBox h4 hnj =>
      rw [rawBoxesAt, mapChildren]
      try dsimp only
      rw [if_neg (fun hand => hnj (by
        simpa [Builder.boxType] using hand.1))]
      rw [hmap]
      try dsimp only
      refine ⟨_, rfl, .cons (.dataBox ?_ ?_) hm⟩
      · simp [Builder.boxType]
      · rw [builderPayloadBytes]
    | placeholder p =>
      rw [hceq] at hgc hmap
      cases hgc with
      | placeholder h4 hnj =>
      rw [rawBoxesAt, mapChildren]
      try dsimp only
      rw [if_neg (fun hand => hnj (by
        simpa [Builder.boxType] using hand.1))]
      rw [hmap]
      try dsimp only
      refine ⟨_, rfl, .cons (.placeholder ?_ ?_) hm⟩
      · simp [Builder.boxType]
      · rw [builderPayloadBytes]
    | superBox desc2 ch2 =>
      rw [hceq] at hgc hmap hdep
      cases hgc with
      | superBox hgs =>
      have hbc := hb c (by simp)
      rw [hceq] at hbc
      have hdec : sizeOf desc2 + sizeOf ch2 < sizeOf cs := by
        rw [hcs, hceq]
        simp +arith
      have hd0 : 0 < d := by
        have h1 : c.depth ≤ depthList (c :: rest) := by
          rw [depthList]
          exact le_max_left _ _
        rw [hceq, Builder.depth] at h1
        omega
      have hdep2 : depthList ch2 ≤ d - 1 := by
        have h1 : c.depth ≤ depthList (c :: rest) := by
          rw [depthList]
          exact le_max_left _ _
        rw [hceq, Builder.depth] at h1
        omega
      obtain ⟨hbdesc2, hbch2⟩ : BoundedDesc desc2 ∧ ∀ x ∈ ch2, BoundedB x := by
        cases hbc with
        | superBox hdesc hchb htot => exact ⟨hdesc, hchb⟩
      obtain ⟨sb, hsb, hsbo, hms⟩ := superParse_matches hgs hbdesc2 hbch2
        (d - 1) hdep2 (a + 8)
        (⟨a, builderJumbfBytes (.superBox desc2 ch2)⟩ : ByteSlice)
      rw [rawBoxesAt, mapChildren]
      try dsimp only
      rw [if_pos ⟨by simp [Builder.boxType], hd0⟩]
      rw [show builderPayloadBytes (.superBox desc2 ch2) =
        descJumbfBytesB desc2 ++ childrenJumbfBytesB ch2
        from by rw [builderPayloadBytes]] at hmap ⊢
      rw [show (Builder.superBox desc2 ch2).boxType = SUPER_BOX_TYPE from rfl]
      rw [hsb]
      try dsimp only
      rw [hmap]
      try dsimp only
      exact ⟨_, rfl, .cons (.superBox hms) hm⟩
termination_by (sizeOf cs, 0)
decreasing_by
  all_goals first
    | (apply Prod.Lex.left; exact hdec)
    | (apply Prod.Lex.left; exact hdec1)
    | decreasing_tactic

end

mutual

/-- Child builders in the round-trip class have 4-byte tags throughout. -/
theorem goodChild_scb {c : Builder} (h : GoodChild c) : SCB c := by
  cases hceq : c with
  | dataBox t d =>
    rw [hceq] at h
    cases h with
    | dataBox h4 hnj => exact .dataBox h4
  | placeholder p =>
    rw [hceq] at h
    cases h with
    | placeholder h4 hnj => exact .placeholder h4
  | superBox desc2 ch2 =>
    rw [hceq] at h
    cases h with
    | superBox hgood =>
      have hdec : sizeOf desc2 + sizeOf ch2 < sizeOf c := by
        rw [hceq]
        simp +arith
      exact goodSuper_scb hgood
termination_by (sizeOf c, 1)
decreasing_by
  all_goals apply Prod.Lex.left
  all_goals exact hdec

/-- Super-box builders in the round-trip class are tag-consistent. -/
theorem goodSuper_scb {desc : DescriptionBoxBuilder} {children : List Builder}
    (h : GoodSuper desc children) : SCB (.superBox desc children) := by
  obtain ⟨uuid, label, requestable, id, hash, priv, hdeq⟩ :
      ∃ u l r i hh p, desc = .mk u l r i hh p := by
    cases desc
    exact ⟨_, _, _, _, _, _, rfl⟩
  rw [hdeq] at h ⊢
  cases h with
  | mk huuid hlab hid hh hpriv hch =>
    refine .superBox (.mk hpriv) (fun c hc => ?_)
    have hdec : sizeOf c < sizeOf desc + sizeOf children := by
      have h1 := List.sizeOf_lt_of_mem hc
      have h0 := descBuilder_sizeOf_pos desc
      omega
    exact goodChild_scb (hch c hc)
termination_by (sizeOf desc + sizeOf children, 0)
decreasing_by
  all_goals apply Prod.Lex.left
  all_goals exact hdec

end

/-- C1 (amended): for every super-box builder in the round-trip class —
each child is a data box, a placeholder or (recursively) a class super
box; no data or placeholder child uses the reserved `jumb` tag; the label
(if any) is NUL-free (labels are valid UTF-8 `String`s, the UUID is 16
bytes, the id a `u32` and the hash 32 bytes by the builder's own types);
the private box is any builder with 4-byte tags inside; and the nesting
depth is at most `usize::MAX` — if `write_jumbf` on a fresh stream
succeeds then `SuperBox::from_source` on the emitted bytes succeeds,
consumes exactly the emitted bytes, records them as the super box's
original slice, and yields a structurally matching super box: equal UUID,
label, requestable flag, id and hash; the private box re-read with the
builder's tag and written payload; and the children matching pointwise in
order, where a data box keeps its tag and payload, a placeholder comes
back as the data box of zeros it wrote, and a nested super box matches
recursively. -/
theorem c1_roundtrip {desc : DescriptionBoxBuilder} {children : List Builder}
    {b2 : Builder} {s2 : Sink}
    (hgood : GoodSuper desc children) (hdep : depthList children ≤ USIZE_MAX)
    (hw : writeJumbf (.superBox desc children) Sink.emptySink = (.ok (), b2, s2)) :
    ∃ sb rem, SuperBox.fromSource ⟨0, s2.data⟩ = .ok (sb, rem) ∧
      rem.bytes = [] ∧ sb.original.bytes = s2.data ∧
      MatchesSuper desc children sb := by
  have hsc : SCB (.superBox desc children) := goodSuper_scb hgood
  obtain ⟨n, hp, hn⟩ := writeJumbf_ok_guard hw
  have hlen := payloadSize_sc hsc hp
  have hbd : BoundedB (.superBox desc children) := boundedB_of_success hsc hp hn
  obtain ⟨hbdesc, hbch⟩ : BoundedDesc desc ∧ ∀ c ∈ children, BoundedB c := by
    cases hbd with
    | superBox hdesc2 hch2 htot => exact ⟨hdesc2, hch2⟩
  have hs2 := writeJumbf_sc hsc rfl hw
  have hdata : s2.data = builderJumbfBytes (.superBox desc children) := by
    rw [hs2]
    exact List.nil_append _
  have hpayload : builderPayloadBytes (.superBox desc children) =
      descJumbfBytesB desc ++ childrenJumbfBytesB children := by
    rw [builderPayloadBytes]
  have hplen : (descJumbfBytesB desc ++ childrenJumbfBytesB children).length + 8 <
      4294967296 := by
    rw [← hpayload, ← hlen]
    simp only [MAX_32BIT_PAYLOAD_SIZE] at hn
    omega
  have hbytes : builderJumbfBytes (.superBox desc children) =
      encode4 ((descJumbfBytesB desc ++ childrenJumbfBytesB children).length + 8) ++
        SUPER_BOX_TYPE ++ (descJumbfBytesB desc ++ childrenJumbfBytesB children) ++
        [] := by
    rw [builderJumbfBytes, hpayload]
    simp [Builder.boxType, List.append_assoc]
  obtain ⟨sb, hsb, hsbo, hms⟩ := superParse_matches hgood hbdesc hbch
    USIZE_MAX hdep (0 + 8)
    (⟨0, encode4 ((descJumbfBytesB desc ++ childrenJumbfBytesB children).length + 8) ++
      SUPER_BOX_TYPE ++ (descJumbfBytesB desc ++ childrenJumbfBytesB children)⟩ :
      ByteSlice)
  refine ⟨sb,
    ⟨0 + 8 + (descJumbfBytesB desc ++ childrenJumbfBytesB children).length, []⟩,
    ?_, rfl, ?_, hms⟩
  · rw [hdata, hbytes]
    simp only [SuperBox.fromSource, SuperBox.fromSourceWithDepthLimit]
    rw [DataBox.fromSlice_frame 0 SUPER_BOX_TYPE
      (descJumbfBytesB desc ++ childrenJumbfBytesB children) [] rfl hplen]
    simp only [bind, Except.bind]
    try dsimp only
    rw [hsb]
  · rw [hdata, hsbo, builderJumbfBytes, hpayload]
    simp [Builder.boxType, List.append_assoc]

/-- C1 witness: a concrete class super box (16-byte zero UUID, no label, no
id, no hash, no private box, no children) round trips through
`write_jumbf` and `SuperBox::from_source`. -/
theorem c1_roundtrip_witness :
    ∃ sb rem, SuperBox.fromSource
        ⟨0, superJumbfBytes (List.replicate 16 0) none false none none none []⟩ =
        .ok (sb, rem) ∧ rem.bytes = [] ∧
      sb.original.bytes =
        superJumbfBytes (List.replicate 16 0) none false none none none [] ∧
      MatchesSuper ⟨List.replicate 16 0, none, false, none, none, none⟩ [] sb :=
  c1_roundtrip
    (.mk (by simp) (by simp) (by simp) (by simp) (by simp) (by simp))
    (by rw [depthList.eq_def]; exact Nat.zero_le _)
    (writeJumbf_builderOf (List.replicate 16 0) none false none none none []
      (s := Sink.emptySink) rfl (by simp) (by decide) (by simp) (by decide))


end Jumbf
